import Mathlib

/-!
Verification of the procedural world-generation engine
(apps/opencs/model/procs) against its specification.

The development shallowly embeds the C++ sources into Lean:

* machine integers (`uint64_t`, `uint32_t`, `int`) become `Nat`/`Int` with
  explicit reduction `% 2 ^ 64` (resp. `% 2 ^ 32`) where overflow matters;
* `float` quantities become exact rationals `ℚ`; the handful of
  transcendental library calls (`std::cos`, `std::sin`, `std::sqrt`) that
  have no exact rational counterpart are modelled as explicit oracle
  functions carried in an environment record, with the facts the proofs
  need about them stated as hypotheses (every such fact is true of the
  real functions);
* the `std::function` callback members that may be empty are modelled as
  `Option` fields, mirroring the null checks in the sources;
* unbounded loops (`while` loops driven by work queues) are modelled with
  an explicit fuel parameter; all stated invariants hold for every fuel.

Each claim theorem cites the claim id in its doc comment.
-/

namespace CSMProcs

/-! ## RandomGenerator (noise.cpp lines 11-66)

`uint64_t` state is a natural number kept below `2 ^ 64`.
-/

def mask64 : ℕ := 2 ^ 64

/-- One xorshift64* state transition (noise.cpp lines 23-30, state part). -/
def xorshiftStep (s : ℕ) : ℕ :=
  let s1 := s ^^^ (s >>> 12)
  let s2 := s1 ^^^ ((s1 <<< 25) % mask64)
  s2 ^^^ (s2 >>> 27)

/-- The multiplier constant of xorshift64*. -/
def xorshiftMult : ℕ := 0x2545F4914F6CDD1D

/-- Seed-scrambling constant used by the constructor and setSeed. -/
def seedConst : ℕ := 0x5DEECE66D

structure RandomGenerator where
  state : ℕ
deriving DecidableEq

namespace RandomGenerator

/-- `RandomGenerator(seed)` : state = seed XOR 0x5DEECE66D. -/
def ofSeed (seed : ℕ) : RandomGenerator :=
  ⟨(seed % mask64) ^^^ seedConst⟩

/-- `next()` : advance the state by xorshift64* and return state * mult (mod 2^64). -/
def next (g : RandomGenerator) : ℕ × RandomGenerator :=
  let s := xorshiftStep g.state
  ((s * xorshiftMult) % mask64, ⟨s⟩)

/-- `nextInt(max)` : 0 when max = 0 (without consuming state), else next() % max. -/
def nextInt (g : RandomGenerator) (max : ℕ) : ℕ × RandomGenerator :=
  if max = 0 then (0, g)
  else
    let (v, g1) := g.next
    (v % max, g1)

/-- `nextIntRange(min, max)` : min when min ≥ max, else min + next() % (max - min + 1). -/
def nextIntRange (g : RandomGenerator) (min max : ℤ) : ℤ × RandomGenerator :=
  if min ≥ max then (min, g)
  else
    let (v, g1) := g.next
    (min + (v % (max - min + 1).toNat : ℕ), g1)

/-- `nextFloat()` : (next() & 0xFFFFFFFF) / 2^32, an exact rational in [0,1). -/
def nextFloat (g : RandomGenerator) : ℚ × RandomGenerator :=
  let (v, g1) := g.next
  (((v % 2 ^ 32 : ℕ) : ℚ) / (2 ^ 32 : ℚ), g1)

/-- `nextFloatRange(min, max)` : min + nextFloat() * (max - min). -/
def nextFloatRange (g : RandomGenerator) (min max : ℚ) : ℚ × RandomGenerator :=
  let (f, g1) := g.nextFloat
  (min + f * (max - min), g1)

/-- `nextBool(p)` : nextFloat() < p. -/
def nextBool (g : RandomGenerator) (p : ℚ) : Bool × RandomGenerator :=
  let (f, g1) := g.nextFloat
  (decide (f < p), g1)

/-- The n-th raw output of the generator constructed from a given seed. -/
def streamFrom (g : RandomGenerator) : ℕ → ℕ
  | 0 => g.next.1
  | n + 1 => streamFrom g.next.2 n

end RandomGenerator

/-- The output stream of `RandomGenerator(seed)`. -/
def rngStream (seed : ℕ) : ℕ → ℕ :=
  (RandomGenerator.ofSeed seed).streamFrom

/-! ## ProceduralGenerator::initializeNoise (proceduralgenerator.cpp lines 57-69)

The only environment input of the noise initialisation is the steady
clock, read precisely when `mState.seed == 0`; we model the clock reading
as an explicit parameter.
-/

/-- The seed actually used by `initializeNoise`: the configured seed, or the
current clock value when the configured seed is zero
(proceduralgenerator.cpp lines 59-64). -/
def effectiveSeed (seed clock : ℕ) : ℕ :=
  if seed = 0 then clock else seed

/-- The three generator seeds produced by `initializeNoise`
(proceduralgenerator.cpp lines 66-68): PerlinNoise(seed),
VoronoiNoise(seed + 1), RandomGenerator(seed + 2). -/
structure NoiseInit where
  perlinSeed : ℕ
  voronoiSeed : ℕ
  rngSeed : ℕ
deriving DecidableEq

def initializeNoise (seed clock : ℕ) : NoiseInit :=
  let s := effectiveSeed seed clock
  ⟨s, s + 1, s + 2⟩

/-- The orchestrator RNG output stream after `initializeNoise`
(the stream of `mRng`). -/
def initRngOutput (seed clock : ℕ) (n : ℕ) : ℕ :=
  rngStream (initializeNoise seed clock).rngSeed n

/-! ## ProceduralGenerator::generate / cancel observable outcome
(proceduralgenerator.cpp lines 208-211 and 226-324)

`generate()` returns a `bool`; the only other observable run status is
`isRunning()`.  Every enabled phase checks the cooperative `mCancelled`
flag and returns `!mCancelled`; a thrown exception is caught at the top
level, which reports an error, clears `mRunning` and returns `false`.
We model one run by the list of per-phase events.
-/

inductive PhaseEvent where
  /-- The phase ran to completion without interference. -/
  | normal : PhaseEvent
  /-- `cancel()` was invoked while the phase ran; its loop guard observes
  `mCancelled` and the phase returns `!mCancelled = false`. -/
  | cancelHere : PhaseEvent
  /-- An injected callback threw; the exception unwinds to the top-level
  `try`/`catch` of `generate()`. -/
  | throwHere : PhaseEvent
deriving DecidableEq

structure GenState where
  running : Bool
  cancelled : Bool
deriving DecidableEq

/-- One generation phase: `throwHere` propagates an exception,
`cancelHere` sets the flag and makes the phase return `false`
(every phase function ends in `return !mCancelled`), `normal` returns
`!mCancelled` for the current flag. -/
def runPhase (ev : PhaseEvent) (st : GenState) : Except Unit (Bool × GenState) :=
  match ev with
  | .throwHere => .error ()
  | .cancelHere => .ok (false, { st with cancelled := true })
  | .normal => .ok (!st.cancelled, st)

/-- The phase-sequencing loop of `generate()`: a phase returning `false`
makes `generate` clear `mRunning` and return `false`; an exception is
caught once at the top (clear `mRunning`, return `false`); after the last
phase `generate` clears `mRunning` and returns `!mCancelled`.
The result is the observable pair (return value, `isRunning()` after). -/
def generateGo : List PhaseEvent → GenState → Bool × Bool
  | [], st => (!st.cancelled, false)
  | ev :: rest, st =>
    match runPhase ev st with
    | .error _ => (false, false)
    | .ok (true, st1) => generateGo rest st1
    | .ok (false, _) => (false, false)

/-- `generate()` : sets `mRunning := true`, `mCancelled := false`, then runs
the enabled phases (proceduralgenerator.cpp lines 226-324). -/
def generateRun (evs : List PhaseEvent) : Bool × Bool :=
  generateGo evs ⟨true, false⟩

/-- The post-run status displayed by the host dialog
(proceduralgeneratordialog.cpp lines 694-710): success message if
`generate()` returned true, else the "Generation cancelled." message if
`isRunning()` is still true, else the "Generation failed." message. -/
inductive DialogStatus where
  | complete : DialogStatus
  | cancelledMsg : DialogStatus
  | failed : DialogStatus
deriving DecidableEq

def dialogOutcome (r : Bool × Bool) : DialogStatus :=
  if r.1 then .complete else if r.2 then .cancelledMsg else .failed

/-! ## PerlinNoise (noise.cpp lines 70-195)

All `float` arithmetic is modelled exactly over `ℚ`.
-/

/-- Swap two positions of a list (std::swap(p[i], p[j])). -/
def listSwap (p : List ℕ) (i j : ℕ) : List ℕ :=
  let a := p.getD i 0
  let b := p.getD j 0
  (p.set i b).set j a

/-- The Fisher-Yates loop of `PerlinNoise::setSeed`
(noise.cpp lines 85-89): iteration `k+1` handles loop index i = k+1,
drawing j = nextInt(i + 1) and swapping p[i] with p[j]. -/
def fisherYates : ℕ → List ℕ → RandomGenerator → List ℕ × RandomGenerator
  | 0, p, g => (p, g)
  | k + 1, p, g =>
    let (j, g1) := g.nextInt (k + 2)
    fisherYates k (listSwap p (k + 1) j) g1

/-- `PerlinNoise::setSeed` : shuffle 0..255 with RandomGenerator(seed),
then duplicate the table to 512 entries (noise.cpp lines 75-97). -/
def permTable (seed : ℕ) : List ℕ :=
  let p := (fisherYates 255 (List.range 256) (RandomGenerator.ofSeed seed)).1
  p ++ p

/-- `PerlinNoise::fade` : 6t^5 - 15t^4 + 10t^3 (noise.cpp line 101). -/
def fade (t : ℚ) : ℚ :=
  t * t * t * (t * (t * 6 - 15) + 10)

/-- `PerlinNoise::lerp` (noise.cpp line 106). -/
def lerp (t a b : ℚ) : ℚ :=
  a + t * (b - a)

/-- `PerlinNoise::grad` (noise.cpp lines 109-115). -/
def grad (hash : ℕ) (x y : ℚ) : ℚ :=
  let h := hash % 8
  let u := if h < 4 then x else y
  let v := if h < 4 then y else x
  (if h &&& 1 = 1 then -u else u) + (if h &&& 2 ≠ 0 then -2 * v else 2 * v)

/-- `PerlinNoise::noise2D` (noise.cpp lines 117-138).  The two's-complement
bit mask `static_cast<int>(std::floor(x)) & 255` is the nonnegative
residue `⌊x⌋ mod 256`. -/
def noise2D (t : List ℕ) (x y : ℚ) : ℚ :=
  let X : ℕ := (Rat.floor x % 256).toNat
  let Y : ℕ := (Rat.floor y % 256).toNat
  let xf : ℚ := x - Rat.floor x
  let yf : ℚ := y - Rat.floor y
  let u := fade xf
  let v := fade yf
  let A := t.getD X 0 + Y
  let AA := t.getD A 0
  let AB := t.getD (A + 1) 0
  let B := t.getD (X + 1) 0 + Y
  let BA := t.getD B 0
  let BB := t.getD (B + 1) 0
  lerp v (lerp u (grad (t.getD AA 0) xf yf) (grad (t.getD BA 0) (xf - 1) yf))
    (lerp u (grad (t.getD AB 0) xf (yf - 1)) (grad (t.getD BB 0) (xf - 1) (yf - 1)))

/-- The octave loop shared by `fractalNoise2D` and `turbulence2D`
(noise.cpp lines 140-174): returns (total, maxValue) accumulated over the
remaining octaves, starting from the given amplitude and frequency.
`useAbs` selects the turbulence variant (|noise| per octave). -/
def octaveAcc (t : List ℕ) (x y pers lac : ℚ) (useAbs : Bool) :
    ℕ → ℚ → ℚ → ℚ × ℚ
  | 0, _, _ => (0, 0)
  | n + 1, amp, freq =>
    let base := noise2D t (x * freq) (y * freq)
    let contrib := (if useAbs then |base| else base) * amp
    let rest := octaveAcc t x y pers lac useAbs n (amp * pers) (freq * lac)
    (contrib + rest.1, amp + rest.2)

/-- `PerlinNoise::fractalNoise2D` (noise.cpp lines 140-156): total / maxValue. -/
def fractalNoise2D (t : List ℕ) (x y : ℚ) (octaves : ℕ) (pers lac : ℚ) : ℚ :=
  let acc := octaveAcc t x y pers lac false octaves 1 1
  acc.1 / acc.2

/-- `PerlinNoise::turbulence2D` (noise.cpp lines 158-174): total / maxValue. -/
def turbulence2D (t : List ℕ) (x y : ℚ) (octaves : ℕ) (pers lac : ℚ) : ℚ :=
  let acc := octaveAcc t x y pers lac true octaves 1 1
  acc.1 / acc.2

/-! ## InfrastructureGenerator placement validation
(infrastructuregenerator.cpp lines 853-1117, infrastructuregenerator.hpp)

The terrain callbacks (`mGetHeight`, `mGetSlope`, `mGetWaterLevel`) may be
unset `std::function`s, hence `Option` fields.  `std::cos`, `std::sin` and
`std::sqrt` are transcendental; they appear as oracle fields of the
environment, and every fact a theorem needs about them is a hypothesis
(true of the real functions).
-/

/-- infrastructuregenerator.hpp lines 32-101. -/
inductive InfrastructureType where
  | MainRoad | TradeRoute | LocalRoad | Path
  | StoneBridge | WoodBridge | Pontoon
  | Signpost | Milestone | Shrine | Wayshrine | RestStop
  | Watchtower | GuardPost | Beacon | Fortlet
  | Dock | Pier | Lighthouse | FishingHut | WaterMill
  | Farm | Windmill | Barn | Silo | Orchard | Vineyard
  | Mine | Quarry | LumberCamp | CharcoalKiln | Sawmill | Smelter
  | Ruins | AncientTower | BurialMound | StandingStone | AncientShrine
  | BanditCamp | HunterCamp | TravelerCamp | MerchantCamp | MilitaryCamp
  | Well | Crossroads | Cemetery | Garden | Monument
deriving DecidableEq

/-- infrastructuregenerator.hpp lines 104-132, with the C++ default member
initializers. -/
structure PlacementContext where
  minHeight : ℚ := -10000
  maxHeight : ℚ := 10000
  maxSlope : ℚ := 1/2
  nearWater : Bool := false
  onWater : Bool := false
  avoidWater : Bool := true
  onHill : Bool := false
  inValley : Bool := false
  nearRoad : Bool := false
  roadDistance : ℚ := 200
  nearSettlement : Bool := false
  settlementDistance : ℚ := 1000
  awayFromSettlement : Bool := false
  minSettlementDistance : ℚ := 2000
  nearOreDeposit : Bool := false
  nearForest : Bool := false
  nearFertileLand : Bool := false
  minSpacingFromSame : ℚ := 500
  minSpacingFromAny : ℚ := 100
deriving DecidableEq

/-- `InfrastructureGenerator::getContextForType`
(infrastructuregenerator.cpp lines 853-934). -/
def getContextForType (ty : InfrastructureType) : PlacementContext :=
  match ty with
  | .Watchtower =>
    { onHill := true, maxSlope := 3/10, avoidWater := true, minSpacingFromSame := 2000 }
  | .Farm =>
    { maxSlope := 15/100, avoidWater := true, nearSettlement := true,
      settlementDistance := 1500, minSpacingFromSame := 500 }
  | .Mine =>
    { onHill := true, maxSlope := 6/10, avoidWater := true, awayFromSettlement := true,
      minSettlementDistance := 1000, minSpacingFromSame := 1500 }
  | .LumberCamp =>
    { maxSlope := 3/10, avoidWater := true, awayFromSettlement := true,
      minSettlementDistance := 800, minSpacingFromSame := 1000 }
  | .Ruins =>
    { maxSlope := 4/10, avoidWater := true, awayFromSettlement := true,
      minSettlementDistance := 1500, minSpacingFromSame := 2000 }
  | .AncientTower =>
    { maxSlope := 4/10, avoidWater := true, awayFromSettlement := true,
      minSettlementDistance := 1500, minSpacingFromSame := 2000 }
  | .BanditCamp =>
    { maxSlope := 25/100, avoidWater := true, nearRoad := true, roadDistance := 500,
      awayFromSettlement := true, minSettlementDistance := 1000,
      minSpacingFromSame := 2000 }
  | .FishingHut =>
    { nearWater := true, avoidWater := true, maxSlope := 2/10,
      minSpacingFromSame := 800 }
  | .StandingStone =>
    { maxSlope := 2/10, avoidWater := true, awayFromSettlement := true,
      minSettlementDistance := 500, minSpacingFromSame := 1500 }
  | .BurialMound =>
    { maxSlope := 2/10, avoidWater := true, awayFromSettlement := true,
      minSettlementDistance := 500, minSpacingFromSame := 1500 }
  | _ =>
    { maxSlope := 3/10, avoidWater := true, minSpacingFromSame := 500 }

/-- The callback / math-library environment of the generator. -/
structure InfraEnv where
  getHeight : Option (ℚ → ℚ → ℚ)
  getSlope : Option (ℚ → ℚ → ℚ)
  getWaterLevel : Option ℚ
  /-- Oracle standing in for `std::cos`. -/
  cosO : ℚ → ℚ
  /-- Oracle standing in for `std::sin`. -/
  sinO : ℚ → ℚ
  /-- Oracle standing in for `std::sqrt`. -/
  sqrtO : ℚ → ℚ

/-- The fields of `SettlementLocation` read by the placement checks. -/
structure SettlementPos where
  centerX : ℚ
  centerY : ℚ
  radius : ℚ
deriving DecidableEq

/-- `WorldRoad` reduced to its waypoint polyline
(infrastructuregenerator.hpp lines 150-158). -/
structure WorldRoadW where
  waypoints : List (ℚ × ℚ)
deriving DecidableEq

/-- The fields of `PlacedInfrastructure` read by the placement checks. -/
structure PlacedInfra where
  ty : InfrastructureType
  worldX : ℚ
  worldY : ℚ
deriving DecidableEq

/-- `ESM::Land::REAL_SIZE`. -/
def realSize : ℚ := 8192

/-- `InfrastructureGenerator::isInWater`
(infrastructuregenerator.cpp lines 1081-1090). -/
def isInWater (env : InfraEnv) (x y : ℚ) : Bool :=
  match env.getHeight, env.getWaterLevel with
  | some hf, some wl => decide (hf x y < wl)
  | _, _ => false

/-- `InfrastructureGenerator::isNearWater`
(infrastructuregenerator.cpp lines 1066-1079): samples 8 surrounding
points at 45-degree increments (0.785 rad). -/
def isNearWater (env : InfraEnv) (x y radius : ℚ) : Bool :=
  (List.range 8).any fun angle =>
    let a : ℚ := (angle : ℚ) * (785/1000)
    isInWater env (x + env.cosO a * radius) (y + env.sinO a * radius)

/-- `InfrastructureGenerator::isOnHill`
(infrastructuregenerator.cpp lines 1092-1117). -/
def isOnHill (env : InfraEnv) (x y : ℚ) : Bool :=
  match env.getHeight with
  | none => false
  | some hf =>
    let centerHeight := hf x y
    let checkRadius : ℚ := 300
    let total := ((List.range 8).map fun angle =>
      let a : ℚ := (angle : ℚ) * (785/1000)
      hf (x + env.cosO a * checkRadius) (y + env.sinO a * checkRadius)).sum
    let avgSurrounding := total / 8
    decide (centerHeight > avgSurrounding + 100)

/-- `InfrastructureGenerator::distanceToNearestSettlement`
(infrastructuregenerator.cpp lines 1018-1029). -/
def distanceToNearestSettlement (env : InfraEnv) (settlements : List SettlementPos)
    (x y : ℚ) : ℚ :=
  settlements.foldl
    (fun minDist s =>
      let dx := x - s.centerX
      let dy := y - s.centerY
      let dist := env.sqrtO (dx * dx + dy * dy) - s.radius
      min minDist dist)
    (10 ^ 10 : ℚ)

/-- Consecutive pairs of a polyline. -/
def segsOf (ps : List (ℚ × ℚ)) : List ((ℚ × ℚ) × (ℚ × ℚ)) :=
  ps.zip ps.tail

/-- `InfrastructureGenerator::distanceToNearestRoad`
(infrastructuregenerator.cpp lines 1031-1064). -/
def distanceToNearestRoad (env : InfraEnv) (roads : List WorldRoadW) (x y : ℚ) : ℚ :=
  roads.foldl
    (fun acc road =>
      (segsOf road.waypoints).foldl
        (fun minDist seg =>
          let x1 := seg.1.1
          let y1 := seg.1.2
          let x2 := seg.2.1
          let y2 := seg.2.2
          let dx := x2 - x1
          let dy := y2 - y1
          let lengthSq := dx * dx + dy * dy
          if lengthSq < 1/1000 then minDist
          else
            let t := max 0 (min 1 (((x - x1) * dx + (y - y1) * dy) / lengthSq))
            let nearX := x1 + t * dx
            let nearY := y1 + t * dy
            let dist := env.sqrtO ((x - nearX) * (x - nearX) + (y - nearY) * (y - nearY))
            min minDist dist)
        acc)
    (10 ^ 10 : ℚ)

/-- `InfrastructureGenerator::isValidLocation`
(infrastructuregenerator.cpp lines 961-1016).  Note that the final loop —
headed by the source comment "Check spacing from same type" — iterates
over ALL placed infrastructure and compares against
`ctx.minSpacingFromAny`; neither the element type nor
`ctx.minSpacingFromSame` is consulted. -/
def isValidLocation (env : InfraEnv) (settlements : List SettlementPos)
    (roads : List WorldRoadW) (placed : List PlacedInfra)
    (x y : ℚ) (ctx : PlacementContext) : Bool :=
  let height := match env.getHeight with
    | some hf => hf x y
    | none => 0
  if height < ctx.minHeight ∨ height > ctx.maxHeight then false
  else if (match env.getSlope with
    | some sf => decide (sf x y > ctx.maxSlope)
    | none => false) then false
  else
    let inWater := isInWater env x y
    if ctx.avoidWater ∧ inWater then false
    else if ctx.onWater ∧ ¬inWater then false
    else if ctx.nearWater ∧ ¬isNearWater env x y 200 then false
    else if ctx.onHill ∧ ¬isOnHill env x y then false
    else
      let settlementDist := distanceToNearestSettlement env settlements x y
      if ctx.nearSettlement ∧ settlementDist > ctx.settlementDistance then false
      else if ctx.awayFromSettlement ∧ settlementDist < ctx.minSettlementDistance then
        false
      else if ctx.nearRoad ∧ distanceToNearestRoad env roads x y > ctx.roadDistance then
        false
      else if placed.any fun pl =>
          let dx := x - pl.worldX
          let dy := y - pl.worldY
          decide (env.sqrtO (dx * dx + dy * dy) < ctx.minSpacingFromAny) then false
      else true

/-- The sampling loop of `InfrastructureGenerator::findValidLocation`
(infrastructuregenerator.cpp lines 942-956) for a given context, with the
remaining attempt budget explicit; also returns the number of attempts
consumed.  On success `outZ` is `mGetHeight(x, y)` (0 without a height
callback). -/
def findValidLocationLoop (env : InfraEnv) (settlements : List SettlementPos)
    (roads : List WorldRoadW) (placed : List PlacedInfra) (ctx : PlacementContext)
    (originX originY : ℤ) (sizeX sizeY : ℕ) :
    ℕ → RandomGenerator → Option (ℚ × ℚ × ℚ) × RandomGenerator × ℕ
  | 0, g => (none, g, 0)
  | n + 1, g =>
    let (fx, g1) := g.nextFloatRange 0 (sizeX : ℚ)
    let (fy, g2) := g1.nextFloatRange 0 (sizeY : ℚ)
    let x := ((originX : ℚ) + fx) * realSize
    let y := ((originY : ℚ) + fy) * realSize
    if isValidLocation env settlements roads placed x y ctx then
      let z := match env.getHeight with
        | some hf => hf x y
        | none => 0
      (some (x, y, z), g2, 1)
    else
      let rest := findValidLocationLoop env settlements roads placed ctx
        originX originY sizeX sizeY n g2
      (rest.1, rest.2.1, rest.2.2 + 1)

/-- `InfrastructureGenerator::findValidLocation` for an explicit context:
maxAttempts = 100 (infrastructuregenerator.cpp line 942). -/
def findValidLocationCtx (env : InfraEnv) (settlements : List SettlementPos)
    (roads : List WorldRoadW) (placed : List PlacedInfra) (ctx : PlacementContext)
    (originX originY : ℤ) (sizeX sizeY : ℕ) (g : RandomGenerator) :
    Option (ℚ × ℚ × ℚ) × RandomGenerator × ℕ :=
  findValidLocationLoop env settlements roads placed ctx originX originY sizeX sizeY
    100 g

/-- `InfrastructureGenerator::findValidLocation(type, ...)`
(infrastructuregenerator.cpp lines 936-959): derives the context from the
type, then runs the sampling loop. -/
def findValidLocation (env : InfraEnv) (settlements : List SettlementPos)
    (roads : List WorldRoadW) (placed : List PlacedInfra) (ty : InfrastructureType)
    (originX originY : ℤ) (sizeX sizeY : ℕ) (g : RandomGenerator) :
    Option (ℚ × ℚ × ℚ) × RandomGenerator × ℕ :=
  findValidLocationCtx env settlements roads placed (getContextForType ty)
    originX originY sizeX sizeY g

/-- An environment with no terrain callbacks and the sqrt oracle constantly
0 (used as a concrete witness environment; any function bounded by 10000
on the relevant range works, and the real √ is one). -/
def c9Env : InfraEnv :=
  ⟨none, none, none, fun _ => 1, fun _ => 0, fun _ => 0⟩

/-- A placement context whose spacing requirement is 10000 (all other
fields at their C++ defaults). -/
def c9Ctx : PlacementContext :=
  { minSpacingFromAny := 10000 }

/-! ## SettlementGenerator role assignment
(settlementgenerator.cpp lines 563-804, settlementgenerator.hpp)
-/

/-- proceduralstate.hpp lines 71-82. -/
inductive SettlementType where
  | None | Farm | Hamlet | Village | Town | City | Metropolis | Fortress | Castle
deriving DecidableEq

/-- settlementgenerator.hpp lines 27-40. -/
inductive DistrictType where
  | Center | Market | Residential | Noble | Slums | Industrial
  | Temple | Military | Dock | Garden | Castle
deriving DecidableEq, Inhabited

/-- settlementgenerator.hpp lines 43-96, in declaration order (the order in
which `std::map<BuildingRole, int>` iterates). -/
inductive BuildingRole where
  | TownHall | Guildhall | Courthouse
  | GeneralStore | Blacksmith | Alchemist | Clothier | Jeweler | BookStore
  | Bakery | Butcher | Tavern | Inn | Bank
  | PoorHouse | CommonHouse | RichHouse | Manor | Palace
  | Temple | Chapel | Shrine | Graveyard
  | Barracks | Armory | GuardTower | Prison
  | Workshop | Warehouse | Mill | Stable
  | Fountain | Well | Statue | MarketStall
  | Generic
deriving DecidableEq

/-- All building roles in declaration (= `std::map` iteration) order. -/
def roleList : List BuildingRole :=
  [.TownHall, .Guildhall, .Courthouse,
   .GeneralStore, .Blacksmith, .Alchemist, .Clothier, .Jeweler, .BookStore,
   .Bakery, .Butcher, .Tavern, .Inn, .Bank,
   .PoorHouse, .CommonHouse, .RichHouse, .Manor, .Palace,
   .Temple, .Chapel, .Shrine, .Graveyard,
   .Barracks, .Armory, .GuardTower, .Prison,
   .Workshop, .Warehouse, .Mill, .Stable,
   .Fountain, .Well, .Statue, .MarketStall,
   .Generic]

/-- settlementgenerator.hpp lines 138-147. -/
structure BuildingLot where
  x : ℚ
  y : ℚ
  width : ℚ
  depth : ℚ
  rotation : ℚ
  district : DistrictType
  isCorner : Bool
  facesMainRoad : Bool
  occupied : Bool
deriving DecidableEq, Inhabited

/-- A required-building table: role → count (absent entries are 0, matching
`std::map::operator[]` value-initialisation). -/
def ReqMap : Type := BuildingRole → ℤ

/-- `req[role] = v`. -/
def setReq (m : ReqMap) (role : BuildingRole) (v : ℤ) : ReqMap :=
  fun r => if r = role then v else m r

def emptyReq : ReqMap := fun _ => 0

/-- `SettlementGenerator::getRequiredBuildings`
(settlementgenerator.cpp lines 695-804).  The City/Metropolis case sums
the entries inserted so far before deriving the CommonHouse remainder;
`total / 10` and `total / 8` are C++ truncating integer division. -/
def getRequiredBuildings (ty : SettlementType) (total : ℤ) (g : RandomGenerator) :
    ReqMap × RandomGenerator :=
  match ty with
  | .Farm =>
    (setReq (setReq (setReq emptyReq .CommonHouse 1) .Stable 1) .Warehouse 1, g)
  | .Hamlet =>
    let (coin, g1) := g.nextBool (1/2)
    (setReq (setReq (setReq emptyReq .CommonHouse (total - 2)) .Well 1)
      .Chapel (if coin then 1 else 0), g1)
  | .Village =>
    let (coin, g1) := g.nextBool (1/2)
    (setReq (setReq (setReq (setReq (setReq (setReq (setReq (setReq emptyReq
      .Inn 1) .Blacksmith 1) .GeneralStore 1) .Chapel 1) .Well 2)
      .Mill (if coin then 1 else 0)) .Stable 1) .CommonHouse (total - 7), g1)
  | .Town =>
    (setReq (setReq (setReq (setReq (setReq (setReq (setReq (setReq (setReq
      (setReq (setReq (setReq (setReq (setReq (setReq emptyReq
      .TownHall 1) .Temple 1) .Inn 2) .Tavern 2) .Blacksmith 2)
      .GeneralStore 2) .Alchemist 1) .Guildhall 1) .Barracks 1) .Warehouse 2)
      .Stable 2) .Well 3) .Fountain 1) .Manor 2) .CommonHouse (total - 23), g)
  | .City | .Metropolis =>
    let s : ℤ := if ty = .Metropolis then 2 else 1
    let req := setReq (setReq (setReq (setReq (setReq (setReq (setReq (setReq
      (setReq (setReq (setReq (setReq (setReq (setReq (setReq (setReq (setReq
      (setReq (setReq (setReq (setReq (setReq (setReq (setReq (setReq (setReq
      (setReq emptyReq
      .TownHall 1) .Palace s) .Temple (2 * s)) .Guildhall (3 * s))
      .Courthouse s) .Inn (4 * s)) .Tavern (6 * s)) .Blacksmith (3 * s))
      .GeneralStore (4 * s)) .Alchemist (2 * s)) .Clothier (2 * s))
      .Jeweler s) .BookStore s) .Bakery (3 * s)) .Butcher (2 * s)) .Bank s)
      .Barracks (2 * s)) .Armory s) .Prison s) .Warehouse (4 * s))
      .Workshop (3 * s)) .Stable (3 * s)) .Well (5 * s)) .Fountain (3 * s))
      .Manor (5 * s)) .RichHouse (total.tdiv 10)) .PoorHouse (total.tdiv 8)
    let assigned := (roleList.map req).sum
    (setReq req .CommonHouse (max 0 (total - assigned)), g)
  | .Fortress =>
    (setReq (setReq (setReq (setReq (setReq (setReq (setReq emptyReq
      .Barracks 3) .Armory 2) .GuardTower 4) .Warehouse 2) .Stable 2)
      .Well 2) .CommonHouse (total - 15), g)
  | .Castle =>
    (setReq (setReq (setReq (setReq (setReq emptyReq
      .Palace 1) .GuardTower 4) .Barracks 1) .Stable 1) .Chapel 1, g)
  | .None =>
    (setReq emptyReq .CommonHouse total, g)

/-- Whether pass 1 of `assignBuildingRoles` defers the role to pass 2
(settlementgenerator.cpp lines 578-581). -/
def isResidualRole (role : BuildingRole) : Bool :=
  role = .CommonHouse ∨ role = .PoorHouse ∨ role = .RichHouse

/-- The deterministic part of the lot score for a role
(settlementgenerator.cpp lines 594-648); the random jitter in [0, 0.2)
is added by the scan. -/
def scoreBase (role : BuildingRole) (lot : BuildingLot) : ℚ :=
  match role with
  | .TownHall | .Temple | .Guildhall =>
    (if lot.facesMainRoad then 3/10 else 0) + (if lot.isCorner then 2/10 else 0) +
      (if lot.district = .Center then 5/10 else 0)
  | .Tavern | .Inn =>
    (if lot.facesMainRoad then 4/10 else 0) +
      (if lot.district = .Market ∨ lot.district = .Center then 3/10 else 0)
  | .GeneralStore | .Blacksmith | .Bakery =>
    (if lot.district = .Market then 5/10 else 0) +
      (if lot.facesMainRoad then 2/10 else 0)
  | .Manor | .Palace =>
    (if lot.district = .Noble ∨ lot.district = .Center then 5/10 else 0) +
      lot.width * (1/1000)
  | .Barracks | .Armory =>
    if lot.district = .Military then 5/10 else 0
  | .Warehouse | .Workshop =>
    if lot.district = .Industrial then 5/10 else 0
  | _ => 5/10

/-- The best-lot scan of pass 1 (settlementgenerator.cpp lines 585-659):
walk the lots in index order, skip occupied ones, score each candidate
with a random jitter in [0, 0.2), and keep the strictly best. -/
def findBestLotAux (role : BuildingRole) :
    List (ℕ × BuildingLot) → ℚ × Option ℕ → RandomGenerator →
      (ℚ × Option ℕ) × RandomGenerator
  | [], acc, g => (acc, g)
  | (j, lot) :: rest, acc, g =>
    if lot.occupied then findBestLotAux role rest acc g
    else
      let (jit, g1) := g.nextFloatRange 0 (2/10)
      let score := scoreBase role lot + jit
      if score > acc.1 then findBestLotAux role rest (score, some j) g1
      else findBestLotAux role rest acc g1

/-- Mark the lot at an index as occupied (`mLots[bestLot].occupied = true`). -/
def setOccupied (lots : List BuildingLot) (j : ℕ) : List BuildingLot :=
  lots.set j { lots.getD j default with occupied := true }

/-- The state threaded through `assignBuildingRoles`. -/
structure AssignState where
  lots : List BuildingLot
  assigned : BuildingRole → ℕ
  rng : RandomGenerator

/-- `assigned[role]++`. -/
def incrAssigned (f : BuildingRole → ℕ) (role : BuildingRole) : BuildingRole → ℕ :=
  fun r => if r = role then f r + 1 else f r

/-- The inner `for (int i = 0; i < count && assigned[role] < count; ++i)`
loop of pass 1 (settlementgenerator.cpp lines 583-667), with the remaining
iteration budget explicit. -/
def passOneIter (role : BuildingRole) (count : ℤ) : ℕ → AssignState → AssignState
  | 0, st => st
  | k + 1, st =>
    if (st.assigned role : ℤ) < count then
      let scan := findBestLotAux role st.lots.enum (-1, none) st.rng
      match scan.1.2 with
      | some j =>
        passOneIter role count k
          ⟨setOccupied st.lots j, incrAssigned st.assigned role, scan.2⟩
      | none => passOneIter role count k ⟨st.lots, st.assigned, scan.2⟩
    else st

/-- Pass 1 of `assignBuildingRoles`: iterate the required-building map in
key order, deferring the residual residential roles
(settlementgenerator.cpp lines 576-668). -/
def passOne (req : ReqMap) (st : AssignState) : AssignState :=
  roleList.foldl
    (fun st role =>
      if isResidualRole role then st
      else passOneIter role (req role) (req role).toNat st)
    st

/-- The residential role pass 2 gives an unoccupied lot, by district
wealth (settlementgenerator.cpp lines 677-688). -/
def residentialRoleFor (lot : BuildingLot) : BuildingRole :=
  if lot.district = .Noble then .RichHouse
  else if lot.district = .Slums then .PoorHouse
  else .CommonHouse

/-- Pass 2 of `assignBuildingRoles`: every still-unoccupied lot becomes
residential according to its district's wealth
(settlementgenerator.cpp lines 670-692). -/
def passTwo : List BuildingLot → (BuildingRole → ℕ) →
    List BuildingLot × (BuildingRole → ℕ)
  | [], assigned => ([], assigned)
  | lot :: rest, assigned =>
    if lot.occupied then
      let r := passTwo rest assigned
      (lot :: r.1, r.2)
    else
      let r := passTwo rest (incrAssigned assigned (residentialRoleFor lot))
      ({ lot with occupied := true } :: r.1, r.2)

/-- `SettlementGenerator::assignBuildingRoles`
(settlementgenerator.cpp lines 563-693): early-out on an empty lot list,
then the two assignment passes.  Returns the final lots, the per-role
assignment counts and the advanced RNG. -/
def assignBuildingRoles (ty : SettlementType) (lots : List BuildingLot)
    (g : RandomGenerator) :
    List BuildingLot × (BuildingRole → ℕ) × RandomGenerator :=
  if lots.isEmpty then (lots, fun _ => 0, g)
  else
    let total : ℤ := lots.length
    let (req, g1) := getRequiredBuildings ty total g
    let st1 := passOne req ⟨lots, fun _ => 0, g1⟩
    let (lots2, assigned2) := passTwo st1.lots st1.assigned
    (lots2, assigned2, st1.rng)

/-- Total number of assigned buildings: the sum of the per-role counts. -/
def sumAssigned (f : BuildingRole → ℕ) : ℕ :=
  (roleList.map f).sum

/-- Number of occupied lots. -/
def occCount (lots : List BuildingLot) : ℕ :=
  (lots.filter (·.occupied)).length

/-! ## InfrastructureGenerator::generateRoadNetwork, Kruskal phase
(infrastructuregenerator.cpp lines 105-187)
-/

/-- `static_cast<int>` of a value (truncation toward zero). -/
def ratTrunc (q : ℚ) : ℤ :=
  q.num.tdiv q.den

/-- The `Connection` record of `generateRoadNetwork`
(infrastructuregenerator.cpp lines 114-119); `from`/`to` are settlement
indices. -/
structure Connection where
  fromI : ℕ
  toI : ℕ
  dist : ℚ
  cost : ℚ
deriving DecidableEq

/-- Distance and terrain-aware cost of one candidate connection
(infrastructuregenerator.cpp lines 126-155): Euclidean distance plus a
slope penalty (slope · 500) and water penalty (1000) at each of
`max 5 (dist/200)` interior samples of the straight segment. -/
def connectionCost (env : InfraEnv) (si sj : SettlementPos) : ℚ × ℚ :=
  let dx := sj.centerX - si.centerX
  let dy := sj.centerY - si.centerY
  let dist := env.sqrtO (dx * dx + dy * dy)
  let samples : ℕ := max 5 (ratTrunc (dist / 200)).toNat
  let cost := ((List.range samples).drop 1).foldl
    (fun cost s =>
      let t : ℚ := (s : ℚ) / (samples : ℚ)
      let x := si.centerX + dx * t
      let y := si.centerY + dy * t
      let cost1 := match env.getSlope with
        | some sf => cost + sf x y * 500
        | none => cost
      if isInWater env x y then cost1 + 1000 else cost1)
    dist
  (dist, cost)

/-- All candidate connections: every unordered settlement pair (i, j) with
i < j (infrastructuregenerator.cpp lines 121-158). -/
def buildConnections (env : InfraEnv) (settlements : List SettlementPos) :
    List Connection :=
  let n := settlements.length
  (List.range n).flatMap fun i =>
    ((List.range n).drop (i + 1)).map fun j =>
      let dc := connectionCost env (settlements.getD i ⟨0, 0, 0⟩)
        (settlements.getD j ⟨0, 0, 0⟩)
      ⟨i, j, dc.1, dc.2⟩

/-- `std::sort(connections, a.cost < b.cost)`
(infrastructuregenerator.cpp lines 161-163), modelled by merge sort (a
valid refinement of the unspecified std::sort order on ties). -/
def sortedConnections (env : InfraEnv) (settlements : List SettlementPos) :
    List Connection :=
  (buildConnections env settlements).mergeSort fun a b => decide (a.cost < b.cost)

/-- Union-find `find` with path compression — the recursive lambda of
infrastructuregenerator.cpp lines 170-174 — with an explicit recursion
budget (the C++ recursion is unbounded; any budget larger than every
chain height gives the same result, and all uses below are proved
adequate). -/
def findUF : ℕ → (ℕ → ℕ) → ℕ → ℕ × (ℕ → ℕ)
  | 0, p, x => (x, p)
  | fuel + 1, p, x =>
    if p x = x then (x, p)
    else
      let r := findUF fuel p (p x)
      (r.1, fun y => if y = x then r.1 else r.2 y)

/-- The root of x without compression (reference semantics of `find`). -/
def rootUF : ℕ → (ℕ → ℕ) → ℕ → ℕ
  | 0, _, x => x
  | fuel + 1, p, x => if p x = x then x else rootUF fuel p (p x)

/-- Recursion budget used for `findUF`/`rootUF` on n settlements: every
parent chain that can arise from at most n-1 unions has height below
2 ^ n (proved via the explicit height certificates threaded through the
invariants). -/
def ufFuel (n : ℕ) : ℕ := 2 ^ n

/-- The Kruskal loop state: the union-find parent array and the selected
backbone (`selectedRoads`). -/
structure KState where
  parent : ℕ → ℕ
  selected : List Connection

/-- One iteration of the Kruskal loop
(infrastructuregenerator.cpp lines 177-187): find both roots (threading
the compressed parent map), and if they differ select the connection and
set `parent[rootFrom] = rootTo`. -/
def kruskalStep (n : ℕ) (st : KState) (conn : Connection) : KState :=
  let f1 := findUF (ufFuel n) st.parent conn.fromI
  let f2 := findUF (ufFuel n) f1.2 conn.toI
  if f1.1 ≠ f2.1 then
    ⟨fun y => if y = f1.1 then f2.1 else f2.2 y, st.selected ++ [conn]⟩
  else
    ⟨f2.2, st.selected⟩

/-- The Kruskal phase: fold the sorted connections over the identity
parent map (infrastructuregenerator.cpp lines 166-187). -/
def kruskalSelect (n : ℕ) (conns : List Connection) : KState :=
  conns.foldl (kruskalStep n) ⟨fun x => x, []⟩

/-- The road backbone selected by `generateRoadNetwork` before the
probabilistic redundancy edges are added
(infrastructuregenerator.cpp lines 105-187). -/
def roadBackbone (env : InfraEnv) (settlements : List SettlementPos) : KState :=
  kruskalSelect settlements.length (sortedConnections env settlements)

/-- The undirected graph (on settlement indices) of a selected-connection
list. -/
def graphOf (sel : List Connection) : SimpleGraph ℕ :=
  SimpleGraph.fromEdgeSet { e | ∃ c ∈ sel, e = s(c.fromI, c.toI) }

/-- `∀ x < n, p x < n`: the parent map stays within the settlement
indices. -/
def UFBounded (n : ℕ) (p : ℕ → ℕ) : Prop :=
  ∀ x, x < n → p x < n

/-- A height certificate: following a parent pointer strictly decreases
h, so parent chains terminate. -/
def UFDecr (n : ℕ) (p : ℕ → ℕ) (h : ℕ → ℕ) : Prop :=
  ∀ x, x < n → p x ≠ x → h (p x) < h x

/-- Number of union-find roots among 0..n-1. -/
def rootCard (n : ℕ) (p : ℕ → ℕ) : ℕ :=
  ((Finset.range n).filter fun x => p x = x).card

/-- The Kruskal loop invariant. -/
structure KInv (n : ℕ) (st : KState) : Prop where
  bounded : UFBounded n st.parent
  hinv : ∃ h B, UFDecr n st.parent h ∧ (∀ x, x < n → h x ≤ B) ∧
    B + 1 = 2 ^ st.selected.length
  cardEq : rootCard n st.parent + st.selected.length = n
  selWf : ∀ c ∈ st.selected, c.fromI < c.toI ∧ c.toI < n
  reachIff : ∀ x y, x < n → y < n →
    (rootUF (ufFuel n) st.parent x = rootUF (ufFuel n) st.parent y ↔
      (graphOf st.selected).Reachable x y)
  acyclic : (graphOf st.selected).IsAcyclic


/-! ## PoissonDiskSampler (noise.cpp lines 277-368)

`float` values become exact rationals. The cell size
`minDistance / std::sqrt(2.0f)` is irrational, so the embedding carries
the cell size as an extra exact parameter about which the theorems
assume exactly the two facts the grid geometry provides:
`2 * cellSize ^ 2 <= minDistance ^ 2` (a cell's diagonal is at most
minDistance) and `minDistance <= 2 * cellSize` (a disk of radius
minDistance spans at most two cells along each axis); both hold exactly
for `cellSize = minDistance / sqrt 2`. The float comparison
`std::sqrt(d) < mMinDistance` of `isValidPoint` is modelled exactly as
`d < minDistance ^ 2`, valid because `std::sqrt` is strictly monotone on
the nonnegative reals and minDistance is positive. `std::cos`/`std::sin`
are oracle parameters, as in `InfraEnv`. -/

/-- `std::ceil` on an exact rational, as an integer. -/
def ratCeil (q : ℚ) : ℤ := ⌈q⌉

/-- The sampler's fixed data (constructor, noise.cpp lines 277-286):
`mMinDistance`, `mWidth`, `mHeight`, `mCellSize` and the two
trigonometric oracles used by candidate generation. -/
structure PDParams where
  minDistance : ℚ
  width : ℚ
  height : ℚ
  cellSize : ℚ
  cosO : ℚ → ℚ
  sinO : ℚ → ℚ

/-- `mGridWidth = ceil(width / cellSize)`. -/
def PDParams.gridW (P : PDParams) : ℤ := ratCeil (P.width / P.cellSize)

/-- `mGridHeight = ceil(height / cellSize)`. -/
def PDParams.gridH (P : PDParams) : ℤ := ratCeil (P.height / P.cellSize)

/-- The mutable state of `generatePoints`: the RNG, the point vector, the
occupancy grid (`-1` entries become `none`) and the active queue (the
C++ `std::queue` pops at the head and pushes at the tail). -/
structure PDState where
  rng : RandomGenerator
  points : List (ℚ × ℚ)
  grid : ℤ × ℤ → Option ℕ
  active : List ℕ

/-- The inclusive integer interval [lo, hi] as a list (the iteration
space of the `for (dy = searchStartY; dy <= searchEndY; ++dy)` loops). -/
def intRange (lo hi : ℤ) : List ℤ :=
  (List.range (hi + 1 - lo).toNat).map fun (k : ℕ) => lo + (k : ℤ)

/-- The grid cell of a point: `static_cast<int>(coord / mCellSize)` for
both coordinates (truncation; all stored points have nonnegative
coordinates, where truncation is the floor). -/
def pdCell (P : PDParams) (q : ℚ × ℚ) : ℤ × ℤ :=
  (ratTrunc (q.1 / P.cellSize), ratTrunc (q.2 / P.cellSize))

/-- `PoissonDiskSampler::isValidPoint` (noise.cpp lines 288-320): reject
out-of-bounds candidates, then scan the occupied grid cells at most 2
cells away in each axis (clamped to the grid) and reject if any
registered point is closer than mMinDistance (squared comparison, see
the section comment). The C++ locals cellX/cellY and
searchStartX/searchEndX/searchStartY/searchEndY appear inlined. -/
def isValidPoint (P : PDParams) (x y : ℚ) (points : List (ℚ × ℚ))
    (grid : ℤ × ℤ → Option ℕ) : Bool :=
  if x < 0 ∨ P.width ≤ x ∨ y < 0 ∨ P.height ≤ y then false
  else
    (intRange (max 0 (ratTrunc (y / P.cellSize) - 2))
        (min (P.gridH - 1) (ratTrunc (y / P.cellSize) + 2))).all fun dy =>
      (intRange (max 0 (ratTrunc (x / P.cellSize) - 2))
          (min (P.gridW - 1) (ratTrunc (x / P.cellSize) + 2))).all fun dx =>
        match grid (dx, dy) with
        | none => true
        | some idx =>
          decide (P.minDistance ^ 2 ≤
            (x - (points.getD idx (0, 0)).1) ^ 2 +
            (y - (points.getD idx (0, 0)).2) ^ 2)

/-- Accepting a candidate (noise.cpp lines 355-362): append the point,
register it in its grid cell, push its index on the active queue. -/
def pdInsert (P : PDParams) (st : PDState) (x y : ℚ) : PDState :=
  let newIdx := st.points.length
  { st with
    points := st.points ++ [(x, y)]
    grid := fun c => if c = pdCell P (x, y) then some newIdx else st.grid c
    active := st.active ++ [newIdx] }

/-- One candidate around an active point (noise.cpp lines 347-352):
`angle = nextFloat() * 2 * 3.14159265f`,
`dist = mMinDistance + nextFloat() * mMinDistance`,
offset by `(cos angle * dist, sin angle * dist)`. -/
def pdCandidate (P : PDParams) (g : RandomGenerator) (px py : ℚ) :
    (ℚ × ℚ) × RandomGenerator :=
  let (f1, g1) := g.nextFloat
  let angle := f1 * 2 * (314159265 / 100000000 : ℚ)
  let (f2, g2) := g1.nextFloat
  let dist := P.minDistance + f2 * P.minDistance
  ((px + P.cosO angle * dist, py + P.sinO angle * dist), g2)

/-- The inner attempt loop (noise.cpp lines 345-363): maxAttempts
candidates around the active point (px, py), each accepted iff
`isValidPoint`. -/
def pdAttempts (P : PDParams) : ℕ → ℚ → ℚ → PDState → PDState
  | 0, _, _, st => st
  | a + 1, px, py, st =>
    let c := pdCandidate P st.rng px py
    let st1 : PDState := { st with rng := c.2 }
    let st2 :=
      if isValidPoint P c.1.1 c.1.2 st1.points st1.grid then
        pdInsert P st1 c.1.1 c.1.2
      else st1
    pdAttempts P a px py st2

/-- The outer `while (!activeList.empty())` loop (noise.cpp lines
337-364), with an explicit fuel budget: the C++ loop runs until the
queue empties, and every theorem below holds for every budget, hence
for the state in which the C++ loop terminates. -/
def pdLoop (P : PDParams) (maxAttempts : ℕ) : ℕ → PDState → PDState
  | 0, st => st
  | fuel + 1, st =>
    match st.active with
    | [] => st
    | idx :: rest =>
      let p := st.points.getD idx (0, 0)
      pdLoop P maxAttempts fuel
        (pdAttempts P maxAttempts p.1 p.2 { st with active := rest })

/-- `PoissonDiskSampler::generatePoints` (noise.cpp lines 322-368): seed
one uniform point, register it, then run the active-queue loop. -/
def generatePoints (P : PDParams) (seed : ℕ) (maxAttempts fuel : ℕ) :
    List (ℚ × ℚ) :=
  let g0 := RandomGenerator.ofSeed seed
  let (f1, g1) := g0.nextFloat
  let startX := f1 * P.width
  let (f2, g2) := g1.nextFloat
  let startY := f2 * P.height
  let st0 : PDState :=
    ⟨g2, [(startX, startY)],
      fun c => if c = pdCell P (startX, startY) then some 0 else none, [0]⟩
  (pdLoop P maxAttempts fuel st0).points

/-- Squared Euclidean distance. -/
def dist2 (p q : ℚ × ℚ) : ℚ := (p.1 - q.1) ^ 2 + (p.2 - q.2) ^ 2

/-- Membership in the sampling window. -/
def inBounds (P : PDParams) (p : ℚ × ℚ) : Prop :=
  0 ≤ p.1 ∧ p.1 < P.width ∧ 0 ≤ p.2 ∧ p.2 < P.height

/-- The sampler loop invariant: all stored points are pairwise at
squared distance at least minDistance squared, lie in the window, each
is registered in its own grid cell, and every grid entry points back to
a stored point lying in that cell (so each cell holds at most one
point). -/
structure PDInv (P : PDParams) (st : PDState) : Prop where
  dists : ∀ i j, i < st.points.length → j < st.points.length → i ≠ j →
    P.minDistance ^ 2 ≤ dist2 (st.points.getD i (0, 0)) (st.points.getD j (0, 0))
  inB : ∀ i, i < st.points.length → inBounds P (st.points.getD i (0, 0))
  reg : ∀ i, i < st.points.length →
    st.grid (pdCell P (st.points.getD i (0, 0))) = some i
  sound : ∀ c i, st.grid c = some i →
    i < st.points.length ∧ pdCell P (st.points.getD i (0, 0)) = c

/-- Concrete sampler data used by the C4 witness: minDistance 10 over a
100 x 100 window with cell size 7 (7 lies in [10/2, 10/sqrt 2]). -/
def c4P : PDParams := ⟨10, 100, 100, 7, fun _ => 1, fun _ => 0⟩


/-! ## ProceduralGenerator::generateBSPInterior
(proceduralgenerator.cpp lines 944-1088)

`float` values become exact rationals. The root dimension
`roomSizeMax * std::sqrt(roomCount)` carries the irrational square root,
so the embedding takes the value of `std::sqrt(roomCount)` as an exact
parameter `sqrtRC`. The float literals `0.4f` and `0.6f` of the split
fraction are embedded by their exact IEEE single-precision values
13421773/2^25 and 10066330/2^24; `0.5f`, `1.25f` and `1.5f` are exact.
The final collection pass (lines 1037-1055) gathers exactly the nodes
marked `isRoom`; the embedding accumulates those nodes when they are
marked, so `rooms` holds the same set of room nodes. -/

/-- `InteriorParams` (proceduralstate.hpp lines 53-65), restricted to the
fields generateBSPInterior reads for room layout. -/
structure InteriorParams where
  minRooms : ℕ
  maxRooms : ℕ
  roomSizeMin : ℚ
  roomSizeMax : ℚ
  corridorWidth : ℚ

/-- The geometric fields of a `BSPNode` (lines 949-958); the room
rectangle of a leaf is derived by `roomRect` below, mirroring
roomX/roomY/roomW/roomH. -/
structure BSPNodeQ where
  x : ℚ
  y : ℚ
  width : ℚ
  height : ℚ
deriving DecidableEq

/-- Area of a node rectangle. -/
def nodeArea (n : BSPNodeQ) : ℚ := n.width * n.height

/-- One iteration body of the split loop (lines 975-1034): pick the
split axis (aspect-ratio override on a coin flip), then split at a
random fraction in [0.4f, 0.6f) when the chosen axis exceeds
`roomSizeMin * 1.5 * 2`, else mark the node as a room. Returns the new
RNG, the nodes pushed onto `toSplit`, and the nodes marked `isRoom`. -/
def bspStep (ip : InteriorParams) (g : RandomGenerator) (node : BSPNodeQ) :
    RandomGenerator × List BSPNodeQ × List BSPNodeQ :=
  let bg := g.nextBool (1/2)
  let splitHorizontal : Bool :=
    if node.width > node.height * (5/4) then false
    else if node.height > node.width * (5/4) then true
    else bg.1
  let minSize := ip.roomSizeMin * (3/2)
  if splitHorizontal ∧ node.height > minSize * 2 then
    let tg := bg.2.nextFloatRange (13421773 / 33554432) (10066330 / 16777216)
    (tg.2,
     [⟨node.x, node.y, node.width, node.height * tg.1⟩,
      ⟨node.x, node.y + node.height * tg.1, node.width,
        node.height * (1 - tg.1)⟩],
     [])
  else if ¬splitHorizontal ∧ node.width > minSize * 2 then
    let tg := bg.2.nextFloatRange (13421773 / 33554432) (10066330 / 16777216)
    (tg.2,
     [⟨node.x, node.y, node.width * tg.1, node.height⟩,
      ⟨node.x + node.width * tg.1, node.y, node.width * (1 - tg.1),
        node.height⟩],
     [])
  else (bg.2, [], [node])

/-- The split-loop state: RNG, the work queue `toSplit`, the room nodes
collected so far and `roomsCreated`. -/
structure BSPState where
  rng : RandomGenerator
  toSplit : List BSPNodeQ
  rooms : List BSPNodeQ
  created : ℕ

/-- `while (!toSplit.empty() && roomsCreated < roomCount)` (lines
975-1035), with an explicit fuel budget; the theorems below hold for
every budget. -/
def bspLoop (ip : InteriorParams) (roomCount : ℕ) : ℕ → BSPState → BSPState
  | 0, st => st
  | fuel + 1, st =>
    match st.toSplit with
    | [] => st
    | node :: rest =>
      if st.created < roomCount then
        let r := bspStep ip st.rng node
        bspLoop ip roomCount fuel
          ⟨r.1, rest ++ r.2.1, st.rooms ++ r.2.2, st.created + r.2.2.length⟩
      else st

/-- The room rectangle of a leaf (lines 1026-1031): inset by
`corridorWidth` with dimensions clamped from below by `roomSizeMin`. -/
def roomRect (ip : InteriorParams) (n : BSPNodeQ) : BSPNodeQ :=
  ⟨n.x + ip.corridorWidth, n.y + ip.corridorWidth,
   max ip.roomSizeMin (n.width - ip.corridorWidth * 2),
   max ip.roomSizeMin (n.height - ip.corridorWidth * 2)⟩

/-- `generateBSPInterior` (lines 944-1035, the room-layout part): the
root spans `roomSizeMax * sqrt(roomCount)` squared, centred at the
origin. -/
def generateBSPInterior (ip : InteriorParams) (sqrtRC : ℚ)
    (g : RandomGenerator) (roomCount fuel : ℕ) : BSPState :=
  let totalWidth := ip.roomSizeMax * sqrtRC
  let totalHeight := totalWidth
  bspLoop ip roomCount fuel
    ⟨g, [⟨-(totalWidth / 2), -(totalHeight / 2), totalWidth, totalHeight⟩],
      [], 0⟩

/-- Two half-open rectangles are separated along some axis. -/
def rectDisjoint (a b : BSPNodeQ) : Prop :=
  a.x + a.width ≤ b.x ∨ b.x + b.width ≤ a.x ∨
  a.y + a.height ≤ b.y ∨ b.y + b.height ≤ a.y

/-- Containment of rectangles. -/
def subRect (a b : BSPNodeQ) : Prop :=
  b.x ≤ a.x ∧ a.x + a.width ≤ b.x + b.width ∧
  b.y ≤ a.y ∧ a.y + a.height ≤ b.y + b.height

/-- The split-loop invariant: the counter matches the room list, every
live node is at least roomSizeMin wide and high, every room node is
bounded by 3*roomSizeMin along its blocked axis and by aspect ratio 5/4
across, the live nodes exactly tile the root area, and the live nodes
are pairwise disjoint. -/
structure BSPInv (ip : InteriorParams) (A : ℚ) (st : BSPState) : Prop where
  createdEq : st.created = st.rooms.length
  dims : ∀ n ∈ st.toSplit ++ st.rooms,
    ip.roomSizeMin ≤ n.width ∧ ip.roomSizeMin ≤ n.height
  roomDims : ∀ n ∈ st.rooms,
    (n.width ≤ 3 * ip.roomSizeMin ∧ n.height ≤ (5/4) * n.width) ∨
    (n.height ≤ 3 * ip.roomSizeMin ∧ n.width ≤ (5/4) * n.height)
  area : ((st.toSplit ++ st.rooms).map nodeArea).sum = A
  disj : (st.toSplit ++ st.rooms).Pairwise rectDisjoint

/-- Concrete interior parameters for the C8 witness: roomSizeMin 200,
roomSizeMax 500, corridorWidth 150 (root 500 x 500 is below the split
threshold 600, so roomCount = 1 completes in one iteration). -/
def c8ip : InteriorParams := ⟨3, 12, 200, 500, 150⟩


end CSMProcs

namespace CSMProcs

/-! ## Theorems for claim C10 -/

/-- C10: RandomGenerator is total at its public interface and never
performs a modulo by zero: for every state, `nextInt(0)` returns 0, and
`nextIntRange(min, max)` with min ≥ max returns min
(noise.cpp lines 32-42). -/
theorem nextInt_zero_and_nextIntRange_degenerate (g : CSMProcs.RandomGenerator)
    (min max : ℤ) (h : min ≥ max) :
    (g.nextInt 0).1 = 0 ∧ (g.nextIntRange min max).1 = min := by
  constructor
  · simp [RandomGenerator.nextInt]
  · simp [RandomGenerator.nextIntRange, h]

/-- Witness for C10 at a concrete generator and a concrete degenerate range. -/
theorem nextInt_zero_and_nextIntRange_degenerate_witness :
    ((CSMProcs.RandomGenerator.ofSeed 42).nextInt 0).1 = 0 ∧
      ((CSMProcs.RandomGenerator.ofSeed 42).nextIntRange 7 3).1 = 7 :=
  nextInt_zero_and_nextIntRange_degenerate (CSMProcs.RandomGenerator.ofSeed 42) 7 3
    (by decide)

/-! ## Theorems for claim C1 -/

/-- C1 (counterexample): with the fixed seed 0, two complete runs do NOT
produce identical output streams: `initializeNoise` replaces a zero seed
with the current clock reading (proceduralgenerator.cpp lines 59-64), so
runs started at clock values 1 and 2 seed every generator differently and
the orchestrator RNG emits different first outputs. -/
theorem initializeNoise_seed_zero_not_deterministic :
    CSMProcs.initializeNoise 0 1 ≠ CSMProcs.initializeNoise 0 2 ∧
      CSMProcs.initRngOutput 0 1 0 ≠ CSMProcs.initRngOutput 0 2 0 := by
  constructor
  · decide
  · decide

/-- C1 (amended): for every fixed NONZERO seed, the noise/RNG state built
by `initializeNoise` — the sole source of randomness of a generation run —
is a function of the seed alone: two runs at arbitrary clock readings get
identical generator seeds and identical RNG output streams, so every
emitted placement is a deterministic function of (seed, parameters).
With seed = 0 the engine substitutes the clock for the seed and the
property fails. -/
theorem initializeNoise_deterministic_of_ne_zero (seed c1 c2 : ℕ) (h : seed ≠ 0) :
    CSMProcs.initializeNoise seed c1 = CSMProcs.initializeNoise seed c2 ∧
      ∀ n, CSMProcs.initRngOutput seed c1 n = CSMProcs.initRngOutput seed c2 n := by
  have hs : CSMProcs.effectiveSeed seed c1 = CSMProcs.effectiveSeed seed c2 := by
    simp [CSMProcs.effectiveSeed, h]
  refine ⟨?_, ?_⟩
  · simp [CSMProcs.initializeNoise, hs]
  · intro n
    simp [CSMProcs.initRngOutput, CSMProcs.initializeNoise, hs]

/-- Witness for C1 at a concrete nonzero seed and two distinct clock values. -/
theorem initializeNoise_deterministic_of_ne_zero_witness :
    CSMProcs.initializeNoise 12345 1 = CSMProcs.initializeNoise 12345 999 ∧
      ∀ n, CSMProcs.initRngOutput 12345 1 n = CSMProcs.initRngOutput 12345 999 n :=
  initializeNoise_deterministic_of_ne_zero 12345 1 999 (by decide)

/-! ## Theorems for claim C2 -/

/-- Helper: after `generate()` returns, `isRunning()` is always false —
every exit path of `generate()` clears `mRunning`
(proceduralgenerator.cpp lines 251, 320, 322). -/
theorem generateGo_snd_false (evs : List CSMProcs.PhaseEvent) (st : CSMProcs.GenState) :
    (CSMProcs.generateGo evs st).2 = false := by
  induction evs generalizing st with
  | nil => rfl
  | cons ev rest ih =>
    cases ev with
    | normal =>
      by_cases hc : st.cancelled
      · simp [CSMProcs.generateGo, CSMProcs.runPhase, hc]
      · simp only [Bool.not_eq_true] at hc
        simp [CSMProcs.generateGo, CSMProcs.runPhase, hc, ih]
    | cancelHere => simp [CSMProcs.generateGo, CSMProcs.runPhase]
    | throwHere => simp [CSMProcs.generateGo, CSMProcs.runPhase]

/-- C2: a run interrupted via `cancel()` does NOT return a distinct
cancelled outcome.  The complete observable outcome of `generate()` is the
pair (return value, `isRunning()`): a cancelled run yields (false, false),
exactly the pair of a run whose injected callback threw, while only a
completed run yields (true, false).  Consequently the host dialog's
"Generation cancelled." branch, which tests `isRunning()` after the call,
is unreachable: no run is ever reported as cancelled. -/
theorem generate_cancelled_indistinguishable_from_failed :
    CSMProcs.generateRun [.cancelHere] = (false, false) ∧
      CSMProcs.generateRun [.throwHere] = (false, false) ∧
      CSMProcs.generateRun [.normal] = (true, false) ∧
      (∀ evs, (CSMProcs.generateRun evs).2 = false) ∧
      ∀ evs, CSMProcs.dialogOutcome (CSMProcs.generateRun evs) ≠ .cancelledMsg := by
  refine ⟨rfl, rfl, rfl, ?_, ?_⟩
  · intro evs
    exact generateGo_snd_false evs ⟨true, false⟩
  · intro evs
    have h2 := generateGo_snd_false evs (⟨true, false⟩ : CSMProcs.GenState)
    unfold CSMProcs.dialogOutcome CSMProcs.generateRun
    by_cases h1 : (CSMProcs.generateGo evs ⟨true, false⟩).1
    · simp [CSMProcs.generateRun, h1]
    · simp only [Bool.not_eq_true] at h1
      simp [CSMProcs.generateRun, h1, h2]

/-! ## Theorems for claim C7 -/

/-- `Rat.floor`, used in the embedding of `std::floor`, agrees with the
mathematical floor. -/
theorem ratFloor_eq_intFloor (q : ℚ) : Rat.floor q = ⌊q⌋ := by
  rw [Rat.floor_def', Rat.floor_def]

/-- The fractional part fed into the gradient blend lies in [0, 1). -/
theorem fracPart_bounds (q : ℚ) :
    0 ≤ q - (Rat.floor q : ℚ) ∧ q - (Rat.floor q : ℚ) < 1 := by
  rw [ratFloor_eq_intFloor]
  constructor
  · have := Int.floor_le q
    linarith
  · have := Int.lt_floor_add_one q
    linarith

/-- The fade curve maps [0,1] into [0,1]. -/
theorem fade_bounds (t : ℚ) (h0 : 0 ≤ t) (h1 : t ≤ 1) :
    0 ≤ CSMProcs.fade t ∧ CSMProcs.fade t ≤ 1 := by
  constructor
  · have key : CSMProcs.fade t = t ^ 3 * (6 * t ^ 2 - 15 * t + 10) := by
      unfold CSMProcs.fade; ring
    rw [key]
    have : (0:ℚ) ≤ 6 * t ^ 2 - 15 * t + 10 := by nlinarith [sq_nonneg (4 * t - 5)]
    positivity
  · have key : 1 - CSMProcs.fade t = (1 - t) ^ 3 * (6 * t ^ 2 + 3 * t + 1) := by
      unfold CSMProcs.fade; ring
    nlinarith [pow_nonneg (sub_nonneg.mpr h1) 3, sq_nonneg t]

/-- Bound on a single corner gradient: |grad h x y| ≤ 2(|x| + |y|). -/
theorem grad_abs_le (h : ℕ) (x y : ℚ) :
    |CSMProcs.grad h x y| ≤ 2 * (|x| + |y|) := by
  unfold CSMProcs.grad
  have hx := abs_nonneg x
  have hy := abs_nonneg y
  dsimp only
  split_ifs <;>
    refine (abs_add _ _).trans ?_ <;>
      simp only [abs_neg, abs_mul, abs_two] <;>
        nlinarith [abs_nonneg x, abs_nonneg y, abs_abs x, abs_abs y]

/-- Linear interpolation respects endpoint bounds. -/
theorem lerp_abs_le (t a b A B : ℚ) (ht0 : 0 ≤ t) (ht1 : t ≤ 1)
    (ha : |a| ≤ A) (hb : |b| ≤ B) :
    |CSMProcs.lerp t a b| ≤ (1 - t) * A + t * B := by
  have key : CSMProcs.lerp t a b = (1 - t) * a + t * b := by
    unfold CSMProcs.lerp; ring
  rw [key]
  calc |(1 - t) * a + t * b| ≤ |(1 - t) * a| + |t * b| := abs_add _ _
    _ = (1 - t) * |a| + t * |b| := by
        rw [abs_mul, abs_mul, abs_of_nonneg (by linarith : (0:ℚ) ≤ 1 - t),
          abs_of_nonneg ht0]
    _ ≤ (1 - t) * A + t * B := by
        have h1 : (0:ℚ) ≤ 1 - t := by linarith
        have := abs_nonneg a
        have := abs_nonneg b
        nlinarith

/-- The fade-weighted blend of the two opposite fractional offsets never
exceeds 1/2: (1 - fade t)·t + fade t·(1 - t) ≤ 1/2 on [0,1]. -/
theorem fadeBlend_le_half (t : ℚ) (h0 : 0 ≤ t) (h1 : t ≤ 1) :
    (1 - CSMProcs.fade t) * t + CSMProcs.fade t * (1 - t) ≤ 1 / 2 := by
  have key : 1 / 2 - ((1 - CSMProcs.fade t) * t + CSMProcs.fade t * (1 - t)) =
      (1 - 2 * t) ^ 2 * (6 * t ^ 2 * (1 - t) ^ 2 + 2 * t * (1 - t) + 1) / 2 := by
    unfold CSMProcs.fade; ring
  nlinarith [sq_nonneg (1 - 2 * t), sq_nonneg (t * (1 - t)),
    mul_nonneg h0 (sub_nonneg.mpr h1),
    mul_nonneg (sq_nonneg (1 - 2 * t))
      (by nlinarith [sq_nonneg (t * (1 - t)), mul_nonneg h0 (sub_nonneg.mpr h1)] :
        (0:ℚ) ≤ 6 * t ^ 2 * (1 - t) ^ 2 + 2 * t * (1 - t) + 1)]

/-- The bilinear fade blend of four corner gradients at fractional offsets
(xf, yf) ∈ [0,1)² is bounded by 2 in absolute value, for any corner hashes. -/
theorem noise2D_blend_bound (xf yf : ℚ) (h1 h2 h3 h4 : ℕ)
    (hx0 : 0 ≤ xf) (hx1 : xf < 1) (hy0 : 0 ≤ yf) (hy1 : yf < 1) :
    |CSMProcs.lerp (CSMProcs.fade yf)
        (CSMProcs.lerp (CSMProcs.fade xf) (CSMProcs.grad h1 xf yf)
          (CSMProcs.grad h2 (xf - 1) yf))
        (CSMProcs.lerp (CSMProcs.fade xf) (CSMProcs.grad h3 xf (yf - 1))
          (CSMProcs.grad h4 (xf - 1) (yf - 1)))| ≤ 2 := by
  obtain ⟨hu0, hu1⟩ := fade_bounds xf hx0 (le_of_lt hx1)
  obtain ⟨hv0, hv1⟩ := fade_bounds yf hy0 (le_of_lt hy1)
  have haxf : |xf| = xf := abs_of_nonneg hx0
  have hayf : |yf| = yf := abs_of_nonneg hy0
  have haxf1 : |xf - 1| = 1 - xf := by
    rw [abs_sub_comm]
    exact abs_of_nonneg (by linarith)
  have hayf1 : |yf - 1| = 1 - yf := by
    rw [abs_sub_comm]
    exact abs_of_nonneg (by linarith)
  have G1 : |CSMProcs.grad h1 xf yf| ≤ 2 * (xf + yf) := by
    have := grad_abs_le h1 xf yf
    rwa [haxf, hayf] at this
  have G2 : |CSMProcs.grad h2 (xf - 1) yf| ≤ 2 * ((1 - xf) + yf) := by
    have := grad_abs_le h2 (xf - 1) yf
    rwa [haxf1, hayf] at this
  have G3 : |CSMProcs.grad h3 xf (yf - 1)| ≤ 2 * (xf + (1 - yf)) := by
    have := grad_abs_le h3 xf (yf - 1)
    rwa [haxf, hayf1] at this
  have G4 : |CSMProcs.grad h4 (xf - 1) (yf - 1)| ≤ 2 * ((1 - xf) + (1 - yf)) := by
    have := grad_abs_le h4 (xf - 1) (yf - 1)
    rwa [haxf1, hayf1] at this
  have hSx := fadeBlend_le_half xf hx0 (le_of_lt hx1)
  have hSy := fadeBlend_le_half yf hy0 (le_of_lt hy1)
  have hL1 := lerp_abs_le (CSMProcs.fade xf) _ _ _ _ hu0 hu1 G1 G2
  have hL2 := lerp_abs_le (CSMProcs.fade xf) _ _ _ _ hu0 hu1 G3 G4
  have hMain := lerp_abs_le (CSMProcs.fade yf) _ _ _ _ hv0 hv1 hL1 hL2
  refine hMain.trans ?_
  nlinarith [hSx, hSy, hu0, hu1, hv0, hv1]

/-- The structural bound on `noise2D`: every value lies in [-2, 2],
whatever the permutation table. -/
theorem noise2D_abs_le_two (t : List ℕ) (x y : ℚ) :
    |CSMProcs.noise2D t x y| ≤ 2 := by
  obtain ⟨hx0, hx1⟩ := fracPart_bounds x
  obtain ⟨hy0, hy1⟩ := fracPart_bounds y
  exact noise2D_blend_bound (x - (Rat.floor x : ℚ)) (y - (Rat.floor y : ℚ))
    _ _ _ _ hx0 hx1 hy0 hy1

/-- The octave accumulator: |total| ≤ 2 · maxValue, maxValue ≥ 0, for the
turbulence variant also total ≥ 0, and maxValue ≥ the starting amplitude
for at least one octave. -/
theorem octaveAcc_bounds (t : List ℕ) (x y pers lac : ℚ) (ab : Bool)
    (hp : 0 ≤ pers) :
    ∀ (n : ℕ) (amp freq : ℚ), 0 ≤ amp →
      |(CSMProcs.octaveAcc t x y pers lac ab n amp freq).1| ≤
          2 * (CSMProcs.octaveAcc t x y pers lac ab n amp freq).2 ∧
        0 ≤ (CSMProcs.octaveAcc t x y pers lac ab n amp freq).2 ∧
        (ab = true → 0 ≤ (CSMProcs.octaveAcc t x y pers lac ab n amp freq).1) ∧
        (1 ≤ n → amp ≤ (CSMProcs.octaveAcc t x y pers lac ab n amp freq).2) := by
  intro n
  induction n with
  | zero =>
    intro amp freq hamp
    refine ⟨by simp [CSMProcs.octaveAcc], by simp [CSMProcs.octaveAcc],
      fun _ => by simp [CSMProcs.octaveAcc], fun h => absurd h (by decide)⟩
  | succ k ih =>
    intro amp freq hamp
    obtain ⟨ih1, ih2, ih3, _⟩ := ih (amp * pers) (freq * lac) (mul_nonneg hamp hp)
    have hbase := noise2D_abs_le_two t (x * freq) (y * freq)
    set base := CSMProcs.noise2D t (x * freq) (y * freq) with hb
    have hcontrib : |(if ab then |base| else base) * amp| ≤ 2 * amp := by
      rw [abs_mul, abs_of_nonneg hamp]
      have : |if ab then |base| else base| ≤ 2 := by
        cases ab <;> simpa using hbase
      nlinarith [abs_nonneg (if ab then |base| else base)]
    have unf : CSMProcs.octaveAcc t x y pers lac ab (k + 1) amp freq =
        ((if ab then |base| else base) * amp +
            (CSMProcs.octaveAcc t x y pers lac ab k (amp * pers) (freq * lac)).1,
          amp + (CSMProcs.octaveAcc t x y pers lac ab k (amp * pers) (freq * lac)).2) := by
      simp [CSMProcs.octaveAcc]
    rw [unf]
    refine ⟨?_, by simpa using add_nonneg hamp ih2, ?_, ?_⟩
    · refine (abs_add _ _).trans ?_
      simp only []
      nlinarith [hcontrib, ih1]
    · intro hab
      subst hab
      simp only [if_true]
      have h1 : 0 ≤ |base| * amp := mul_nonneg (abs_nonneg _) hamp
      have h2 := ih3 rfl
      simpa using add_nonneg h1 h2
    · intro _
      simp only []
      linarith

set_option maxRecDepth 8000 in
/-- C7 (counterexample): the claimed bounds fail.  With the permutation
table of seed 1, at the point (1/2, 431/2) `noise2D` evaluates to exactly
-3/2, outside [-1.2, 1.2]; consequently the single-octave
`fractalNoise2D` (= noise2D / 1) is -3/2 < -1 and the single-octave
`turbulence2D` is 3/2 > 1. -/
theorem noise2D_exceeds_claimed_bounds :
    CSMProcs.noise2D (CSMProcs.permTable 1) (1/2) (431/2) < -(12/10) ∧
      CSMProcs.fractalNoise2D (CSMProcs.permTable 1) (1/2) (431/2) 1 (1/2) 2 < -1 ∧
      1 < CSMProcs.turbulence2D (CSMProcs.permTable 1) (1/2) (431/2) 1 (1/2) 2 := by
  refine ⟨?_, ?_, ?_⟩ <;> with_unfolding_all decide

/-- C7 (amended): for every permutation table and every input point,
`noise2D` stays within [-2, 2]; for octaves ≥ 1 and nonnegative
persistence, `fractalNoise2D` stays within [-2, 2] and `turbulence2D`
stays within [0, 2] after normalization by the summed amplitude.  (The
claimed bounds 1.2 / 1 / 1 are too tight — see the counterexample — but
the gradient construction does guarantee these.) -/
theorem noise_bounds_amended (t : List ℕ) (x y : ℚ) (octaves : ℕ) (pers lac : ℚ)
    (hoct : 1 ≤ octaves) (hp : 0 ≤ pers) :
    (-2 ≤ CSMProcs.noise2D t x y ∧ CSMProcs.noise2D t x y ≤ 2) ∧
      (-2 ≤ CSMProcs.fractalNoise2D t x y octaves pers lac ∧
        CSMProcs.fractalNoise2D t x y octaves pers lac ≤ 2) ∧
      (0 ≤ CSMProcs.turbulence2D t x y octaves pers lac ∧
        CSMProcs.turbulence2D t x y octaves pers lac ≤ 2) := by
  obtain ⟨hf1, hf2, _, hf4⟩ :=
    octaveAcc_bounds t x y pers lac false hp octaves 1 1 (by norm_num)
  obtain ⟨ht1, ht2, ht3, ht4⟩ :=
    octaveAcc_bounds t x y pers lac true hp octaves 1 1 (by norm_num)
  have hfm : (0:ℚ) < (CSMProcs.octaveAcc t x y pers lac false octaves 1 1).2 :=
    lt_of_lt_of_le one_pos (hf4 hoct)
  have htm : (0:ℚ) < (CSMProcs.octaveAcc t x y pers lac true octaves 1 1).2 :=
    lt_of_lt_of_le one_pos (ht4 hoct)
  refine ⟨abs_le.mp (noise2D_abs_le_two t x y), ?_, ?_⟩
  · have : |CSMProcs.fractalNoise2D t x y octaves pers lac| ≤ 2 := by
      unfold CSMProcs.fractalNoise2D
      simp only []
      rw [abs_div, abs_of_pos hfm, div_le_iff₀ hfm]
      linarith [hf1]
    exact abs_le.mp this
  · constructor
    · unfold CSMProcs.turbulence2D
      simp only []
      exact div_nonneg (ht3 rfl) (le_of_lt htm)
    · unfold CSMProcs.turbulence2D
      simp only []
      rw [div_le_iff₀ htm]
      have := (abs_le.mp ht1).2
      linarith

/-! ## Theorems for claims C3 and C9 -/

/-- C3: `isValidLocation` does NOT test the full placement-constraint
record.  Failing input: one LumberCamp already placed at the origin, and a
candidate LumberCamp location at (200, 0), i.e. 200 units away.  The
LumberCamp context demands `minSpacingFromSame = 1000`, so the claim
requires rejection; the code accepts the location, because the spacing
loop compares every placed element — regardless of type — against
`minSpacingFromAny = 100` only, and `minSpacingFromSame` is never read
(infrastructuregenerator.cpp lines 1004-1013, contradicting the comment
"Check spacing from same type" directly above the loop).
The terrain/water callbacks are unset and the sqrt oracle is pinned to its
true value √40000 = 200 at the probed point. -/
theorem isValidLocation_ignores_same_type_spacing (env : CSMProcs.InfraEnv)
    (hh : env.getHeight = none) (hs : env.getSlope = none)
    (hsqrt : env.sqrtO 40000 = 200) :
    CSMProcs.isValidLocation env [] [] [⟨.LumberCamp, 0, 0⟩] 200 0
        (CSMProcs.getContextForType .LumberCamp) = true ∧
      (200 : ℚ) < (CSMProcs.getContextForType .LumberCamp).minSpacingFromSame ∧
      (CSMProcs.getContextForType .LumberCamp).minSpacingFromAny = 100 := by
  refine ⟨?_, by norm_num [CSMProcs.getContextForType], by
    norm_num [CSMProcs.getContextForType]⟩
  have h40000 : ((200 : ℚ) - 0) * (200 - 0) + (0 - 0) * (0 - 0) = 40000 := by norm_num
  simp only [CSMProcs.isValidLocation, CSMProcs.getContextForType,
    CSMProcs.isInWater, CSMProcs.distanceToNearestSettlement, hh, hs,
    List.foldl_nil, List.any_cons, List.any_nil, h40000, hsqrt]
  norm_num

/-- Witness for C3 at a concrete environment (sqrt oracle constantly 200). -/
theorem isValidLocation_ignores_same_type_spacing_witness :
    CSMProcs.isValidLocation
        ⟨none, none, none, fun _ => 1, fun _ => 0, fun _ => 200⟩ [] []
        [⟨.LumberCamp, 0, 0⟩] 200 0
        (CSMProcs.getContextForType .LumberCamp) = true ∧
      (200 : ℚ) < (CSMProcs.getContextForType .LumberCamp).minSpacingFromSame ∧
      (CSMProcs.getContextForType .LumberCamp).minSpacingFromAny = 100 :=
  isValidLocation_ignores_same_type_spacing
    ⟨none, none, none, fun _ => 1, fun _ => 0, fun _ => 200⟩ rfl rfl rfl

/-- `nextFloat` lands in [0, 1). -/
theorem nextFloat_bounds (g : CSMProcs.RandomGenerator) :
    0 ≤ g.nextFloat.1 ∧ g.nextFloat.1 < 1 := by
  unfold CSMProcs.RandomGenerator.nextFloat
  constructor
  · positivity
  · rw [div_lt_one (by norm_num)]
    exact_mod_cast Nat.mod_lt _ (by norm_num)

/-- `nextFloatRange` unfolds to min + nextFloat · (max - min). -/
theorem nextFloatRange_eq (g : CSMProcs.RandomGenerator) (a b : ℚ) :
    g.nextFloatRange a b = (a + g.nextFloat.1 * (b - a), g.nextFloat.2) := rfl

/-- The sampling loop with an everywhere-invalid context: no location is
returned and every attempt of the budget is consumed. -/
theorem findValidLocationLoop_exhausts (env : CSMProcs.InfraEnv)
    (settlements : List CSMProcs.SettlementPos) (roads : List CSMProcs.WorldRoadW)
    (placed : List CSMProcs.PlacedInfra) (ctx : CSMProcs.PlacementContext)
    (originX originY : ℤ) (sizeX sizeY : ℕ)
    (H : ∀ x y : ℚ,
      (originX : ℚ) * CSMProcs.realSize ≤ x →
      x ≤ ((originX : ℚ) + sizeX) * CSMProcs.realSize →
      (originY : ℚ) * CSMProcs.realSize ≤ y →
      y ≤ ((originY : ℚ) + sizeY) * CSMProcs.realSize →
      CSMProcs.isValidLocation env settlements roads placed x y ctx = false) :
    ∀ (n : ℕ) (g : CSMProcs.RandomGenerator),
      (CSMProcs.findValidLocationLoop env settlements roads placed ctx
          originX originY sizeX sizeY n g).1 = none ∧
      (CSMProcs.findValidLocationLoop env settlements roads placed ctx
          originX originY sizeX sizeY n g).2.2 = n := by
  intro n
  induction n with
  | zero => intro g; exact ⟨rfl, rfl⟩
  | succ k ih =>
    intro g
    have hrs : (0 : ℚ) < CSMProcs.realSize := by norm_num [CSMProcs.realSize]
    obtain ⟨hf0, hf1⟩ := nextFloat_bounds g
    obtain ⟨hf0y, hf1y⟩ := nextFloat_bounds g.nextFloat.2
    set fx : ℚ := g.nextFloat.1 with hfx
    set fy : ℚ := g.nextFloat.2.nextFloat.1 with hfy
    have hxval : ∀ m : ℕ, 0 ≤ fx * ((m : ℚ) - 0) ∧ fx * ((m : ℚ) - 0) ≤ m := by
      intro m
      constructor
      · have : (0:ℚ) ≤ (m:ℚ) := by positivity
        nlinarith
      · nlinarith [Nat.cast_nonneg (α := ℚ) m]
    have hyval : ∀ m : ℕ, 0 ≤ fy * ((m : ℚ) - 0) ∧ fy * ((m : ℚ) - 0) ≤ m := by
      intro m
      constructor
      · have : (0:ℚ) ≤ (m:ℚ) := by positivity
        nlinarith
      · nlinarith [Nat.cast_nonneg (α := ℚ) m]
    obtain ⟨hx0, hx1⟩ := hxval sizeX
    obtain ⟨hy0, hy1⟩ := hyval sizeY
    have hinv : CSMProcs.isValidLocation env settlements roads placed
        (((originX : ℚ) + (0 + fx * ((sizeX : ℚ) - 0))) * CSMProcs.realSize)
        (((originY : ℚ) + (0 + fy * ((sizeY : ℚ) - 0))) * CSMProcs.realSize)
        ctx = false := by
      apply H
      · nlinarith
      · nlinarith
      · nlinarith
      · nlinarith
    show ((CSMProcs.findValidLocationLoop env settlements roads placed ctx
        originX originY sizeX sizeY (k + 1) g).1 = none ∧ _)
    rw [CSMProcs.findValidLocationLoop]
    simp only [nextFloatRange_eq, hinv, if_false, Bool.false_eq_true]
    exact ⟨(ih _).1, by rw [(ih _).2]⟩

/-- C9: under a placement context whose spacing requirement cannot be
satisfied anywhere in the world (hypothesis H: every point of the sampled
world box is invalid — e.g. `minSpacingFromAny` so large that the single
prior placement blocks the whole box), `findValidLocationCtx` returns
failure after exactly 100 uniform sampling attempts.  The function is
total (never throws) and does not touch the placed-infrastructure list. -/
theorem findValidLocation_budget_exhaustion (env : CSMProcs.InfraEnv)
    (settlements : List CSMProcs.SettlementPos) (roads : List CSMProcs.WorldRoadW)
    (placed : List CSMProcs.PlacedInfra) (ctx : CSMProcs.PlacementContext)
    (originX originY : ℤ) (sizeX sizeY : ℕ) (g : CSMProcs.RandomGenerator)
    (H : ∀ x y : ℚ,
      (originX : ℚ) * CSMProcs.realSize ≤ x →
      x ≤ ((originX : ℚ) + sizeX) * CSMProcs.realSize →
      (originY : ℚ) * CSMProcs.realSize ≤ y →
      y ≤ ((originY : ℚ) + sizeY) * CSMProcs.realSize →
      CSMProcs.isValidLocation env settlements roads placed x y ctx = false) :
    (CSMProcs.findValidLocationCtx env settlements roads placed ctx
        originX originY sizeX sizeY g).1 = none ∧
      (CSMProcs.findValidLocationCtx env settlements roads placed ctx
        originX originY sizeX sizeY g).2.2 = 100 :=
  findValidLocationLoop_exhausts env settlements roads placed ctx
    originX originY sizeX sizeY H 100 g

/-- Every point of the one-cell world [0, 8192)² is invalid under `c9Ctx`
with a single prior placement at the cell centre (4096, 4096): the sqrt
oracle reports a distance below 10000 everywhere. -/
theorem c9_world_all_invalid (x y : ℚ) :
    CSMProcs.isValidLocation c9Env [] [] [⟨.Watchtower, 4096, 4096⟩] x y c9Ctx =
      false := by
  simp only [CSMProcs.isValidLocation, c9Env, c9Ctx, CSMProcs.isInWater,
    CSMProcs.distanceToNearestSettlement, List.foldl_nil, List.any_cons,
    List.any_nil]
  norm_num

/-- Witness for C9: a 1×1-cell world with one prior placement at its centre
and spacing requirement 10000; the search returns failure after exactly
100 attempts. -/
theorem findValidLocation_budget_exhaustion_witness :
    (CSMProcs.findValidLocationCtx c9Env [] [] [⟨.Watchtower, 4096, 4096⟩] c9Ctx
        0 0 1 1 (CSMProcs.RandomGenerator.ofSeed 7)).1 = none ∧
      (CSMProcs.findValidLocationCtx c9Env [] [] [⟨.Watchtower, 4096, 4096⟩] c9Ctx
        0 0 1 1 (CSMProcs.RandomGenerator.ofSeed 7)).2.2 = 100 :=
  findValidLocation_budget_exhaustion c9Env [] [] [⟨.Watchtower, 4096, 4096⟩] c9Ctx
    0 0 1 1 (CSMProcs.RandomGenerator.ofSeed 7)
    (fun x y _ _ _ _ => c9_world_all_invalid x y)

/-! ## Theorems for claim C5: union-find core -/

theorem rootUF_fix (f : ℕ) (p : ℕ → ℕ) (x : ℕ) (hx : p x = x) :
    CSMProcs.rootUF f p x = x := by
  cases f with
  | zero => rfl
  | succ g => simp [CSMProcs.rootUF, hx]

theorem rootUF_step (f : ℕ) (p : ℕ → ℕ) (x : ℕ) (hx : p x ≠ x) :
    CSMProcs.rootUF (f + 1) p x = CSMProcs.rootUF f p (p x) := by
  simp [CSMProcs.rootUF, hx]

theorem rootUF_stab (n : ℕ) (p h : ℕ → ℕ) (hd : CSMProcs.UFDecr n p h)
    (hb : CSMProcs.UFBounded n p) :
    ∀ (f1 f2 x : ℕ), x < n → h x < f1 → h x < f2 →
      CSMProcs.rootUF f1 p x = CSMProcs.rootUF f2 p x := by
  intro f1
  induction f1 with
  | zero => intro f2 x _ h1 _; omega
  | succ g ih =>
    intro f2 x hx h1 h2
    by_cases hpx : p x = x
    · rw [rootUF_fix _ _ _ hpx, rootUF_fix _ _ _ hpx]
    · cases f2 with
      | zero => omega
      | succ g2 =>
        rw [rootUF_step g p x hpx, rootUF_step g2 p x hpx]
        have hlt := hd x hx hpx
        exact ih g2 (p x) (hb x hx) (by omega) (by omega)

theorem rootUF_isFix (n : ℕ) (p h : ℕ → ℕ) (hd : CSMProcs.UFDecr n p h)
    (hb : CSMProcs.UFBounded n p) :
    ∀ (f x : ℕ), x < n → h x < f →
      p (CSMProcs.rootUF f p x) = CSMProcs.rootUF f p x := by
  intro f
  induction f with
  | zero => intro x _ hf; omega
  | succ g ih =>
    intro x hx hf
    by_cases hpx : p x = x
    · rw [rootUF_fix _ _ _ hpx]; exact hpx
    · rw [rootUF_step g p x hpx]
      have := hd x hx hpx
      exact ih (p x) (hb x hx) (by omega)

theorem rootUF_lt (n : ℕ) (p h : ℕ → ℕ) (hd : CSMProcs.UFDecr n p h)
    (hb : CSMProcs.UFBounded n p) :
    ∀ (f x : ℕ), x < n → h x < f → CSMProcs.rootUF f p x < n := by
  intro f
  induction f with
  | zero => intro x _ hf; omega
  | succ g ih =>
    intro x hx hf
    by_cases hpx : p x = x
    · rw [rootUF_fix _ _ _ hpx]; exact hx
    · rw [rootUF_step g p x hpx]
      have := hd x hx hpx
      exact ih (p x) (hb x hx) (by omega)

theorem rootUF_h_le (n : ℕ) (p h : ℕ → ℕ) (hd : CSMProcs.UFDecr n p h)
    (hb : CSMProcs.UFBounded n p) :
    ∀ (f x : ℕ), x < n → h x < f → h (CSMProcs.rootUF f p x) ≤ h x := by
  intro f
  induction f with
  | zero => intro x _ hf; omega
  | succ g ih =>
    intro x hx hf
    by_cases hpx : p x = x
    · rw [rootUF_fix _ _ _ hpx]
    · rw [rootUF_step g p x hpx]
      have := hd x hx hpx
      exact le_trans (ih (p x) (hb x hx) (by omega)) (by omega)

/-- Specification of `findUF`: it returns the root, and the compressed map
changes pointers only by redirecting nodes to their own root. -/
theorem findUF_spec (n : ℕ) (p h : ℕ → ℕ) (hd : CSMProcs.UFDecr n p h)
    (hb : CSMProcs.UFBounded n p) :
    ∀ (f x : ℕ), x < n → h x < f →
      (CSMProcs.findUF f p x).1 = CSMProcs.rootUF f p x ∧
      ∀ y, (CSMProcs.findUF f p x).2 y = p y ∨
        (y < n ∧ h y ≤ h x ∧
          (CSMProcs.findUF f p x).2 y = CSMProcs.rootUF f p y) := by
  intro f
  induction f with
  | zero => intro x _ hf; omega
  | succ g ih =>
    intro x hx hf
    by_cases hpx : p x = x
    · constructor
      · simp [CSMProcs.findUF, hpx, rootUF_fix _ _ _ hpx]
      · intro y
        simp [CSMProcs.findUF, hpx]
    · have hpxn : p x < n := hb x hx
      have hdx := hd x hx hpx
      obtain ⟨iha, ihb⟩ := ih (p x) hpxn (by omega)
      have hunf : CSMProcs.findUF (g + 1) p x =
          ((CSMProcs.findUF g p (p x)).1,
            fun y => if y = x then (CSMProcs.findUF g p (p x)).1
              else (CSMProcs.findUF g p (p x)).2 y) := by
        simp [CSMProcs.findUF, hpx]
      rw [hunf]
      constructor
      · rw [rootUF_step g p x hpx]
        exact iha
      · intro y
        by_cases hyx : y = x
        · subst hyx
          refine Or.inr ⟨hx, le_refl _, ?_⟩
          simp only [if_pos rfl]
          rw [rootUF_step g p y hpx]
          exact iha
        · simp only [if_neg hyx]
          rcases ihb y with hl | ⟨hyn, hyle, hyr⟩
          · exact Or.inl hl
          · refine Or.inr ⟨hyn, by omega, ?_⟩
            rw [hyr]
            exact rootUF_stab n p h hd hb g (g + 1) y hyn (by omega) (by omega)

/-! Preservation corollaries of `findUF_spec` (the compressed map keeps
the invariant, the roots and the root function). -/

theorem findUF_preserves (n : ℕ) (p h : ℕ → ℕ) (hd : CSMProcs.UFDecr n p h)
    (hb : CSMProcs.UFBounded n p) (f x : ℕ) (hx : x < n) (hf : h x < f)
    (hfn : ∀ z, z < n → h z < f) :
    CSMProcs.UFBounded n (CSMProcs.findUF f p x).2 ∧
      CSMProcs.UFDecr n (CSMProcs.findUF f p x).2 h ∧
      (∀ y, (CSMProcs.findUF f p x).2 y = y ↔ p y = y) ∧
      (∀ y, y < n → CSMProcs.rootUF f (CSMProcs.findUF f p x).2 y =
        CSMProcs.rootUF f p y) := by
  obtain ⟨_, hmap⟩ := findUF_spec n p h hd hb f x hx hf
  set q := (CSMProcs.findUF f p x).2 with hq
  have hroots : ∀ y, q y = y ↔ p y = y := by
    intro y
    constructor
    · intro hqy
      rcases hmap y with hl | ⟨hyn, _, hyr⟩
      · rw [← hl]; exact hqy
      · by_contra hpy
        have hfix := rootUF_isFix n p h hd hb f y hyn (hfn y hyn)
        rw [hqy] at hyr
        rw [← hyr] at hfix
        have h1 := rootUF_h_le n p h hd hb f y hyn (hfn y hyn)
        rw [← hyr] at h1
        have h2 : CSMProcs.rootUF f p y = CSMProcs.rootUF f p (p y) := by
          cases f with
          | zero => exact absurd (hfn y hyn) (by omega)
          | succ g =>
            rw [rootUF_step g p y hpy]
            exact rootUF_stab n p h hd hb g (g + 1) (p y) (hb y hyn)
              (by have := hd y hyn hpy; have := hfn y hyn; omega)
              (by have := hd y hyn hpy; have := hfn y hyn; omega)
        have h3 := rootUF_h_le n p h hd hb f (p y) (hb y hyn)
          (by have := hd y hyn hpy; have := hfn y hyn; omega)
        rw [← h2] at h3
        rw [← hyr] at h3
        have := hd y hyn hpy
        omega
    · intro hpy
      rcases hmap y with hl | ⟨hyn, _, hyr⟩
      · rw [hl]; exact hpy
      · rw [hyr, rootUF_fix f p y hpy]
  have hbdd : CSMProcs.UFBounded n q := by
    intro y hyn
    rcases hmap y with hl | ⟨_, _, hyr⟩
    · rw [hl]; exact hb y hyn
    · rw [hyr]
      exact rootUF_lt n p h hd hb f y hyn (hfn y hyn)
  have hdecr : CSMProcs.UFDecr n q h := by
    intro y hyn hqy
    have hpy : p y ≠ y := fun hpe => hqy ((hroots y).mpr hpe)
    rcases hmap y with hl | ⟨_, _, hyr⟩
    · rw [hl]; exact hd y hyn hpy
    · rw [hyr]
      have h2 : CSMProcs.rootUF f p y = CSMProcs.rootUF f p (p y) := by
        cases f with
        | zero => exact absurd (hfn y hyn) (by omega)
        | succ g =>
          rw [rootUF_step g p y hpy]
          exact rootUF_stab n p h hd hb g (g + 1) (p y) (hb y hyn)
            (by have := hd y hyn hpy; have := hfn y hyn; omega)
            (by have := hd y hyn hpy; have := hfn y hyn; omega)
      rw [h2]
      have h3 := rootUF_h_le n p h hd hb f (p y) (hb y hyn)
        (by have := hd y hyn hpy; have := hfn y hyn; omega)
      have := hd y hyn hpy
      omega
  refine ⟨hbdd, hdecr, hroots, ?_⟩
  have key : ∀ (k y : ℕ), y < n → h y < k → CSMProcs.rootUF f q y =
      CSMProcs.rootUF f p y := by
    intro k
    induction k with
    | zero => intro y _ hk; omega
    | succ m ih =>
      intro y hyn hk
      by_cases hqy : q y = y
      · have hpy := (hroots y).mp hqy
        rw [rootUF_fix f q y hqy, rootUF_fix f p y hpy]
      · have hpy : p y ≠ y := fun hpe => hqy ((hroots y).mpr hpe)
        have hstepq : CSMProcs.rootUF f q y = CSMProcs.rootUF f q (q y) := by
          cases f with
          | zero => exact absurd (hfn y hyn) (by omega)
          | succ g =>
            rw [rootUF_step g q y hqy]
            exact rootUF_stab n q h hdecr hbdd g (g + 1) (q y) (hbdd y hyn)
              (by have := hdecr y hyn hqy; have := hfn y hyn; omega)
              (by have := hdecr y hyn hqy; have := hfn y hyn; omega)
        have hstepp : CSMProcs.rootUF f p y = CSMProcs.rootUF f p (p y) := by
          cases f with
          | zero => exact absurd (hfn y hyn) (by omega)
          | succ g =>
            rw [rootUF_step g p y hpy]
            exact rootUF_stab n p h hd hb g (g + 1) (p y) (hb y hyn)
              (by have := hd y hyn hpy; have := hfn y hyn; omega)
              (by have := hd y hyn hpy; have := hfn y hyn; omega)
        rcases hmap y with hl | ⟨_, _, hyr⟩
        · rw [hstepq, hl]
          have := hd y hyn hpy
          rw [ih (p y) (hb y hyn) (by omega)]
          exact hstepp.symm
        · rw [hstepq, hyr]
          have hrfix : p (CSMProcs.rootUF f p y) = CSMProcs.rootUF f p y :=
            rootUF_isFix n p h hd hb f y hyn (hfn y hyn)
          have hqfix : q (CSMProcs.rootUF f p y) = CSMProcs.rootUF f p y :=
            (hroots _).mpr hrfix
          rw [rootUF_fix f q _ hqfix]
  intro y hyn
  exact key (h y + 1) y hyn (by omega)

/-- Unfolding a non-root step of `rootUF` at fixed fuel. -/
theorem rootUF_unfold (n : ℕ) (p h : ℕ → ℕ) (hd : CSMProcs.UFDecr n p h)
    (hb : CSMProcs.UFBounded n p) (f y : ℕ) (hyn : y < n) (hpy : p y ≠ y)
    (hfy : h y < f) :
    CSMProcs.rootUF f p y = CSMProcs.rootUF f p (p y) := by
  cases f with
  | zero => omega
  | succ g =>
    rw [rootUF_step g p y hpy]
    exact rootUF_stab n p h hd hb g (g + 1) (p y) (hb y hyn)
      (by have := hd y hyn hpy; omega) (by have := hd y hyn hpy; omega)

/-- Effects of the union `parent[rootFrom] = rootTo` on the invariant
pieces: boundedness, a new height certificate bounded by 2B+1, the root
set (loses exactly ra), and the root function (classes of ra are
redirected to rb). -/
theorem union_preserves (n : ℕ) (p h : ℕ → ℕ) (B : ℕ)
    (hd : CSMProcs.UFDecr n p h) (hb : CSMProcs.UFBounded n p)
    (hB : ∀ x, x < n → h x ≤ B) (ra rb : ℕ) (hraN : ra < n) (hrbN : rb < n)
    (hra : p ra = ra) (hrb : p rb = rb) (hne : ra ≠ rb) (f : ℕ)
    (hf : 2 * B + 1 < f) :
    CSMProcs.UFBounded n (fun y => if y = ra then rb else p y) ∧
      CSMProcs.UFDecr n (fun y => if y = ra then rb else p y)
        (fun x => if CSMProcs.rootUF f p x = ra then h x + B + 1 else h x) ∧
      (∀ x, x < n →
        (if CSMProcs.rootUF f p x = ra then h x + B + 1 else h x) ≤ 2 * B + 1) ∧
      (∀ y, (fun y => if y = ra then rb else p y) y = y ↔ (p y = y ∧ y ≠ ra)) ∧
      (∀ y, y < n → CSMProcs.rootUF f (fun y => if y = ra then rb else p y) y =
        (if CSMProcs.rootUF f p y = ra then rb else CSMProcs.rootUF f p y)) := by
  set p2 : ℕ → ℕ := fun y => if y = ra then rb else p y with hp2
  set h2 : ℕ → ℕ := fun x => if CSMProcs.rootUF f p x = ra then h x + B + 1 else h x
    with hh2
  have hfB : ∀ z, z < n → h z < f := fun z hz => by have := hB z hz; omega
  have hrootra : CSMProcs.rootUF f p ra = ra := rootUF_fix f p ra hra
  have hrootrb : CSMProcs.rootUF f p rb = rb := rootUF_fix f p rb hrb
  have hb2 : CSMProcs.UFBounded n p2 := by
    intro y hyn
    by_cases hy : y = ra
    · simp [hp2, hy, hrbN]
    · simp only [hp2, if_neg hy]
      exact hb y hyn
  have hroots2 : ∀ y, p2 y = y ↔ (p y = y ∧ y ≠ ra) := by
    intro y
    by_cases hy : y = ra
    · subst hy
      simp [hp2, hne.symm]
    · simp [hp2, hy]
  have hd2 : CSMProcs.UFDecr n p2 h2 := by
    intro x hx hnex
    by_cases hxra : x = ra
    · have hp2x : p2 x = rb := by simp [hp2, hxra]
      rw [hp2x]
      have e1 : h2 rb = h rb := by simp [hh2, hrootrb, Ne.symm hne]
      have e2 : h2 x = h x + B + 1 := by simp [hh2, hxra, hrootra]
      rw [e1, e2]
      have := hB rb hrbN
      omega
    · have hp2x : p2 x = p x := by simp [hp2, hxra]
      rw [hp2x] at hnex ⊢
      have hstep : CSMProcs.rootUF f p (p x) = CSMProcs.rootUF f p x :=
        (rootUF_unfold n p h hd hb f x hx hnex (hfB x hx)).symm
      have := hd x hx hnex
      by_cases hcase : CSMProcs.rootUF f p x = ra
      · have e1 : h2 (p x) = h (p x) + B + 1 := by simp [hh2, hstep, hcase]
        have e2 : h2 x = h x + B + 1 := by simp [hh2, hcase]
        rw [e1, e2]
        omega
      · have e1 : h2 (p x) = h (p x) := by simp [hh2, hstep, hcase]
        have e2 : h2 x = h x := by simp [hh2, hcase]
        rw [e1, e2]
        omega
  have hB2 : ∀ x, x < n → h2 x ≤ 2 * B + 1 := by
    intro x hx
    have := hB x hx
    by_cases hcase : CSMProcs.rootUF f p x = ra
    · have e : h2 x = h x + B + 1 := by simp [hh2, hcase]
      omega
    · have e : h2 x = h x := by simp [hh2, hcase]
      omega
  refine ⟨hb2, hd2, hB2, hroots2, ?_⟩
  have hf2 : ∀ z, z < n → h2 z < f := by
    intro z hz
    have := hB2 z hz
    omega
  have key : ∀ (k y : ℕ), y < n → h y < k →
      CSMProcs.rootUF f p2 y =
        (if CSMProcs.rootUF f p y = ra then rb else CSMProcs.rootUF f p y) := by
    intro k
    induction k with
    | zero => intro y _ hk; omega
    | succ m ih =>
      intro y hyn hk
      by_cases hpy : p y = y
      · by_cases hyra : y = ra
        · subst hyra
          have hp2y : p2 y = rb := by simp [hp2]
          have hp2ne : p2 y ≠ y := by rw [hp2y]; exact Ne.symm hne
          have hstep2 := rootUF_unfold n p2 h2 hd2 hb2 f y hyn hp2ne (hf2 y hyn)
          rw [hstep2, hp2y]
          have hp2rb : p2 rb = rb := by simp [hp2, Ne.symm hne, hrb]
          rw [rootUF_fix f p2 rb hp2rb, rootUF_fix f p y hpy]
          simp
        · have hp2y : p2 y = y := (hroots2 y).mpr ⟨hpy, hyra⟩
          rw [rootUF_fix f p2 y hp2y, rootUF_fix f p y hpy]
          simp [hyra]
      · have hyra : y ≠ ra := by
          intro hgoal
          apply hpy
          rw [hgoal, hra]
        have hp2y : p2 y = p y := by simp [hp2, hyra]
        have hp2ne : p2 y ≠ y := by rw [hp2y]; exact hpy
        have hstep2 := rootUF_unfold n p2 h2 hd2 hb2 f y hyn hp2ne (hf2 y hyn)
        have hstepp := rootUF_unfold n p h hd hb f y hyn hpy (hfB y hyn)
        rw [hstep2, hp2y]
        have := hd y hyn hpy
        rw [ih (p y) (hb y hyn) (by omega), ← hstepp]
  intro y hyn
  exact key (h y + 1) y hyn (by omega)

/-- The union removes exactly the root ra from the root set. -/
theorem rootCard_union (n : ℕ) (p : ℕ → ℕ) (ra rb : ℕ) (hraN : ra < n)
    (hra : p ra = ra) (hne : ra ≠ rb) :
    CSMProcs.rootCard n (fun y => if y = ra then rb else p y) + 1 =
      CSMProcs.rootCard n p := by
  unfold CSMProcs.rootCard
  have hset : ((Finset.range n).filter fun x =>
      (fun y => if y = ra then rb else p y) x = x) =
      ((Finset.range n).filter fun x => p x = x).erase ra := by
    ext y
    simp only [Finset.mem_filter, Finset.mem_erase, Finset.mem_range]
    constructor
    · rintro ⟨hyn, hy⟩
      by_cases hyra : y = ra
      · subst hyra
        rw [if_pos rfl] at hy
        exact absurd hy.symm hne
      · rw [if_neg hyra] at hy
        exact ⟨hyra, hyn, hy⟩
    · rintro ⟨hyra, hyn, hy⟩
      exact ⟨hyn, by rw [if_neg hyra]; exact hy⟩
  rw [hset]
  have hmem : ra ∈ (Finset.range n).filter fun x => p x = x := by
    simp [Finset.mem_filter, Finset.mem_range, hraN, hra]
  rw [Finset.card_erase_of_mem hmem]
  have : 0 < ((Finset.range n).filter fun x => p x = x).card :=
    Finset.card_pos.mpr ⟨ra, hmem⟩
  omega

/-- Pointwise-equal root predicates give equal root counts. -/
theorem rootCard_congr (n : ℕ) (p q : ℕ → ℕ) (h : ∀ y, q y = y ↔ p y = y) :
    CSMProcs.rootCard n q = CSMProcs.rootCard n p := by
  unfold CSMProcs.rootCard
  congr 1
  apply Finset.filter_congr
  intro y _
  simp [h y]

/-! ## Theorems for claim C6 -/

theorem roleList_nodup : CSMProcs.roleList.Nodup := by decide

theorem mem_roleList (r : CSMProcs.BuildingRole) : r ∈ CSMProcs.roleList := by
  cases r <;> decide

/-- Incrementing a role outside a list leaves the mapped list unchanged. -/
theorem map_incrAssigned_not_mem (L : List CSMProcs.BuildingRole)
    (f : CSMProcs.BuildingRole → ℕ) (r : CSMProcs.BuildingRole) (h : r ∉ L) :
    L.map (CSMProcs.incrAssigned f r) = L.map f := by
  induction L with
  | nil => rfl
  | cons a t ih =>
    have ha : a ≠ r := fun he => h (he ▸ List.mem_cons_self a t)
    have ht : r ∉ t := fun hm => h (List.mem_cons_of_mem a hm)
    simp [CSMProcs.incrAssigned, ha, ih ht]

/-- Incrementing one role raises the summed counts by exactly 1. -/
theorem sumAssigned_incr (f : CSMProcs.BuildingRole → ℕ)
    (r : CSMProcs.BuildingRole) :
    CSMProcs.sumAssigned (CSMProcs.incrAssigned f r) = CSMProcs.sumAssigned f + 1 := by
  have key : ∀ L : List CSMProcs.BuildingRole, L.Nodup → r ∈ L →
      (L.map (CSMProcs.incrAssigned f r)).sum = (L.map f).sum + 1 := by
    intro L
    induction L with
    | nil => intro _ h; cases h
    | cons a t ih =>
      intro hnd hmem
      obtain ⟨hna, hndt⟩ := List.nodup_cons.mp hnd
      rcases List.mem_cons.mp hmem with he | hmt
      · have hmap : t.map (CSMProcs.incrAssigned f r) = t.map f :=
          map_incrAssigned_not_mem t f r (by rw [he]; exact hna)
        simp [CSMProcs.incrAssigned, hmap, he.symm]
        omega
      · have ha : a ≠ r := fun he => hna (he ▸ hmt)
        simp [CSMProcs.incrAssigned, ha, ih hndt hmt]
        omega
  exact key CSMProcs.roleList roleList_nodup (mem_roleList r)

/-- Occupying a fresh lot raises the occupied count by exactly 1. -/
theorem occCount_setOccupied :
    ∀ (lots : List CSMProcs.BuildingLot) (j : ℕ), j < lots.length →
      (lots.getD j default).occupied = false →
      CSMProcs.occCount (CSMProcs.setOccupied lots j) = CSMProcs.occCount lots + 1 := by
  intro lots
  induction lots with
  | nil => intro j h; cases h
  | cons a t ih =>
    intro j hj hocc
    cases j with
    | zero =>
      simp only [List.getD_cons_zero] at hocc
      simp [CSMProcs.setOccupied, CSMProcs.occCount, List.set, hocc,
        List.filter_cons]
    | succ k =>
      have hk : k < t.length := by simpa using hj
      simp only [List.getD_cons_succ] at hocc
      have := ih k hk hocc
      simp only [CSMProcs.setOccupied, List.getD_cons_succ] at this ⊢
      cases hoa : a.occupied <;>
        simp [CSMProcs.occCount, List.filter_cons, hoa, List.set] at this ⊢ <;>
          [exact this; omega]

theorem length_setOccupied (lots : List CSMProcs.BuildingLot) (j : ℕ) :
    (CSMProcs.setOccupied lots j).length = lots.length := by
  simp [CSMProcs.setOccupied]

/-- Index/value pairs of `enum` point at unoccupied data actually in the
list. -/
theorem enum_spec {l : List CSMProcs.BuildingLot} {j : ℕ} {lot : CSMProcs.BuildingLot}
    (h : (j, lot) ∈ l.enum) : l.getD j default = lot ∧ j < l.length := by
  rw [List.mk_mem_enum_iff_getElem?] at h
  have hlt : j < l.length := by
    by_contra hge
    rw [List.getElem?_eq_none (by omega)] at h
    cases h
  constructor
  · rw [List.getD_eq_getElem?_getD, h]
    rfl
  · exact hlt

/-- If the best-lot scan returns an index (starting from the empty
accumulator), that index is an unoccupied lot of the list. -/
theorem findBestLotAux_some (role : CSMProcs.BuildingRole) :
    ∀ (items : List (ℕ × CSMProcs.BuildingLot)) (acc : ℚ × Option ℕ)
      (g : CSMProcs.RandomGenerator) (j : ℕ),
      (CSMProcs.findBestLotAux role items acc g).1.2 = some j →
      (∃ lot, (j, lot) ∈ items ∧ lot.occupied = false) ∨ acc.2 = some j := by
  intro items
  induction items with
  | nil =>
    intro acc g j h
    exact Or.inr h
  | cons it rest ih =>
    intro acc g j h
    obtain ⟨i, lot⟩ := it
    by_cases hocc : lot.occupied
    · rw [CSMProcs.findBestLotAux, if_pos hocc] at h
      rcases ih acc g j h with ⟨l2, hm, hl2⟩ | hacc
      · exact Or.inl ⟨l2, List.mem_cons_of_mem _ hm, hl2⟩
      · exact Or.inr hacc
    · rw [CSMProcs.findBestLotAux, if_neg hocc] at h
      simp only [] at h
      split at h
      · rcases ih _ _ j h with ⟨l2, hm, hl2⟩ | hacc
        · exact Or.inl ⟨l2, List.mem_cons_of_mem _ hm, hl2⟩
        · simp only [Option.some_inj] at hacc
          exact Or.inl ⟨lot, hacc ▸ List.mem_cons_self _ _,
            Bool.not_eq_true _ ▸ by simpa using hocc⟩
      · rcases ih _ _ j h with ⟨l2, hm, hl2⟩ | hacc
        · exact Or.inl ⟨l2, List.mem_cons_of_mem _ hm, hl2⟩
        · exact Or.inr hacc

/-- The pass-1 inner loop preserves "assigned total = occupied count" and
the number of lots. -/
theorem passOneIter_invariant (role : CSMProcs.BuildingRole) (count : ℤ) :
    ∀ (k : ℕ) (st : CSMProcs.AssignState),
      CSMProcs.sumAssigned st.assigned = CSMProcs.occCount st.lots →
      CSMProcs.sumAssigned (CSMProcs.passOneIter role count k st).assigned =
          CSMProcs.occCount (CSMProcs.passOneIter role count k st).lots ∧
        (CSMProcs.passOneIter role count k st).lots.length = st.lots.length := by
  intro k
  induction k with
  | zero => intro st h; exact ⟨h, rfl⟩
  | succ m ih =>
    intro st h
    rw [CSMProcs.passOneIter]
    split
    · rcases hscan : (CSMProcs.findBestLotAux role st.lots.enum (-1, none)
        st.rng).1.2 with _ | j
      · simp only [hscan]
        exact ih _ h
      · simp only [hscan]
        rcases findBestLotAux_some role st.lots.enum (-1, none) st.rng j hscan with
          ⟨lot, hm, hlocc⟩ | habs
        · obtain ⟨hget, hlt⟩ := enum_spec hm
          have hocc' : (st.lots.getD j default).occupied = false := by
            rw [hget]; exact hlocc
          have hinc := occCount_setOccupied st.lots j hlt hocc'
          have hsum := sumAssigned_incr st.assigned role
          have hnew : CSMProcs.sumAssigned
              (CSMProcs.incrAssigned st.assigned role) =
              CSMProcs.occCount (CSMProcs.setOccupied st.lots j) := by
            rw [hsum, hinc, h]
          obtain ⟨h1, h2⟩ := ih ⟨CSMProcs.setOccupied st.lots j,
            CSMProcs.incrAssigned st.assigned role, _⟩ hnew
          exact ⟨h1, by rw [h2]; exact length_setOccupied st.lots j⟩
        · cases habs
    · exact ⟨h, rfl⟩

/-- Pass 1 preserves "assigned total = occupied count" and the number of
lots. -/
theorem passOne_invariant (req : CSMProcs.ReqMap) (st : CSMProcs.AssignState)
    (h : CSMProcs.sumAssigned st.assigned = CSMProcs.occCount st.lots) :
    CSMProcs.sumAssigned (CSMProcs.passOne req st).assigned =
        CSMProcs.occCount (CSMProcs.passOne req st).lots ∧
      (CSMProcs.passOne req st).lots.length = st.lots.length := by
  unfold CSMProcs.passOne
  generalize CSMProcs.roleList = L
  induction L generalizing st with
  | nil => exact ⟨h, rfl⟩
  | cons r t ih =>
    simp only [List.foldl_cons]
    by_cases hres : CSMProcs.isResidualRole r
    · simp only [hres, if_true]
      exact ih st h
    · simp only [hres, if_false]
      obtain ⟨h1, h2⟩ := passOneIter_invariant r (req r) (req r).toNat st h
      obtain ⟨h3, h4⟩ := ih _ h1
      exact ⟨h3, h4.trans h2⟩

/-- Unfolding equation for the cons case of pass 2. -/
theorem passTwo_cons (lot : CSMProcs.BuildingLot) (rest : List CSMProcs.BuildingLot)
    (assigned : CSMProcs.BuildingRole → ℕ) :
    CSMProcs.passTwo (lot :: rest) assigned =
      if lot.occupied then
        (lot :: (CSMProcs.passTwo rest assigned).1,
          (CSMProcs.passTwo rest assigned).2)
      else
        ({ lot with occupied := true } ::
            (CSMProcs.passTwo rest
              (CSMProcs.incrAssigned assigned (CSMProcs.residentialRoleFor lot))).1,
          (CSMProcs.passTwo rest
            (CSMProcs.incrAssigned assigned (CSMProcs.residentialRoleFor lot))).2) :=
  rfl

/-- Pass 2 adds exactly one assignment per unoccupied lot. -/
theorem passTwo_sum :
    ∀ (lots : List CSMProcs.BuildingLot) (assigned : CSMProcs.BuildingRole → ℕ),
      CSMProcs.sumAssigned (CSMProcs.passTwo lots assigned).2 =
        CSMProcs.sumAssigned assigned +
          (lots.filter (fun l => !l.occupied)).length := by
  intro lots
  induction lots with
  | nil => intro assigned; simp [CSMProcs.passTwo]
  | cons lot rest ih =>
    intro assigned
    cases hocc : lot.occupied
    · have hf : (lot :: rest).filter (fun l => !l.occupied) =
          lot :: rest.filter (fun l => !l.occupied) := by
        simp [List.filter_cons, hocc]
      rw [passTwo_cons, if_neg (by simp [hocc]), hf]
      simp only [List.length_cons]
      rw [ih, sumAssigned_incr]
      omega
    · have hf : (lot :: rest).filter (fun l => !l.occupied) =
          rest.filter (fun l => !l.occupied) := by
        simp [List.filter_cons, hocc]
      rw [passTwo_cons, if_pos (by simp [hocc]), hf]
      exact ih assigned

/-- Occupied plus unoccupied lots account for every lot. -/
theorem occ_add_unocc (lots : List CSMProcs.BuildingLot) :
    CSMProcs.occCount lots + (lots.filter (fun l => !l.occupied)).length =
      lots.length := by
  induction lots with
  | nil => rfl
  | cons lot rest ih =>
    cases hocc : lot.occupied
    · have h1 : CSMProcs.occCount (lot :: rest) = CSMProcs.occCount rest := by
        simp [CSMProcs.occCount, List.filter_cons, hocc]
      have h2 : (lot :: rest).filter (fun l => !l.occupied) =
          lot :: rest.filter (fun l => !l.occupied) := by
        simp [List.filter_cons, hocc]
      rw [h1, h2]
      simp only [List.length_cons]
      omega
    · have h1 : CSMProcs.occCount (lot :: rest) = CSMProcs.occCount rest + 1 := by
        simp [CSMProcs.occCount, List.filter_cons, hocc]
      have h2 : (lot :: rest).filter (fun l => !l.occupied) =
          rest.filter (fun l => !l.occupied) := by
        simp [List.filter_cons, hocc]
      rw [h1, h2]
      simp only [List.length_cons]
      omega

/-- Unfolding of the non-empty case of `assignBuildingRoles` down to the
two passes. -/
theorem assignBuildingRoles_snd_of_ne (ty : CSMProcs.SettlementType)
    (lots : List CSMProcs.BuildingLot) (g : CSMProcs.RandomGenerator)
    (h : lots.isEmpty = false) :
    (CSMProcs.assignBuildingRoles ty lots g).2.1 =
      (CSMProcs.passTwo
        (CSMProcs.passOne (CSMProcs.getRequiredBuildings ty lots.length g).1
          ⟨lots, fun _ => 0, (CSMProcs.getRequiredBuildings ty lots.length g).2⟩).lots
        (CSMProcs.passOne (CSMProcs.getRequiredBuildings ty lots.length g).1
          ⟨lots, fun _ => 0,
            (CSMProcs.getRequiredBuildings ty lots.length g).2⟩).assigned).2 := by
  unfold CSMProcs.assignBuildingRoles
  rw [if_neg (by simp [h])]

/-- C6: for a settlement whose lot list is initially unoccupied, after
`assignBuildingRoles` the sum over all building roles of the assigned
counts equals the number of lots exactly: every lot ends up counted in
exactly one role, pass 1 claiming one lot per counted special building and
pass 2 absorbing every remaining lot into the residual residential roles
(CommonHouse/RichHouse/PoorHouse). -/
theorem assignBuildingRoles_conserves (ty : CSMProcs.SettlementType)
    (lots : List CSMProcs.BuildingLot) (g : CSMProcs.RandomGenerator)
    (hun : ∀ lot ∈ lots, lot.occupied = false) :
    CSMProcs.sumAssigned (CSMProcs.assignBuildingRoles ty lots g).2.1 =
      lots.length := by
  by_cases hemp : lots.isEmpty
  · have h0 : lots = [] := List.isEmpty_iff.mp hemp
    subst h0
    have hproj : (CSMProcs.assignBuildingRoles ty [] g).2.1 =
        (fun _ => 0 : CSMProcs.BuildingRole → ℕ) := rfl
    rw [hproj]
    rfl
  · have hemp' : lots.isEmpty = false := by
      simpa using hemp
    rw [assignBuildingRoles_snd_of_ne ty lots g hemp']
    have hocc0 : CSMProcs.occCount lots = 0 := by
      unfold CSMProcs.occCount
      rw [List.filter_eq_nil_iff.mpr]
      · rfl
      · intro lot hm
        simp [hun lot hm]
    have hsum0 : CSMProcs.sumAssigned (fun _ => 0) = 0 := by
      simp [CSMProcs.sumAssigned, CSMProcs.roleList]
    obtain ⟨h1, h2⟩ := passOne_invariant
      (CSMProcs.getRequiredBuildings ty lots.length g).1
      ⟨lots, fun _ => 0, (CSMProcs.getRequiredBuildings ty lots.length g).2⟩
      (by rw [hsum0, hocc0])
    set st1 := CSMProcs.passOne (CSMProcs.getRequiredBuildings ty lots.length g).1
      ⟨lots, fun _ => 0, (CSMProcs.getRequiredBuildings ty lots.length g).2⟩
    rw [passTwo_sum st1.lots st1.assigned, h1]
    have h3 := occ_add_unocc st1.lots
    have h2a : st1.lots.length = lots.length := by simpa using h2
    omega

/-- Witness for C6: three unoccupied Village lots, concrete RNG. -/
theorem assignBuildingRoles_conserves_witness :
    CSMProcs.sumAssigned
        (CSMProcs.assignBuildingRoles .Village
          [⟨0, 0, 100, 100, 0, .Center, false, true, false⟩,
           ⟨50, 0, 100, 100, 0, .Market, true, false, false⟩,
           ⟨0, 50, 100, 100, 0, .Slums, false, false, false⟩]
          (CSMProcs.RandomGenerator.ofSeed 3)).2.1 = 3 :=
  assignBuildingRoles_conserves .Village
    [⟨0, 0, 100, 100, 0, .Center, false, true, false⟩,
     ⟨50, 0, 100, 100, 0, .Market, true, false, false⟩,
     ⟨0, 50, 100, 100, 0, .Slums, false, false, false⟩]
    (CSMProcs.RandomGenerator.ofSeed 3)
    (by decide)

/-- Witness for C7 (amended) at a concrete table, point and octave data. -/
theorem noise_bounds_amended_witness :
    (-2 ≤ CSMProcs.noise2D (CSMProcs.permTable 1) (1/2) (431/2) ∧
        CSMProcs.noise2D (CSMProcs.permTable 1) (1/2) (431/2) ≤ 2) ∧
      (-2 ≤ CSMProcs.fractalNoise2D (CSMProcs.permTable 1) (1/2) (431/2) 1 (1/2) 2 ∧
        CSMProcs.fractalNoise2D (CSMProcs.permTable 1) (1/2) (431/2) 1 (1/2) 2 ≤ 2) ∧
      (0 ≤ CSMProcs.turbulence2D (CSMProcs.permTable 1) (1/2) (431/2) 1 (1/2) 2 ∧
        CSMProcs.turbulence2D (CSMProcs.permTable 1) (1/2) (431/2) 1 (1/2) 2 ≤ 2) :=
  noise_bounds_amended (CSMProcs.permTable 1) (1/2) (431/2) 1 (1/2) 2
    (by decide) (by norm_num)


/-! ## Theorems for claim C5: the Kruskal phase builds a spanning tree
(infrastructuregenerator.cpp lines 105-187) -/

/-- The empty selection spans no edges. -/
theorem graphOf_nil : graphOf [] = ⊥ := by
  have h : { e : Sym2 ℕ | ∃ c ∈ ([] : List Connection), e = s(c.fromI, c.toI) } = ∅ := by
    ext e; simp
  rw [graphOf, h, SimpleGraph.fromEdgeSet_empty]

/-- Appending one connection adds one edge to the selection graph. -/
theorem graphOf_append (sel : List Connection) (c : Connection) :
    graphOf (sel ++ [c]) =
      graphOf sel ⊔ SimpleGraph.fromEdgeSet {s(c.fromI, c.toI)} := by
  have h : { e : Sym2 ℕ | ∃ c2 ∈ sel ++ [c], e = s(c2.fromI, c2.toI) } =
      { e : Sym2 ℕ | ∃ c2 ∈ sel, e = s(c2.fromI, c2.toI) } ∪ {s(c.fromI, c.toI)} := by
    ext e
    simp only [Set.mem_setOf_eq, Set.mem_union, Set.mem_singleton_iff,
      List.mem_append, List.mem_singleton]
    constructor
    · rintro ⟨c2, hc2 | rfl, rfl⟩
      · exact Or.inl ⟨c2, hc2, rfl⟩
      · exact Or.inr rfl
    · rintro (⟨c2, hc2, rfl⟩ | rfl)
      · exact ⟨c2, Or.inl hc2, rfl⟩
      · exact ⟨c, Or.inr rfl, rfl⟩
  rw [graphOf, h, SimpleGraph.fromEdgeSet_union, graphOf]

/-- Adjacency in a single-edge graph. -/
theorem single_edge_adj (a b x y : ℕ) :
    (SimpleGraph.fromEdgeSet {s(a, b)}).Adj x y ↔
      ((x = a ∧ y = b) ∨ (x = b ∧ y = a)) ∧ x ≠ y := by
  rw [SimpleGraph.fromEdgeSet_adj]
  constructor
  · rintro ⟨he, hne⟩
    rw [Set.mem_singleton_iff, Sym2.eq_iff] at he
    exact ⟨he, hne⟩
  · rintro ⟨he, hne⟩
    exact ⟨Set.mem_singleton_iff.mpr (Sym2.eq_iff.mpr he), hne⟩

/-- Reachability after adding the single edge (a, b): either the old
graph already connects, or the walk crosses the new edge once in one of
the two directions. -/
theorem reach_sup_edge (G : SimpleGraph ℕ) (a b : ℕ) (hab : a ≠ b) (x y : ℕ) :
    (G ⊔ SimpleGraph.fromEdgeSet {s(a, b)}).Reachable x y ↔
      G.Reachable x y ∨ (G.Reachable x a ∧ G.Reachable b y) ∨
        (G.Reachable x b ∧ G.Reachable a y) := by
  constructor
  · rintro ⟨w⟩
    induction w with
    | nil => exact Or.inl (SimpleGraph.Reachable.refl _)
    | cons hadj w ih =>
      rename_i u v z
      simp only [SimpleGraph.sup_adj] at hadj
      rcases hadj with hg | he
      · rcases ih with h1 | ⟨h2a, h2b⟩ | ⟨h3a, h3b⟩
        · exact Or.inl (hg.reachable.trans h1)
        · exact Or.inr (Or.inl ⟨hg.reachable.trans h2a, h2b⟩)
        · exact Or.inr (Or.inr ⟨hg.reachable.trans h3a, h3b⟩)
      · rcases (single_edge_adj a b u v).mp he with ⟨⟨rfl, rfl⟩ | ⟨rfl, rfl⟩, _⟩
        · rcases ih with h1 | ⟨h2a, h2b⟩ | ⟨h3a, h3b⟩
          · exact Or.inr (Or.inl ⟨SimpleGraph.Reachable.refl _, h1⟩)
          · exact Or.inl (h2a.symm.trans h2b)
          · exact Or.inl h3b
        · rcases ih with h1 | ⟨h2a, h2b⟩ | ⟨h3a, h3b⟩
          · exact Or.inr (Or.inr ⟨SimpleGraph.Reachable.refl _, h1⟩)
          · exact Or.inl h2b
          · exact Or.inl (h3a.symm.trans h3b)
  · have hmono : G ≤ G ⊔ SimpleGraph.fromEdgeSet {s(a, b)} := le_sup_left
    have hadj : (G ⊔ SimpleGraph.fromEdgeSet {s(a, b)}).Adj a b := by
      simp only [SimpleGraph.sup_adj]
      exact Or.inr ((single_edge_adj a b a b).mpr ⟨Or.inl ⟨rfl, rfl⟩, hab⟩)
    rintro (h1 | ⟨h2a, h2b⟩ | ⟨h3a, h3b⟩)
    · exact h1.mono hmono
    · exact ((h2a.mono hmono).trans hadj.reachable).trans (h2b.mono hmono)
    · exact ((h3a.mono hmono).trans hadj.symm.reachable).trans (h3b.mono hmono)

/-- Adding an edge between components of an acyclic graph keeps it
acyclic (the new edge is a bridge). -/
theorem acyclic_sup_edge (G : SimpleGraph ℕ) (a b : ℕ) (hab : a ≠ b)
    (hnr : ¬ G.Reachable a b) (hg : G.IsAcyclic) :
    (G ⊔ SimpleGraph.fromEdgeSet {s(a, b)}).IsAcyclic := by
  have hadj : (G ⊔ SimpleGraph.fromEdgeSet {s(a, b)}).Adj a b := by
    simp only [SimpleGraph.sup_adj]
    exact Or.inr ((single_edge_adj a b a b).mpr ⟨Or.inl ⟨rfl, rfl⟩, hab⟩)
  have hdel : (G ⊔ SimpleGraph.fromEdgeSet {s(a, b)}) \
      SimpleGraph.fromEdgeSet {s(a, b)} = G := by
    ext u v
    simp only [SimpleGraph.sdiff_adj, SimpleGraph.sup_adj]
    constructor
    · rintro ⟨hg2 | he, hne⟩
      · exact hg2
      · exact absurd he hne
    · intro hg2
      refine ⟨Or.inl hg2, ?_⟩
      intro he
      rcases (single_edge_adj a b u v).mp he with ⟨⟨rfl, rfl⟩ | ⟨rfl, rfl⟩, _⟩
      · exact hnr hg2.reachable
      · exact hnr hg2.symm.reachable
  have hbridge : (G ⊔ SimpleGraph.fromEdgeSet {s(a, b)}).IsBridge s(a, b) := by
    rw [SimpleGraph.isBridge_iff]
    refine ⟨hadj, ?_⟩
    rw [hdel]
    exact hnr
  intro v c hc
  by_cases he : s(a, b) ∈ c.edges
  · exact (SimpleGraph.isBridge_iff_adj_and_forall_cycle_not_mem.mp hbridge).2 c hc he
  · have hsub : ∀ e ∈ c.edges, e ∈ G.edgeSet := by
      intro e hee
      have hmem := c.edges_subset_edgeSet hee
      rw [SimpleGraph.edgeSet_sup] at hmem
      rcases hmem with hmem | hmem
      · exact hmem
      · rw [SimpleGraph.edgeSet_fromEdgeSet] at hmem
        rcases hmem with ⟨hmem1, _⟩
        rw [Set.mem_singleton_iff] at hmem1
        exact absurd (hmem1 ▸ hee) he
    exact hg (c.transfer G hsub) (hc.transfer hsub)

/-- Membership in the dropped range, as used by the pair enumeration of
buildConnections. -/
theorem mem_drop_range (k n j : ℕ) : j ∈ (List.range n).drop k ↔ k ≤ j ∧ j < n := by
  simp only [List.mem_drop_iff_getElem, List.getElem_drop, List.getElem_range,
    List.length_drop, List.length_range]
  constructor
  · rintro ⟨i, hi, rfl⟩; omega
  · rintro ⟨h1, h2⟩; exact ⟨j - k, by omega, by omega⟩

/-- One Kruskal iteration preserves the invariant, never removes edges,
and leaves its two endpoints connected in the selection graph. -/
theorem kruskalStep_main (n : ℕ) (st : KState) (conn : Connection)
    (hK : KInv n st) (hc1 : conn.fromI < conn.toI) (hc2 : conn.toI < n) :
    KInv n (kruskalStep n st conn) ∧
      graphOf st.selected ≤ graphOf (kruskalStep n st conn).selected ∧
      (graphOf (kruskalStep n st conn).selected).Reachable conn.fromI conn.toI := by
  obtain ⟨h, B, hd, hB, hBpow⟩ := hK.hinv
  have hlen : st.selected.length ≤ n := by have := hK.cardEq; omega
  have hfuel : ∀ z, z < n → h z < ufFuel n := by
    intro z hz
    have h1 := hB z hz
    have h2 : B + 1 ≤ 2 ^ n := by
      rw [hBpow]
      exact Nat.pow_le_pow_right (by norm_num) hlen
    unfold ufFuel
    omega
  have hfrom : conn.fromI < n := lt_trans hc1 hc2
  obtain ⟨hf1a, _⟩ := findUF_spec n st.parent h hd hK.bounded (ufFuel n)
    conn.fromI hfrom (hfuel _ hfrom)
  obtain ⟨hb1, hd1, hroots1, hroot1⟩ := findUF_preserves n st.parent h hd
    hK.bounded (ufFuel n) conn.fromI hfrom (hfuel _ hfrom) hfuel
  obtain ⟨hf2a, _⟩ := findUF_spec n (findUF (ufFuel n) st.parent conn.fromI).2
    h hd1 hb1 (ufFuel n) conn.toI hc2 (hfuel _ hc2)
  obtain ⟨hb2, hd2, hroots2, hroot2⟩ := findUF_preserves n
    (findUF (ufFuel n) st.parent conn.fromI).2 h hd1 hb1 (ufFuel n)
    conn.toI hc2 (hfuel _ hc2) hfuel
  set q2 : ℕ → ℕ :=
    (findUF (ufFuel n) (findUF (ufFuel n) st.parent conn.fromI).2 conn.toI).2
    with hq2def
  set r1 : ℕ := rootUF (ufFuel n) st.parent conn.fromI with hr1def
  set r2 : ℕ := rootUF (ufFuel n) st.parent conn.toI with hr2def
  have hr2q : rootUF (ufFuel n) (findUF (ufFuel n) st.parent conn.fromI).2
      conn.toI = r2 := hroot1 conn.toI hc2
  have hrootq2 : ∀ y, y < n → rootUF (ufFuel n) q2 y =
      rootUF (ufFuel n) st.parent y :=
    fun y hy => (hroot2 y hy).trans (hroot1 y hy)
  have hrootsq2 : ∀ y, q2 y = y ↔ st.parent y = y :=
    fun y => (hroots2 y).trans (hroots1 y)
  have hstep : kruskalStep n st conn =
      if r1 ≠ r2 then
        ⟨fun y => if y = r1 then r2 else q2 y, st.selected ++ [conn]⟩
      else ⟨q2, st.selected⟩ := by
    unfold kruskalStep
    dsimp only
    rw [hf1a, hf2a, hr2q, ← hq2def]
  by_cases hcase : r1 = r2
  · rw [hstep, if_neg (by simpa using hcase)]
    have hKnew : KInv n ⟨q2, st.selected⟩ := by
      refine ⟨hb2, ⟨h, B, hd2, hB, hBpow⟩, ?_, hK.selWf, ?_, hK.acyclic⟩
      · rw [rootCard_congr n st.parent q2 hrootsq2]
        exact hK.cardEq
      · intro x y hx hy
        rw [hrootq2 x hx, hrootq2 y hy]
        exact hK.reachIff x y hx hy
    refine ⟨hKnew, le_refl _, ?_⟩
    exact (hK.reachIff conn.fromI conn.toI hfrom hc2).mp hcase
  · rw [hstep, if_pos hcase]
    have hr1fixP : st.parent r1 = r1 :=
      rootUF_isFix n st.parent h hd hK.bounded (ufFuel n) conn.fromI hfrom
        (hfuel _ hfrom)
    have hr2fixP : st.parent r2 = r2 :=
      rootUF_isFix n st.parent h hd hK.bounded (ufFuel n) conn.toI hc2
        (hfuel _ hc2)
    have hr1fix : q2 r1 = r1 := (hrootsq2 r1).mpr hr1fixP
    have hr2fix : q2 r2 = r2 := (hrootsq2 r2).mpr hr2fixP
    have hr1n : r1 < n :=
      rootUF_lt n st.parent h hd hK.bounded (ufFuel n) conn.fromI hfrom
        (hfuel _ hfrom)
    have hr2n : r2 < n :=
      rootUF_lt n st.parent h hd hK.bounded (ufFuel n) conn.toI hc2
        (hfuel _ hc2)
    have hroot1card : 1 ≤ rootCard n st.parent := by
      have : r1 ∈ (Finset.range n).filter fun x => st.parent x = x := by
        simp [Finset.mem_filter, Finset.mem_range, hr1n, hr1fixP]
      have := Finset.card_pos.mpr ⟨r1, this⟩
      unfold rootCard
      omega
    have hlen1 : st.selected.length + 1 ≤ n := by have := hK.cardEq; omega
    have hFgt : 2 * B + 1 < ufFuel n := by
      have h2 : B + 1 = 2 ^ st.selected.length := hBpow
      have h3 : 2 ^ (st.selected.length + 1) ≤ 2 ^ n :=
        Nat.pow_le_pow_right (by norm_num) hlen1
      unfold ufFuel
      rw [pow_succ] at h3
      omega
    obtain ⟨hub, hud, huB, huroots, huroot⟩ := union_preserves n q2 h B hd2
      hb2 hB r1 r2 hr1n hr2n hr1fix hr2fix hcase (ufFuel n) hFgt
    have hgr : graphOf (st.selected ++ [conn]) =
        graphOf st.selected ⊔ SimpleGraph.fromEdgeSet {s(conn.fromI, conn.toI)} :=
      graphOf_append st.selected conn
    have hne : conn.fromI ≠ conn.toI := Nat.ne_of_lt hc1
    have hnr : ¬ (graphOf st.selected).Reachable conn.fromI conn.toI := by
      intro hr
      exact hcase ((hK.reachIff conn.fromI conn.toI hfrom hc2).mpr hr)
    have hKnew : KInv n ⟨fun y => if y = r1 then r2 else q2 y,
        st.selected ++ [conn]⟩ := by
      refine ⟨hub, ?_, ?_, ?_, ?_, ?_⟩
      · refine ⟨fun x => if rootUF (ufFuel n) q2 x = r1 then h x + B + 1 else h x,
          2 * B + 1, hud, huB, ?_⟩
        simp only [List.length_append, List.length_cons, List.length_nil]
        rw [pow_succ]
        omega
      · have hcu := rootCard_union n q2 r1 r2 hr1n hr1fix hcase
        have hcc := rootCard_congr n st.parent q2 hrootsq2
        have := hK.cardEq
        simp only [List.length_append, List.length_cons, List.length_nil]
        omega
      · intro c hc
        rcases List.mem_append.mp hc with hcm | hcm
        · exact hK.selWf c hcm
        · rcases List.mem_singleton.mp hcm with rfl
          exact ⟨hc1, hc2⟩
      · intro x y hx hy
        have hux := huroot x hx
        have huy := huroot y hy
        rw [hrootq2 x hx] at hux
        rw [hrootq2 y hy] at huy
        rw [show (⟨fun y => if y = r1 then r2 else q2 y,
          st.selected ++ [conn]⟩ : KState).parent =
          fun y => if y = r1 then r2 else q2 y from rfl,
          show (⟨fun y => if y = r1 then r2 else q2 y,
          st.selected ++ [conn]⟩ : KState).selected =
          st.selected ++ [conn] from rfl]
        rw [hux, huy]
        rw [hgr, reach_sup_edge (graphOf st.selected) conn.fromI conn.toI hne x y]
        have hRf : rootUF (ufFuel n) st.parent conn.fromI = r1 := rfl
        have hRt : rootUF (ufFuel n) st.parent conn.toI = r2 := rfl
        constructor
        · intro heq
          by_cases hxr : rootUF (ufFuel n) st.parent x = r1 <;>
            by_cases hyr : rootUF (ufFuel n) st.parent y = r1
          · exact Or.inl ((hK.reachIff x y hx hy).mp (hxr.trans hyr.symm))
          · rw [if_pos hxr, if_neg hyr] at heq
            refine Or.inr (Or.inl ⟨?_, ?_⟩)
            · exact (hK.reachIff x conn.fromI hx hfrom).mp (hxr.trans hRf.symm)
            · exact (hK.reachIff conn.toI y hc2 hy).mp (hRt.trans heq)
          · rw [if_neg hxr, if_pos hyr] at heq
            refine Or.inr (Or.inr ⟨?_, ?_⟩)
            · exact (hK.reachIff x conn.toI hx hc2).mp (heq.trans hRt.symm)
            · exact (hK.reachIff conn.fromI y hfrom hy).mp (hRf.trans hyr.symm)
          · rw [if_neg hxr, if_neg hyr] at heq
            exact Or.inl ((hK.reachIff x y hx hy).mp heq)
        · rintro (hre | ⟨hra, hrb⟩ | ⟨hra, hrb⟩)
          · rw [(hK.reachIff x y hx hy).mpr hre]
          · have h1 : rootUF (ufFuel n) st.parent x = r1 :=
              ((hK.reachIff x conn.fromI hx hfrom).mpr hra).trans hRf
            have h2 : rootUF (ufFuel n) st.parent y = r2 :=
              (hRt.symm.trans ((hK.reachIff conn.toI y hc2 hy).mpr hrb)).symm
            rw [if_pos h1, h2, if_neg (fun hh => hcase hh.symm)]
          · have h1 : rootUF (ufFuel n) st.parent x = r2 :=
              ((hK.reachIff x conn.toI hx hc2).mpr hra).trans hRt
            have h2 : rootUF (ufFuel n) st.parent y = r1 :=
              ((hK.reachIff y conn.fromI hy hfrom).mpr hrb.symm).trans hRf
            rw [h1, if_neg (fun hh => hcase hh.symm), if_pos h2]
      · show (graphOf (st.selected ++ [conn])).IsAcyclic
        rw [hgr]
        exact acyclic_sup_edge (graphOf st.selected) conn.fromI conn.toI hne
          hnr hK.acyclic
    refine ⟨hKnew, ?_, ?_⟩
    · show graphOf st.selected ≤ graphOf (st.selected ++ [conn])
      rw [hgr]
      exact le_sup_left
    · show (graphOf (st.selected ++ [conn])).Reachable conn.fromI conn.toI
      rw [hgr]
      have hadj : (graphOf st.selected ⊔
          SimpleGraph.fromEdgeSet {s(conn.fromI, conn.toI)}).Adj
          conn.fromI conn.toI := by
        simp only [SimpleGraph.sup_adj]
        exact Or.inr ((single_edge_adj conn.fromI conn.toI conn.fromI
          conn.toI).mpr ⟨Or.inl ⟨rfl, rfl⟩, hne⟩)
      exact hadj.reachable

/-- The invariant holds for the identity parent map and empty selection. -/
theorem KInv_init (n : ℕ) : KInv n ⟨fun x => x, []⟩ := by
  refine ⟨?_, ⟨fun _ => 0, 0, ?_, ?_, ?_⟩, ?_, ?_, ?_, ?_⟩
  · intro x hx; exact hx
  · intro x _ hpx; exact absurd rfl hpx
  · intro x _; exact le_refl 0
  · simp
  · simp [rootCard]
  · intro c hc; cases hc
  · intro x y hx hy
    rw [rootUF_fix _ _ x rfl, rootUF_fix _ _ y rfl]
    rw [show graphOf (⟨fun x => x, ([] : List Connection)⟩ : KState).selected =
      ⊥ from graphOf_nil]
    exact (SimpleGraph.reachable_bot).symm
  · rw [show graphOf (⟨fun x => x, ([] : List Connection)⟩ : KState).selected =
      ⊥ from graphOf_nil]
    exact SimpleGraph.isAcyclic_bot

/-- Folding the Kruskal step over any well-formed connection list
preserves the invariant, grows the graph, and connects the endpoints of
every processed connection. -/
theorem kruskalFold_main (n : ℕ) (conns : List Connection) :
    ∀ (st : KState), KInv n st →
      (∀ c ∈ conns, c.fromI < c.toI ∧ c.toI < n) →
      KInv n (conns.foldl (kruskalStep n) st) ∧
        graphOf st.selected ≤ graphOf (conns.foldl (kruskalStep n) st).selected ∧
        ∀ c ∈ conns,
          (graphOf (conns.foldl (kruskalStep n) st).selected).Reachable
            c.fromI c.toI := by
  induction conns with
  | nil =>
    intro st hK _
    exact ⟨hK, le_refl _, fun c hc => absurd hc (List.not_mem_nil c)⟩
  | cons a t ih =>
    intro st hK hwf
    have hwa := hwf a (List.mem_cons_self a t)
    obtain ⟨hK1, hmono1, hreach1⟩ := kruskalStep_main n st a hK hwa.1 hwa.2
    obtain ⟨hK2, hmono2, hreach2⟩ := ih (kruskalStep n st a) hK1
      (fun c hc => hwf c (List.mem_cons_of_mem a hc))
    rw [List.foldl_cons]
    refine ⟨hK2, le_trans hmono1 hmono2, ?_⟩
    intro c hc
    rcases List.mem_cons.mp hc with rfl | hct
    · exact hreach1.mono hmono2
    · exact hreach2 c hct

/-- Every built connection is an ordered pair of settlement indices. -/
theorem buildConnections_wf (env : InfraEnv) (settlements : List SettlementPos) :
    ∀ c ∈ buildConnections env settlements,
      c.fromI < c.toI ∧ c.toI < settlements.length := by
  intro c hc
  unfold buildConnections at hc
  simp only [List.mem_flatMap, List.mem_map] at hc
  obtain ⟨i, hi, j, hj, rfl⟩ := hc
  rw [mem_drop_range] at hj
  refine ⟨?_, ?_⟩
  · show i < j
    omega
  · show j < settlements.length
    exact hj.2

/-- Every ordered index pair occurs among the built connections. -/
theorem buildConnections_pairs (env : InfraEnv)
    (settlements : List SettlementPos) (i j : ℕ) (hij : i < j)
    (hj : j < settlements.length) :
    ∃ c ∈ buildConnections env settlements, c.fromI = i ∧ c.toI = j := by
  unfold buildConnections
  simp only [List.mem_flatMap, List.mem_map]
  refine ⟨⟨i, j, (connectionCost env (settlements.getD i ⟨0, 0, 0⟩)
    (settlements.getD j ⟨0, 0, 0⟩)).1,
    (connectionCost env (settlements.getD i ⟨0, 0, 0⟩)
    (settlements.getD j ⟨0, 0, 0⟩)).2⟩, ⟨i, ?_, j, ?_, rfl⟩, rfl, rfl⟩
  · exact List.mem_range.mpr (by omega)
  · exact (mem_drop_range (i + 1) settlements.length j).mpr ⟨by omega, hj⟩

/-- Sorting keeps exactly the built connections (mergeSort is a
permutation). -/
theorem mem_sortedConnections (env : InfraEnv)
    (settlements : List SettlementPos) (c : Connection) :
    c ∈ sortedConnections env settlements ↔
      c ∈ buildConnections env settlements := by
  unfold sortedConnections
  exact (List.mergeSort_perm (buildConnections env settlements) _).mem_iff

/-- C5: for every set of n >= 2 settlements, the road backbone selected by
generateRoadNetwork's Kruskal/union-find phase (before the probabilistic
redundancy edges are added) consists of exactly n-1 edges, contains no
cycle, connects all n settlements, and leaves the union-find structure
with a single root. -/
theorem kruskal_backbone_spanning_tree (env : InfraEnv)
    (settlements : List SettlementPos) (hn : 2 ≤ settlements.length) :
    (roadBackbone env settlements).selected.length = settlements.length - 1 ∧
    (∀ x y, x < settlements.length → y < settlements.length →
      (graphOf (roadBackbone env settlements).selected).Reachable x y) ∧
    (graphOf (roadBackbone env settlements).selected).IsAcyclic ∧
    rootCard settlements.length (roadBackbone env settlements).parent = 1 := by
  have hwf : ∀ c ∈ sortedConnections env settlements,
      c.fromI < c.toI ∧ c.toI < settlements.length := fun c hc =>
    buildConnections_wf env settlements c
      ((mem_sortedConnections env settlements c).mp hc)
  obtain ⟨hKf, _, hreach⟩ := kruskalFold_main settlements.length
    (sortedConnections env settlements) ⟨fun x => x, []⟩
    (KInv_init settlements.length) hwf
  have hrb : roadBackbone env settlements =
      (sortedConnections env settlements).foldl
        (kruskalStep settlements.length) ⟨fun x => x, []⟩ := rfl
  rw [hrb]
  set stf := (sortedConnections env settlements).foldl
    (kruskalStep settlements.length) (⟨fun x => x, []⟩ : KState) with hstf
  have hall : ∀ x y, x < settlements.length → y < settlements.length →
      (graphOf stf.selected).Reachable x y := by
    intro x y hx hy
    rcases lt_trichotomy x y with hlt | rfl | hgt
    · obtain ⟨c, hc, hcf, hct⟩ :=
        buildConnections_pairs env settlements x y hlt hy
      have hr := hreach c ((mem_sortedConnections env settlements c).mpr hc)
      rw [hcf, hct] at hr
      exact hr
    · exact SimpleGraph.Reachable.refl _
    · obtain ⟨c, hc, hcf, hct⟩ :=
        buildConnections_pairs env settlements y x hgt hx
      have hr := hreach c ((mem_sortedConnections env settlements c).mpr hc)
      rw [hcf, hct] at hr
      exact hr.symm
  obtain ⟨h, B, hd, hB, hBpow⟩ := hKf.hinv
  have hlen : stf.selected.length ≤ settlements.length := by
    have := hKf.cardEq; omega
  have hfuel : ∀ z, z < settlements.length → h z < ufFuel settlements.length := by
    intro z hz
    have h1 := hB z hz
    have h2 : B + 1 ≤ 2 ^ settlements.length := by
      rw [hBpow]
      exact Nat.pow_le_pow_right (by norm_num) hlen
    unfold ufFuel
    omega
  have h0n : 0 < settlements.length := by omega
  set r := rootUF (ufFuel settlements.length) stf.parent 0 with hrdef
  have hrn : r < settlements.length :=
    rootUF_lt settlements.length stf.parent h hd hKf.bounded _ 0 h0n (hfuel 0 h0n)
  have hrfix : stf.parent r = r :=
    rootUF_isFix settlements.length stf.parent h hd hKf.bounded _ 0 h0n
      (hfuel 0 h0n)
  have hrooteq : ∀ x, x < settlements.length →
      rootUF (ufFuel settlements.length) stf.parent x = r :=
    fun x hx => (hKf.reachIff x 0 hx h0n).mpr (hall x 0 hx h0n)
  have hcard1 : rootCard settlements.length stf.parent = 1 := by
    unfold rootCard
    rw [show ((Finset.range settlements.length).filter
        fun x => stf.parent x = x) = {r} from ?_]
    · exact Finset.card_singleton r
    · rw [Finset.eq_singleton_iff_unique_mem]
      constructor
      · simp only [Finset.mem_filter, Finset.mem_range]
        exact ⟨hrn, hrfix⟩
      · intro y hy
        simp only [Finset.mem_filter, Finset.mem_range] at hy
        have h1 : rootUF (ufFuel settlements.length) stf.parent y = y :=
          rootUF_fix _ _ y hy.2
        have h2 := hrooteq y hy.1
        rw [h1] at h2
        exact h2
  refine ⟨?_, hall, hKf.acyclic, hcard1⟩
  have := hKf.cardEq
  omega


theorem kruskal_backbone_spanning_tree_witness :
    2 ≤ ([⟨0, 0, 0⟩, ⟨100, 0, 0⟩] : List SettlementPos).length ∧
    ((roadBackbone c9Env [⟨0, 0, 0⟩, ⟨100, 0, 0⟩]).selected.length =
        ([⟨0, 0, 0⟩, ⟨100, 0, 0⟩] : List SettlementPos).length - 1 ∧
      (∀ x y, x < ([⟨0, 0, 0⟩, ⟨100, 0, 0⟩] : List SettlementPos).length →
        y < ([⟨0, 0, 0⟩, ⟨100, 0, 0⟩] : List SettlementPos).length →
        (graphOf (roadBackbone c9Env
          [⟨0, 0, 0⟩, ⟨100, 0, 0⟩]).selected).Reachable x y) ∧
      (graphOf (roadBackbone c9Env
        [⟨0, 0, 0⟩, ⟨100, 0, 0⟩]).selected).IsAcyclic ∧
      rootCard ([⟨0, 0, 0⟩, ⟨100, 0, 0⟩] : List SettlementPos).length
        (roadBackbone c9Env [⟨0, 0, 0⟩, ⟨100, 0, 0⟩]).parent = 1) :=
  ⟨by decide, kruskal_backbone_spanning_tree c9Env
    [⟨0, 0, 0⟩, ⟨100, 0, 0⟩] (by decide)⟩


/-! ## Theorems for claim C4: the Poisson disk invariant
(noise.cpp lines 277-368) -/

/-- `static_cast<int>` truncation agrees with the floor on nonnegative
rationals. -/
theorem ratTrunc_eq_floor (q : ℚ) (hq : 0 ≤ q) : CSMProcs.ratTrunc q = ⌊q⌋ := by
  rw [Rat.floor_def, CSMProcs.ratTrunc]
  exact Int.tdiv_eq_ediv (Rat.num_nonneg.mpr hq) (by positivity)

/-- Membership in the inclusive integer interval list. -/
theorem mem_intRange (lo hi z : ℤ) : z ∈ intRange lo hi ↔ lo ≤ z ∧ z ≤ hi := by
  unfold intRange
  constructor
  · intro hz
    obtain ⟨k, hk, hzk⟩ := List.mem_map.mp hz
    rw [List.mem_range] at hk
    omega
  · rintro ⟨h1, h2⟩
    refine List.mem_map.mpr ⟨(z - lo).toNat, ?_, by omega⟩
    rw [List.mem_range]
    omega

/-- A coordinate inside [0, w) lands in a grid cell between 0 and
ceil(w / s) - 1. -/
theorem cell_bounds (s w x : ℚ) (hs : 0 < s) (hx0 : 0 ≤ x) (hxw : x < w) :
    0 ≤ ratTrunc (x / s) ∧ ratTrunc (x / s) ≤ ratCeil (w / s) - 1 := by
  have ha : 0 ≤ x / s := by positivity
  rw [ratTrunc_eq_floor _ ha, ratCeil]
  refine ⟨Int.floor_nonneg.mpr ha, ?_⟩
  have h1 : x / s < w / s := by
    exact div_lt_div_of_pos_right hxw hs
  have h2 : (⌊x / s⌋ : ℚ) ≤ x / s := Int.floor_le _
  have h3 : w / s ≤ (⌈w / s⌉ : ℚ) := Int.le_ceil _
  have h4 : (⌊x / s⌋ : ℚ) < (⌈w / s⌉ : ℚ) :=
    lt_of_le_of_lt h2 (lt_of_lt_of_le h1 h3)
  have h5 : ⌊x / s⌋ < ⌈w / s⌉ := by exact_mod_cast h4
  omega

/-- Two nonnegative coordinates in the same grid cell are less than one
cell size apart. -/
theorem same_cell_close (s a b : ℚ) (hs : 0 < s) (ha : 0 ≤ a) (hb : 0 ≤ b)
    (h : ratTrunc (a / s) = ratTrunc (b / s)) : (a - b) ^ 2 < s ^ 2 := by
  rw [ratTrunc_eq_floor _ (by positivity), ratTrunc_eq_floor _ (by positivity)]
    at h
  have h1 : (⌊a / s⌋ : ℚ) ≤ a / s := Int.floor_le _
  have h2 : a / s < ⌊a / s⌋ + 1 := Int.lt_floor_add_one _
  have h3 : (⌊b / s⌋ : ℚ) ≤ b / s := Int.floor_le _
  have h4 : b / s < ⌊b / s⌋ + 1 := Int.lt_floor_add_one _
  rw [h] at h1 h2
  have h5 : a / s - b / s < 1 := by linarith
  have h6 : -(1 : ℚ) < a / s - b / s := by linarith
  have h7 : a - b < s := by
    have := mul_lt_mul_of_pos_right h5 hs
    rw [sub_mul, div_mul_cancel₀ _ (ne_of_gt hs), div_mul_cancel₀ _ (ne_of_gt hs),
      one_mul] at this
    linarith
  have h8 : -s < a - b := by
    have := mul_lt_mul_of_pos_right h6 hs
    rw [sub_mul, div_mul_cancel₀ _ (ne_of_gt hs), div_mul_cancel₀ _ (ne_of_gt hs),
      neg_mul, one_mul] at this
    linarith
  exact sq_lt_sq' h8 h7

/-- Two nonnegative coordinates less than minDistance apart (with
minDistance at most two cell sizes) live at most two grid cells apart. -/
theorem close_cell_window (s r a b : ℚ) (hs : 0 < s) (hr : 0 < r)
    (hrs : r ≤ 2 * s) (ha : 0 ≤ a) (hb : 0 ≤ b) (h : (a - b) ^ 2 < r ^ 2) :
    ratTrunc (a / s) - 2 ≤ ratTrunc (b / s) ∧
      ratTrunc (b / s) ≤ ratTrunc (a / s) + 2 := by
  rw [ratTrunc_eq_floor _ (by positivity), ratTrunc_eq_floor _ (by positivity)]
  have habs : |a - b| < r := by
    exact abs_lt_of_sq_lt_sq h (le_of_lt hr)
  rw [abs_lt] at habs
  have hd : a / s - b / s < 2 ∧ -(2 : ℚ) < a / s - b / s := by
    constructor
    · rw [div_sub_div_same, div_lt_iff₀ hs]
      linarith [habs.2]
    · rw [div_sub_div_same, lt_div_iff₀ hs]
      linarith [habs.1]
  have h1 : (⌊a / s⌋ : ℚ) ≤ a / s := Int.floor_le _
  have h2 : a / s < ⌊a / s⌋ + 1 := Int.lt_floor_add_one _
  have h3 : (⌊b / s⌋ : ℚ) ≤ b / s := Int.floor_le _
  have h4 : b / s < ⌊b / s⌋ + 1 := Int.lt_floor_add_one _
  have h5 : (⌊a / s⌋ : ℚ) - 3 < ⌊b / s⌋ := by linarith [hd.1]
  have h6 : (⌊b / s⌋ : ℚ) < ⌊a / s⌋ + 3 := by linarith [hd.2]
  have h7 : ⌊a / s⌋ - 3 < ⌊b / s⌋ := by exact_mod_cast h5
  have h8 : ⌊b / s⌋ < ⌊a / s⌋ + 3 := by exact_mod_cast h6
  omega

/-- Squared distance is symmetric. -/
theorem dist2_comm (p q : ℚ × ℚ) : dist2 p q = dist2 q p := by
  unfold dist2; ring

/-- What `isValidPoint = true` guarantees under the loop invariant: the
candidate is in the window, at squared distance at least
minDistance squared from every stored point, and its own grid cell is
unoccupied. -/
theorem isValidPoint_spec (P : PDParams) (hs : 0 < P.cellSize)
    (h2s : 2 * P.cellSize ^ 2 ≤ P.minDistance ^ 2)
    (hrs : P.minDistance ≤ 2 * P.cellSize) (hr : 0 < P.minDistance)
    (st : PDState) (hinv : PDInv P st) (x y : ℚ)
    (hv : isValidPoint P x y st.points st.grid = true) :
    inBounds P (x, y) ∧
      (∀ i, i < st.points.length →
        P.minDistance ^ 2 ≤ dist2 (x, y) (st.points.getD i (0, 0))) ∧
      st.grid (pdCell P (x, y)) = none := by
  unfold isValidPoint at hv
  by_cases hc : x < 0 ∨ P.width ≤ x ∨ y < 0 ∨ P.height ≤ y
  · rw [if_pos hc] at hv
    simp at hv
  · rw [if_neg hc] at hv
    push_neg at hc
    obtain ⟨hx0, hxw, hy0, hyh⟩ := hc
    have hB : inBounds P (x, y) := ⟨hx0, hxw, hy0, hyh⟩
    rw [List.all_eq_true] at hv
    have hmain : ∀ i, i < st.points.length →
        P.minDistance ^ 2 ≤ dist2 (x, y) (st.points.getD i (0, 0)) := by
      intro i hi
      by_contra hlt
      push_neg at hlt
      have hqB := hinv.inB i hi
      obtain ⟨hq1, hq2, hq3, hq4⟩ := hqB
      have hqx : (x - (st.points.getD i (0, 0)).1) ^ 2 < P.minDistance ^ 2 := by
        have h0 := sq_nonneg (y - (st.points.getD i (0, 0)).2)
        unfold dist2 at hlt
        linarith
      have hqy : (y - (st.points.getD i (0, 0)).2) ^ 2 < P.minDistance ^ 2 := by
        have h0 := sq_nonneg (x - (st.points.getD i (0, 0)).1)
        unfold dist2 at hlt
        linarith
      obtain ⟨hcx1, hcx2⟩ := close_cell_window P.cellSize P.minDistance x
        (st.points.getD i (0, 0)).1 hs hr hrs hx0 hq1 hqx
      obtain ⟨hcy1, hcy2⟩ := close_cell_window P.cellSize P.minDistance y
        (st.points.getD i (0, 0)).2 hs hr hrs hy0 hq3 hqy
      obtain ⟨hbx1, hbx2⟩ := cell_bounds P.cellSize P.width
        (st.points.getD i (0, 0)).1 hs hq1 hq2
      obtain ⟨hby1, hby2⟩ := cell_bounds P.cellSize P.height
        (st.points.getD i (0, 0)).2 hs hq3 hq4
      have hmy : ratTrunc ((st.points.getD i (0, 0)).2 / P.cellSize) ∈
          intRange (max 0 (ratTrunc (y / P.cellSize) - 2))
            (min (P.gridH - 1) (ratTrunc (y / P.cellSize) + 2)) := by
        rw [mem_intRange]
        unfold PDParams.gridH
        omega
      have hmx : ratTrunc ((st.points.getD i (0, 0)).1 / P.cellSize) ∈
          intRange (max 0 (ratTrunc (x / P.cellSize) - 2))
            (min (P.gridW - 1) (ratTrunc (x / P.cellSize) + 2)) := by
        rw [mem_intRange]
        unfold PDParams.gridW
        omega
      have ha := hv _ hmy
      rw [List.all_eq_true] at ha
      have hb := ha _ hmx
      have hreg := hinv.reg i hi
      rw [show ((ratTrunc ((st.points.getD i (0, 0)).1 / P.cellSize),
        ratTrunc ((st.points.getD i (0, 0)).2 / P.cellSize)) : ℤ × ℤ) =
        pdCell P (st.points.getD i (0, 0)) from rfl, hreg] at hb
      have hb2 : decide (P.minDistance ^ 2 ≤
          (x - (st.points.getD i (0, 0)).1) ^ 2 +
          (y - (st.points.getD i (0, 0)).2) ^ 2) = true := hb
      rw [decide_eq_true_iff] at hb2
      unfold dist2 at hlt
      linarith
    refine ⟨hB, hmain, ?_⟩
    cases hnone : st.grid (pdCell P (x, y)) with
    | none => rfl
    | some i =>
      obtain ⟨hi, hcell⟩ := hinv.sound _ _ hnone
      have hc1 : ratTrunc ((st.points.getD i (0, 0)).1 / P.cellSize) =
          ratTrunc (x / P.cellSize) := congrArg Prod.fst hcell
      have hc2 : ratTrunc ((st.points.getD i (0, 0)).2 / P.cellSize) =
          ratTrunc (y / P.cellSize) := congrArg Prod.snd hcell
      have hqB := hinv.inB i hi
      have hd1 := same_cell_close P.cellSize (st.points.getD i (0, 0)).1 x hs
        hqB.1 hx0 hc1
      have hd2 := same_cell_close P.cellSize (st.points.getD i (0, 0)).2 y hs
        hqB.2.2.1 hy0 hc2
      have hm := hmain i hi
      unfold dist2 at hm
      exfalso
      nlinarith [hd1, hd2, hm, h2s]

/-- Accepted candidates preserve the loop invariant. -/
theorem pdInsert_inv (P : PDParams) (hs : 0 < P.cellSize)
    (h2s : 2 * P.cellSize ^ 2 ≤ P.minDistance ^ 2)
    (hrs : P.minDistance ≤ 2 * P.cellSize) (hr : 0 < P.minDistance)
    (st : PDState) (hinv : PDInv P st) (x y : ℚ)
    (hv : isValidPoint P x y st.points st.grid = true) :
    PDInv P (pdInsert P st x y) := by
  obtain ⟨hB, hdist, hnone⟩ :=
    isValidPoint_spec P hs h2s hrs hr st hinv x y hv
  have hlen : (pdInsert P st x y).points.length = st.points.length + 1 := by
    unfold pdInsert
    simp
  have hold : ∀ k, k < st.points.length →
      (pdInsert P st x y).points.getD k (0, 0) = st.points.getD k (0, 0) := by
    intro k hk
    unfold pdInsert
    exact List.getD_append _ _ _ _ hk
  have hnew : (pdInsert P st x y).points.getD st.points.length (0, 0) = (x, y) := by
    unfold pdInsert
    rw [List.getD_append_right _ _ _ _ (le_refl _)]
    simp
  have hgrid : (pdInsert P st x y).grid = fun c =>
      if c = pdCell P (x, y) then some st.points.length else st.grid c := rfl
  refine ⟨?_, ?_, ?_, ?_⟩
  · intro i j hi hj hne
    rw [hlen] at hi hj
    rcases Nat.lt_succ_iff_lt_or_eq.mp hi with hi' | rfl
    · rcases Nat.lt_succ_iff_lt_or_eq.mp hj with hj' | rfl
      · rw [hold i hi', hold j hj']
        exact hinv.dists i j hi' hj' hne
      · rw [hold i hi', hnew, dist2_comm]
        exact hdist i hi'
    · rcases Nat.lt_succ_iff_lt_or_eq.mp hj with hj' | rfl
      · rw [hold j hj', hnew]
        exact hdist j hj'
      · exact absurd rfl hne
  · intro i hi
    rw [hlen] at hi
    rcases Nat.lt_succ_iff_lt_or_eq.mp hi with hi' | rfl
    · rw [hold i hi']
      exact hinv.inB i hi'
    · rw [hnew]
      exact hB
  · intro i hi
    rw [hlen] at hi
    rcases Nat.lt_succ_iff_lt_or_eq.mp hi with hi' | rfl
    · rw [hold i hi']
      have hne : pdCell P (st.points.getD i (0, 0)) ≠ pdCell P (x, y) := by
        intro he
        rw [← he] at hnone
        rw [hinv.reg i hi'] at hnone
        cases hnone
      show (if pdCell P (st.points.getD i (0, 0)) = pdCell P (x, y) then
        some st.points.length
        else st.grid (pdCell P (st.points.getD i (0, 0)))) = some i
      rw [if_neg hne]
      exact hinv.reg i hi'
    · rw [hnew]
      show (if pdCell P (x, y) = pdCell P (x, y) then some st.points.length
        else st.grid (pdCell P (x, y))) = some st.points.length
      rw [if_pos rfl]
  · intro c i hgi0
    have hgi : (if c = pdCell P (x, y) then some st.points.length
      else st.grid c) = some i := hgi0
    by_cases hc : c = pdCell P (x, y)
    · rw [if_pos hc] at hgi
      have hi : i = st.points.length := (Option.some.injEq _ _).mp hgi.symm
      subst hi
      rw [hlen, hnew]
      exact ⟨Nat.lt_succ_self _, hc.symm⟩
    · rw [if_neg hc] at hgi
      obtain ⟨hi, hcell⟩ := hinv.sound c i hgi
      rw [hlen, hold i hi]
      exact ⟨Nat.lt_succ_of_lt hi, hcell⟩

/-- The attempt loop preserves the loop invariant. -/
theorem pdAttempts_inv (P : PDParams) (hs : 0 < P.cellSize)
    (h2s : 2 * P.cellSize ^ 2 ≤ P.minDistance ^ 2)
    (hrs : P.minDistance ≤ 2 * P.cellSize) (hr : 0 < P.minDistance)
    (a : ℕ) (px py : ℚ) :
    ∀ st : PDState, PDInv P st → PDInv P (pdAttempts P a px py st) := by
  induction a with
  | zero => intro st hinv; exact hinv
  | succ a ih =>
    intro st hinv
    rw [show pdAttempts P (a + 1) px py st = pdAttempts P a px py
      (if isValidPoint P (pdCandidate P st.rng px py).1.1
          (pdCandidate P st.rng px py).1.2 st.points st.grid = true then
        pdInsert P { st with rng := (pdCandidate P st.rng px py).2 }
          (pdCandidate P st.rng px py).1.1 (pdCandidate P st.rng px py).1.2
      else { st with rng := (pdCandidate P st.rng px py).2 }) from rfl]
    have hinv1 : PDInv P { st with rng := (pdCandidate P st.rng px py).2 } :=
      ⟨hinv.dists, hinv.inB, hinv.reg, hinv.sound⟩
    by_cases hvp : isValidPoint P (pdCandidate P st.rng px py).1.1
        (pdCandidate P st.rng px py).1.2 st.points st.grid = true
    · rw [if_pos hvp]
      exact ih _ (pdInsert_inv P hs h2s hrs hr _ hinv1 _ _ hvp)
    · rw [if_neg hvp]
      exact ih _ hinv1

/-- The active-queue loop preserves the loop invariant. -/
theorem pdLoop_inv (P : PDParams) (hs : 0 < P.cellSize)
    (h2s : 2 * P.cellSize ^ 2 ≤ P.minDistance ^ 2)
    (hrs : P.minDistance ≤ 2 * P.cellSize) (hr : 0 < P.minDistance)
    (maxAttempts : ℕ) (fuel : ℕ) :
    ∀ st : PDState, PDInv P st → PDInv P (pdLoop P maxAttempts fuel st) := by
  induction fuel with
  | zero => intro st hinv; exact hinv
  | succ fuel ih =>
    intro st hinv
    unfold pdLoop
    cases hact : st.active with
    | nil => exact hinv
    | cons idx rest =>
      apply ih
      apply pdAttempts_inv P hs h2s hrs hr
      exact ⟨hinv.dists, hinv.inB, hinv.reg, hinv.sound⟩

/-- C4: for every pair of distinct points in the vector returned by
PoissonDiskSampler::generatePoints, the Euclidean distance between the
two points is at least minDistance (squared comparison in the exact
model, so the float-level tolerance epsilon is 0 here), for every cell
size consistent with the constructor's minDistance / sqrt 2 and every
attempt and fuel budget. -/
theorem generatePoints_min_distance (P : PDParams) (hs : 0 < P.cellSize)
    (h2s : 2 * P.cellSize ^ 2 ≤ P.minDistance ^ 2)
    (hrs : P.minDistance ≤ 2 * P.cellSize) (hr : 0 < P.minDistance)
    (hw : 0 < P.width) (hh : 0 < P.height) (seed maxAttempts fuel : ℕ) :
    ∀ i j, i < (generatePoints P seed maxAttempts fuel).length →
      j < (generatePoints P seed maxAttempts fuel).length → i ≠ j →
      P.minDistance ^ 2 ≤
        dist2 ((generatePoints P seed maxAttempts fuel).getD i (0, 0))
          ((generatePoints P seed maxAttempts fuel).getD j (0, 0)) := by
  have hf1 := nextFloat_bounds (RandomGenerator.ofSeed seed)
  have hf2 := nextFloat_bounds (RandomGenerator.ofSeed seed).nextFloat.2
  set f1 := (RandomGenerator.ofSeed seed).nextFloat.1 with hf1d
  set f2 := (RandomGenerator.ofSeed seed).nextFloat.2.nextFloat.1 with hf2d
  have hinv0 : PDInv P
      ⟨(RandomGenerator.ofSeed seed).nextFloat.2.nextFloat.2,
        [(f1 * P.width, f2 * P.height)],
        fun c => if c = pdCell P (f1 * P.width, f2 * P.height) then some 0
          else none, [0]⟩ := by
    refine ⟨?_, ?_, ?_, ?_⟩
    · intro i j hi hj hne
      simp only [List.length_cons, List.length_nil] at hi hj
      omega
    · intro i hi
      simp only [List.length_cons, List.length_nil] at hi
      have hi0 : i = 0 := by omega
      subst hi0
      refine ⟨?_, ?_, ?_, ?_⟩
      · exact mul_nonneg hf1.1 (le_of_lt hw)
      · calc f1 * P.width < 1 * P.width := by
              exact mul_lt_mul_of_pos_right hf1.2 hw
          _ = P.width := one_mul _
      · exact mul_nonneg hf2.1 (le_of_lt hh)
      · calc f2 * P.height < 1 * P.height := by
              exact mul_lt_mul_of_pos_right hf2.2 hh
          _ = P.height := one_mul _
    · intro i hi
      simp only [List.length_cons, List.length_nil] at hi
      have hi0 : i = 0 := by omega
      subst hi0
      show (if pdCell P (f1 * P.width, f2 * P.height) =
          pdCell P (f1 * P.width, f2 * P.height) then some 0
        else none) = some 0
      rw [if_pos rfl]
    · intro c i hgi0
      have hgi : (if c = pdCell P (f1 * P.width, f2 * P.height) then some 0
        else none) = some i := hgi0
      by_cases hc : c = pdCell P (f1 * P.width, f2 * P.height)
      · rw [if_pos hc] at hgi
        have : i = 0 := (Option.some.injEq _ _).mp hgi.symm
        subst this
        exact ⟨by simp, hc.symm⟩
      · rw [if_neg hc] at hgi
        cases hgi
  have hfin := pdLoop_inv P hs h2s hrs hr maxAttempts fuel _ hinv0
  intro i j hi hj hne
  exact hfin.dists i j hi hj hne

theorem generatePoints_min_distance_witness :
    (0 < c4P.cellSize ∧ 2 * c4P.cellSize ^ 2 ≤ c4P.minDistance ^ 2 ∧
      c4P.minDistance ≤ 2 * c4P.cellSize ∧ 0 < c4P.minDistance ∧
      0 < c4P.width ∧ 0 < c4P.height) ∧
    (∀ i j, i < (generatePoints c4P 1 0 0).length →
      j < (generatePoints c4P 1 0 0).length → i ≠ j →
      c4P.minDistance ^ 2 ≤
        dist2 ((generatePoints c4P 1 0 0).getD i (0, 0))
          ((generatePoints c4P 1 0 0).getD j (0, 0))) :=
  ⟨⟨by with_unfolding_all decide, by with_unfolding_all decide,
    by with_unfolding_all decide, by with_unfolding_all decide,
    by with_unfolding_all decide, by with_unfolding_all decide⟩,
    generatePoints_min_distance c4P (by with_unfolding_all decide)
      (by with_unfolding_all decide) (by with_unfolding_all decide)
      (by with_unfolding_all decide) (by with_unfolding_all decide)
      (by with_unfolding_all decide) 1 0 0⟩



/-! ## Theorems for claim C8: BSP room count and non-overlap
(proceduralgenerator.cpp lines 944-1088) -/

/-- Axis separation is symmetric. -/
theorem rectDisjoint_symm (a b : BSPNodeQ) (h : rectDisjoint a b) :
    rectDisjoint b a := by
  unfold rectDisjoint at *
  tauto

/-- A rectangle inside a rectangle disjoint from b is disjoint from b. -/
theorem rectDisjoint_of_subRect (a c b : BSPNodeQ) (hsub : subRect a c)
    (h : rectDisjoint c b) : rectDisjoint a b := by
  obtain ⟨h1, h2, h3, h4⟩ := hsub
  rcases h with h | h | h | h
  · exact Or.inl (by linarith)
  · exact Or.inr (Or.inl (by linarith))
  · exact Or.inr (Or.inr (Or.inl (by linarith)))
  · exact Or.inr (Or.inr (Or.inr (by linarith)))

/-- What one split-loop iteration does to a live node of the invariant:
children are contained subrectangles at least roomSizeMin in each
dimension and mutually disjoint, rooms are the node itself with the
leaf-size bounds, the areas add up exactly, and the step either splits
or makes one room. -/
theorem bspStep_spec (ip : InteriorParams) (hrm : 0 < ip.roomSizeMin)
    (g : RandomGenerator) (node : BSPNodeQ)
    (hw : ip.roomSizeMin ≤ node.width) (hh : ip.roomSizeMin ≤ node.height) :
    (∀ m ∈ (bspStep ip g node).2.1,
      subRect m node ∧ ip.roomSizeMin ≤ m.width ∧ ip.roomSizeMin ≤ m.height) ∧
    (bspStep ip g node).2.1.Pairwise rectDisjoint ∧
    (∀ m ∈ (bspStep ip g node).2.2,
      m = node ∧
      ((m.width ≤ 3 * ip.roomSizeMin ∧ m.height ≤ (5/4) * m.width) ∨
       (m.height ≤ 3 * ip.roomSizeMin ∧ m.width ≤ (5/4) * m.height))) ∧
    ((bspStep ip g node).2.1.map nodeArea).sum +
      ((bspStep ip g node).2.2.map nodeArea).sum = nodeArea node ∧
    ((bspStep ip g node).2.2 = [] ∨
      ((bspStep ip g node).2.1 = [] ∧ (bspStep ip g node).2.2 = [node])) := by
  have hwpos : 0 < node.width := lt_of_lt_of_le hrm hw
  have hhpos : 0 < node.height := lt_of_lt_of_le hrm hh
  set sh : Bool := (if node.width > node.height * (5/4) then false
    else if node.height > node.width * (5/4) then true
    else (g.nextBool (1/2)).1) with hsh
  set t : ℚ := ((g.nextBool (1/2)).2.nextFloatRange (13421773 / 33554432)
    (10066330 / 16777216)).1 with htdef
  have htr : t = 13421773 / 33554432 + (g.nextBool (1/2)).2.nextFloat.1 *
      (10066330 / 16777216 - 13421773 / 33554432) := by
    rw [htdef, nextFloatRange_eq]
  obtain ⟨hf0, hf1⟩ := nextFloat_bounds (g.nextBool (1/2)).2
  have ht_lo : (13421773 / 33554432 : ℚ) ≤ t := by
    rw [htr]
    nlinarith
  have ht_hi : t < (10066330 / 16777216 : ℚ) := by
    rw [htr]
    nlinarith
  have ht13 : (1/3 : ℚ) ≤ t := le_trans (by norm_num) ht_lo
  have ht23 : (1/3 : ℚ) ≤ 1 - t := by
    have : t ≤ (10066330 / 16777216 : ℚ) := le_of_lt ht_hi
    linarith [(by norm_num : (10066330 / 16777216 : ℚ) ≤ 2/3)]
  have ht0 : 0 ≤ t := le_trans (by norm_num) ht13
  have ht1' : t ≤ 1 := by linarith
  have hstep : bspStep ip g node =
      if sh ∧ node.height > ip.roomSizeMin * (3/2) * 2 then
        (((g.nextBool (1/2)).2.nextFloatRange (13421773 / 33554432)
            (10066330 / 16777216)).2,
         [⟨node.x, node.y, node.width, node.height * t⟩,
          ⟨node.x, node.y + node.height * t, node.width,
            node.height * (1 - t)⟩],
         [])
      else if ¬sh ∧ node.width > ip.roomSizeMin * (3/2) * 2 then
        (((g.nextBool (1/2)).2.nextFloatRange (13421773 / 33554432)
            (10066330 / 16777216)).2,
         [⟨node.x, node.y, node.width * t, node.height⟩,
          ⟨node.x + node.width * t, node.y, node.width * (1 - t),
            node.height⟩],
         [])
      else ((g.nextBool (1/2)).2, [], [node]) := rfl
  rw [hstep]
  by_cases hc1 : (sh : Prop) ∧ node.height > ip.roomSizeMin * (3/2) * 2
  · rw [if_pos hc1]
    have h3rm : ip.roomSizeMin * 3 < node.height := by linarith [hc1.2]
    have hhts : ip.roomSizeMin ≤ node.height * t := by
      have h1 : node.height * (1/3) ≤ node.height * t :=
        mul_le_mul_of_nonneg_left ht13 (le_of_lt hhpos)
      linarith
    have hht1 : ip.roomSizeMin ≤ node.height * (1 - t) := by
      have h1 : node.height * (1/3) ≤ node.height * (1 - t) :=
        mul_le_mul_of_nonneg_left ht23 (le_of_lt hhpos)
      linarith
    refine ⟨?_, ?_, ?_, ?_, Or.inl rfl⟩
    · intro m hm
      rcases List.mem_cons.mp hm with rfl | hm2
      · refine ⟨⟨le_refl _, le_refl _, le_refl _, ?_⟩, hw, hhts⟩
        show node.y + node.height * t ≤ node.y + node.height
        nlinarith
      · rcases List.mem_cons.mp hm2 with rfl | hm3
        · refine ⟨⟨le_refl _, le_refl _, ?_, ?_⟩, hw, hht1⟩
          · show node.y ≤ node.y + node.height * t
            nlinarith
          · show node.y + node.height * t + node.height * (1 - t) ≤
              node.y + node.height
            nlinarith
        · cases hm3
    · refine List.pairwise_cons.mpr ⟨?_, ?_⟩
      · intro m hm
        rcases List.mem_cons.mp hm with rfl | hm2
        · exact Or.inr (Or.inr (Or.inl (le_refl _)))
        · cases hm2
      · exact List.pairwise_singleton _ _
    · intro m hm
      cases hm
    · show nodeArea ⟨node.x, node.y, node.width, node.height * t⟩ +
        (nodeArea ⟨node.x, node.y + node.height * t, node.width,
          node.height * (1 - t)⟩ + 0) + 0 = nodeArea node
      unfold nodeArea
      ring
  · rw [if_neg hc1]
    by_cases hc2 : (¬(sh : Prop)) ∧ node.width > ip.roomSizeMin * (3/2) * 2
    · rw [if_pos hc2]
      have h3rm : ip.roomSizeMin * 3 < node.width := by linarith [hc2.2]
      have hwts : ip.roomSizeMin ≤ node.width * t := by
        have h1 : node.width * (1/3) ≤ node.width * t :=
          mul_le_mul_of_nonneg_left ht13 (le_of_lt hwpos)
        linarith
      have hwt1 : ip.roomSizeMin ≤ node.width * (1 - t) := by
        have h1 : node.width * (1/3) ≤ node.width * (1 - t) :=
          mul_le_mul_of_nonneg_left ht23 (le_of_lt hwpos)
        linarith
      refine ⟨?_, ?_, ?_, ?_, Or.inl rfl⟩
      · intro m hm
        rcases List.mem_cons.mp hm with rfl | hm2
        · refine ⟨⟨le_refl _, ?_, le_refl _, le_refl _⟩, hwts, hh⟩
          show node.x + node.width * t ≤ node.x + node.width
          nlinarith
        · rcases List.mem_cons.mp hm2 with rfl | hm3
          · refine ⟨⟨?_, ?_, le_refl _, le_refl _⟩, hwt1, hh⟩
            · show node.x ≤ node.x + node.width * t
              nlinarith
            · show node.x + node.width * t + node.width * (1 - t) ≤
                node.x + node.width
              nlinarith
          · cases hm3
      · refine List.pairwise_cons.mpr ⟨?_, ?_⟩
        · intro m hm
          rcases List.mem_cons.mp hm with rfl | hm2
          · exact Or.inl (le_refl _)
          · cases hm2
        · exact List.pairwise_singleton _ _
      · intro m hm
        cases hm
      · show nodeArea ⟨node.x, node.y, node.width * t, node.height⟩ +
          (nodeArea ⟨node.x + node.width * t, node.y, node.width * (1 - t),
            node.height⟩ + 0) + 0 = nodeArea node
        unfold nodeArea
        ring
    · rw [if_neg hc2]
      refine ⟨?_, List.Pairwise.nil, ?_, ?_, Or.inr ⟨rfl, rfl⟩⟩
      · intro m hm
        cases hm
      · intro m hm
        rcases List.mem_cons.mp hm with hme | hm2
        · refine ⟨hme, ?_⟩
          rw [hme]
          rcases Bool.eq_false_or_eq_true sh with hb | hb
          · have hhle : node.height ≤ ip.roomSizeMin * (3/2) * 2 := by
              rcases not_and_or.mp hc1 with hx | hx
              · exact absurd hb hx
              · exact le_of_not_lt hx
            have hwh : node.width ≤ node.height * (5/4) := by
              rcases le_or_lt node.width (node.height * (5/4)) with hcon | hcon
              · exact hcon
              · exfalso
                rw [hsh, if_pos hcon] at hb
                cases hb
            exact Or.inr ⟨by linarith, by linarith⟩
          · have hshF : ¬(sh : Prop) := by
              rw [hb]
              exact Bool.false_ne_true
            have hwle : node.width ≤ ip.roomSizeMin * (3/2) * 2 := by
              rcases not_and_or.mp hc2 with hx | hx
              · exact absurd hshF hx
              · exact le_of_not_lt hx
            have hhw : node.height ≤ (5/4) * node.width := by
              rcases le_or_lt node.width (node.height * (5/4)) with hcon | hcon
              · rcases le_or_lt node.height (node.width * (5/4)) with hcon2 | hcon2
                · linarith
                · exfalso
                  rw [hsh, if_neg (not_lt.mpr hcon), if_pos hcon2] at hb
                  cases hb
              · linarith
            exact Or.inl ⟨by linarith, hhw⟩
        · cases hm2
      · show 0 + (nodeArea node + 0) = nodeArea node
        ring

/-- The split loop preserves the invariant and never creates more than
roomCount rooms. -/
theorem bspLoop_inv (ip : InteriorParams) (roomCount : ℕ) (A : ℚ)
    (hrm : 0 < ip.roomSizeMin) (fuel : ℕ) :
    ∀ st : BSPState, BSPInv ip A st →
      BSPInv ip A (bspLoop ip roomCount fuel st) ∧
      (bspLoop ip roomCount fuel st).created ≤ max st.created roomCount := by
  induction fuel with
  | zero => intro st h; exact ⟨h, le_max_left _ _⟩
  | succ fuel ih =>
    intro st hinv
    rw [show bspLoop ip roomCount (fuel + 1) st =
      (match st.toSplit with
       | [] => st
       | node :: rest =>
         if st.created < roomCount then
           bspLoop ip roomCount fuel
             ⟨(bspStep ip st.rng node).1, rest ++ (bspStep ip st.rng node).2.1,
              st.rooms ++ (bspStep ip st.rng node).2.2,
              st.created + (bspStep ip st.rng node).2.2.length⟩
         else st) from rfl]
    cases hts : st.toSplit with
    | nil => exact ⟨hinv, le_max_left _ _⟩
    | cons node rest =>
      rw [show (match node :: rest with
         | [] => st
         | node :: rest =>
           if st.created < roomCount then
             bspLoop ip roomCount fuel
               ⟨(bspStep ip st.rng node).1, rest ++ (bspStep ip st.rng node).2.1,
                st.rooms ++ (bspStep ip st.rng node).2.2,
                st.created + (bspStep ip st.rng node).2.2.length⟩
           else st) =
         if st.created < roomCount then
           bspLoop ip roomCount fuel
             ⟨(bspStep ip st.rng node).1, rest ++ (bspStep ip st.rng node).2.1,
              st.rooms ++ (bspStep ip st.rng node).2.2,
              st.created + (bspStep ip st.rng node).2.2.length⟩
         else st from rfl]
      by_cases hcr : st.created < roomCount
      · rw [if_pos hcr]
        have hnodemem : node ∈ st.toSplit ++ st.rooms := by
          rw [hts]; exact List.mem_append_left _ (List.mem_cons_self _ _)
        obtain ⟨hwn, hhn⟩ := hinv.dims node hnodemem
        obtain ⟨hsub, hpair, hroom, harea, hshape⟩ :=
          bspStep_spec ip hrm st.rng node hwn hhn
        have holdP : (node :: (rest ++ st.rooms)).Pairwise rectDisjoint := by
          have := hinv.disj
          rw [hts] at this
          simpa using this
        obtain ⟨hnodeall, hrestP⟩ := List.pairwise_cons.mp holdP
        obtain ⟨hrestPP, hroomsP, hcrossRR⟩ := List.pairwise_append.mp hrestP
        have holdA := hinv.area
        rw [hts] at holdA
        have holdA2 : nodeArea node + (((rest.map nodeArea).sum) +
            ((st.rooms.map nodeArea).sum)) = A := by
          simpa [List.sum_append] using holdA
        have hinv2 : BSPInv ip A
            ⟨(bspStep ip st.rng node).1, rest ++ (bspStep ip st.rng node).2.1,
             st.rooms ++ (bspStep ip st.rng node).2.2,
             st.created + (bspStep ip st.rng node).2.2.length⟩ := by
          refine ⟨?_, ?_, ?_, ?_, ?_⟩
          · show st.created + (bspStep ip st.rng node).2.2.length =
              (st.rooms ++ (bspStep ip st.rng node).2.2).length
            rw [List.length_append, hinv.createdEq]
          · intro m hm
            show ip.roomSizeMin ≤ m.width ∧ ip.roomSizeMin ≤ m.height
            rcases List.mem_append.mp hm with hm1 | hm1
            · rcases List.mem_append.mp hm1 with hm2 | hm2
              · exact hinv.dims m (by
                  rw [hts]
                  exact List.mem_append_left _ (List.mem_cons_of_mem _ hm2))
              · exact (hsub m hm2).2
            · rcases List.mem_append.mp hm1 with hm2 | hm2
              · exact hinv.dims m (List.mem_append_right _ hm2)
              · rw [(hroom m hm2).1]
                exact ⟨hwn, hhn⟩
          · intro m hm
            rcases List.mem_append.mp hm with hm1 | hm1
            · exact hinv.roomDims m hm1
            · exact (hroom m hm1).2
          · show (((rest ++ (bspStep ip st.rng node).2.1) ++
              (st.rooms ++ (bspStep ip st.rng node).2.2)).map nodeArea).sum = A
            simp only [List.map_append, List.sum_append]
            rw [← holdA2]
            linarith [harea]
          · show ((rest ++ (bspStep ip st.rng node).2.1) ++
              (st.rooms ++ (bspStep ip st.rng node).2.2)).Pairwise rectDisjoint
            rcases hshape with hsh2 | ⟨hsh1, hsh2⟩
            · rw [hsh2, List.append_nil]
              rw [List.pairwise_append]
              refine ⟨?_, hroomsP, ?_⟩
              · rw [List.pairwise_append]
                refine ⟨hrestPP, hpair, ?_⟩
                intro a ha b hb
                exact rectDisjoint_symm _ _ (rectDisjoint_of_subRect b node a
                  (hsub b hb).1 (hnodeall a (List.mem_append_left _ ha)))
              · intro a ha b hb
                rcases List.mem_append.mp ha with ha1 | ha1
                · exact hcrossRR a ha1 b hb
                · exact rectDisjoint_of_subRect a node b (hsub a ha1).1
                    (hnodeall b (List.mem_append_right _ hb))
            · rw [hsh1, hsh2, List.append_nil]
              rw [List.pairwise_append]
              refine ⟨hrestPP, ?_, ?_⟩
              · rw [List.pairwise_append]
                refine ⟨hroomsP, List.pairwise_singleton _ _, ?_⟩
                intro a ha b hb
                rcases List.mem_singleton.mp hb with rfl
                exact rectDisjoint_symm _ _
                  (hnodeall a (List.mem_append_right _ ha))
              · intro a ha b hb
                rcases List.mem_append.mp hb with hb1 | hb1
                · exact hcrossRR a ha b hb1
                · rcases List.mem_singleton.mp hb1 with rfl
                  exact rectDisjoint_symm _ _
                    (hnodeall a (List.mem_append_left _ ha))
        obtain ⟨h1, h2⟩ := ih _ hinv2
        refine ⟨h1, ?_⟩
        refine le_trans h2 ?_
        have hlen : (bspStep ip st.rng node).2.2.length ≤ 1 := by
          rcases hshape with hsh2 | ⟨_, hsh2⟩ <;> rw [hsh2] <;> simp
        have hproj : (⟨(bspStep ip st.rng node).1,
            rest ++ (bspStep ip st.rng node).2.1,
            st.rooms ++ (bspStep ip st.rng node).2.2,
            st.created + (bspStep ip st.rng node).2.2.length⟩ : BSPState).created =
            st.created + (bspStep ip st.rng node).2.2.length := rfl
        rw [hproj]
        omega
      · rw [if_neg hcr]
        exact ⟨hinv, le_max_left _ _⟩

/-- Padding-inset room rectangles of disjoint leaves (each at least
roomSizeMin in both dimensions) stay disjoint: along the separated
axis both rooms are inset by corridorWidth on the low side and the
clamped width never exceeds the node width. -/
theorem roomRect_disjoint (ip : InteriorParams) (hp : 0 ≤ ip.corridorWidth)
    (a b : BSPNodeQ) (haw : ip.roomSizeMin ≤ a.width)
    (hah : ip.roomSizeMin ≤ a.height) (hbw : ip.roomSizeMin ≤ b.width)
    (hbh : ip.roomSizeMin ≤ b.height) (h : rectDisjoint a b) :
    rectDisjoint (roomRect ip a) (roomRect ip b) := by
  have hma : max ip.roomSizeMin (a.width - ip.corridorWidth * 2) ≤ a.width :=
    max_le haw (by linarith)
  have hmb : max ip.roomSizeMin (b.width - ip.corridorWidth * 2) ≤ b.width :=
    max_le hbw (by linarith)
  have hma2 : max ip.roomSizeMin (a.height - ip.corridorWidth * 2) ≤ a.height :=
    max_le hah (by linarith)
  have hmb2 : max ip.roomSizeMin (b.height - ip.corridorWidth * 2) ≤ b.height :=
    max_le hbh (by linarith)
  unfold roomRect rectDisjoint
  rcases h with h | h | h | h
  · exact Or.inl (by
      show a.x + ip.corridorWidth +
        max ip.roomSizeMin (a.width - ip.corridorWidth * 2) ≤
        b.x + ip.corridorWidth
      linarith)
  · exact Or.inr (Or.inl (by
      show b.x + ip.corridorWidth +
        max ip.roomSizeMin (b.width - ip.corridorWidth * 2) ≤
        a.x + ip.corridorWidth
      linarith))
  · exact Or.inr (Or.inr (Or.inl (by
      show a.y + ip.corridorWidth +
        max ip.roomSizeMin (a.height - ip.corridorWidth * 2) ≤
        b.y + ip.corridorWidth
      linarith)))
  · exact Or.inr (Or.inr (Or.inr (by
      show b.y + ip.corridorWidth +
        max ip.roomSizeMin (b.height - ip.corridorWidth * 2) ≤
        a.y + ip.corridorWidth
      linarith)))

/-- A leaf room occupies at most (3 roomSizeMin) x (15/4 roomSizeMin) =
45/4 roomSizeMin^2 of area. -/
theorem room_area_le (ip : InteriorParams) (hrm : 0 < ip.roomSizeMin)
    (n : BSPNodeQ) (hw : ip.roomSizeMin ≤ n.width)
    (hh : ip.roomSizeMin ≤ n.height)
    (hr : (n.width ≤ 3 * ip.roomSizeMin ∧ n.height ≤ (5/4) * n.width) ∨
      (n.height ≤ 3 * ip.roomSizeMin ∧ n.width ≤ (5/4) * n.height)) :
    nodeArea n ≤ (45/4) * ip.roomSizeMin ^ 2 := by
  unfold nodeArea
  rcases hr with ⟨h1, h2⟩ | ⟨h1, h2⟩
  · nlinarith
  · nlinarith

/-- C8: generateBSPInterior creates at most roomCount leaf rooms, the
padded room rectangles are pairwise non-overlapping, and whenever the
split loop has completed (work queue empty or quota reached) under a
generous budget (root area exceeding (roomCount - 1) times the maximal
leaf-room area 45/4 roomSizeMin^2), the number of leaf rooms is exactly
roomCount. -/
theorem generateBSPInterior_rooms (ip : InteriorParams) (sqrtRC : ℚ)
    (g : RandomGenerator) (roomCount fuel : ℕ)
    (hrm : 0 < ip.roomSizeMin) (hp : 0 ≤ ip.corridorWidth)
    (hW : ip.roomSizeMin ≤ ip.roomSizeMax * sqrtRC) :
    (generateBSPInterior ip sqrtRC g roomCount fuel).rooms.length ≤ roomCount ∧
    ((generateBSPInterior ip sqrtRC g roomCount fuel).rooms.map
      (roomRect ip)).Pairwise rectDisjoint ∧
    (((generateBSPInterior ip sqrtRC g roomCount fuel).toSplit = [] ∨
        (generateBSPInterior ip sqrtRC g roomCount fuel).created = roomCount) →
      ((roomCount : ℚ) - 1) * ((45/4) * ip.roomSizeMin ^ 2) <
        (ip.roomSizeMax * sqrtRC) * (ip.roomSizeMax * sqrtRC) →
      (generateBSPInterior ip sqrtRC g roomCount fuel).rooms.length = roomCount) := by
  have hinv0 : BSPInv ip
      ((ip.roomSizeMax * sqrtRC) * (ip.roomSizeMax * sqrtRC))
      ⟨g, [⟨-(ip.roomSizeMax * sqrtRC / 2), -(ip.roomSizeMax * sqrtRC / 2),
        ip.roomSizeMax * sqrtRC, ip.roomSizeMax * sqrtRC⟩], [], 0⟩ := by
    refine ⟨rfl, ?_, ?_, ?_, ?_⟩
    · intro n hn
      rcases List.mem_append.mp hn with hn1 | hn1
      · rcases List.mem_singleton.mp hn1 with rfl
        exact ⟨hW, hW⟩
      · cases hn1
    · intro n hn
      cases hn
    · show ((([⟨-(ip.roomSizeMax * sqrtRC / 2), -(ip.roomSizeMax * sqrtRC / 2),
        ip.roomSizeMax * sqrtRC, ip.roomSizeMax * sqrtRC⟩] : List BSPNodeQ) ++
        []).map nodeArea).sum = _
      simp [nodeArea]
    · show (([⟨-(ip.roomSizeMax * sqrtRC / 2), -(ip.roomSizeMax * sqrtRC / 2),
        ip.roomSizeMax * sqrtRC, ip.roomSizeMax * sqrtRC⟩] : List BSPNodeQ) ++
        []).Pairwise rectDisjoint
      simp
  have hrb : generateBSPInterior ip sqrtRC g roomCount fuel =
      bspLoop ip roomCount fuel
        ⟨g, [⟨-(ip.roomSizeMax * sqrtRC / 2), -(ip.roomSizeMax * sqrtRC / 2),
          ip.roomSizeMax * sqrtRC, ip.roomSizeMax * sqrtRC⟩], [], 0⟩ := rfl
  obtain ⟨hfin, hle⟩ := bspLoop_inv ip roomCount
    ((ip.roomSizeMax * sqrtRC) * (ip.roomSizeMax * sqrtRC)) hrm fuel _ hinv0
  rw [hrb]
  set stf := bspLoop ip roomCount fuel
    ⟨g, [⟨-(ip.roomSizeMax * sqrtRC / 2), -(ip.roomSizeMax * sqrtRC / 2),
      ip.roomSizeMax * sqrtRC, ip.roomSizeMax * sqrtRC⟩], [], 0⟩ with hstf
  have hlen : stf.rooms.length ≤ roomCount := by
    have h1 := hfin.createdEq
    have h2 : stf.created ≤ max 0 roomCount := hle
    omega
  have hdims : ∀ n ∈ stf.rooms,
      ip.roomSizeMin ≤ n.width ∧ ip.roomSizeMin ≤ n.height := by
    intro n hn
    exact hfin.dims n (List.mem_append_right _ hn)
  have hroomsP : stf.rooms.Pairwise rectDisjoint :=
    (List.pairwise_append.mp hfin.disj).2.1
  refine ⟨hlen, ?_, ?_⟩
  · rw [List.pairwise_map]
    refine List.Pairwise.imp_of_mem ?_ hroomsP
    intro a b ha hb hab
    exact roomRect_disjoint ip hp a b (hdims a ha).1 (hdims a ha).2
      (hdims b hb).1 (hdims b hb).2 hab
  · intro hdone harea
    by_contra hne
    have hlt : stf.rooms.length < roomCount := lt_of_le_of_ne hlen hne
    have hcreated : stf.created < roomCount := by
      rw [hfin.createdEq]
      exact hlt
    have hempty : stf.toSplit = [] := by
      rcases hdone with h | h
      · exact h
      · omega
    have hareaEq : ((stf.rooms.map nodeArea)).sum =
        (ip.roomSizeMax * sqrtRC) * (ip.roomSizeMax * sqrtRC) := by
      have := hfin.area
      rw [hempty] at this
      simpa using this
    have hbound : ∀ q ∈ stf.rooms.map nodeArea,
        q ≤ (45/4) * ip.roomSizeMin ^ 2 := by
      intro q hq
      obtain ⟨n, hn, rfl⟩ := List.mem_map.mp hq
      exact room_area_le ip hrm n (hdims n hn).1 (hdims n hn).2
        (hfin.roomDims n hn)
    have hsum := List.sum_le_card_nsmul (stf.rooms.map nodeArea)
      ((45/4) * ip.roomSizeMin ^ 2) hbound
    rw [List.length_map] at hsum
    rw [hareaEq] at hsum
    have hsmul : (stf.rooms.length : ℚ) * ((45/4) * ip.roomSizeMin ^ 2) =
        stf.rooms.length • ((45/4) * ip.roomSizeMin ^ 2) :=
      (nsmul_eq_mul _ _).symm
    rw [← hsmul] at hsum
    have hcast : (stf.rooms.length : ℚ) ≤ (roomCount : ℚ) - 1 := by
      have : stf.rooms.length + 1 ≤ roomCount := hlt
      have h2 : ((stf.rooms.length + 1 : ℕ) : ℚ) ≤ (roomCount : ℚ) := by
        exact_mod_cast this
      push_cast at h2
      linarith
    have hpos : (0:ℚ) ≤ (45/4) * ip.roomSizeMin ^ 2 := by positivity
    nlinarith

theorem generateBSPInterior_rooms_witness :
    (0 < c8ip.roomSizeMin ∧ 0 ≤ c8ip.corridorWidth ∧
      c8ip.roomSizeMin ≤ c8ip.roomSizeMax * 1) ∧
    ((generateBSPInterior c8ip 1 (RandomGenerator.ofSeed 1) 1 1).rooms.length ≤ 1 ∧
    ((generateBSPInterior c8ip 1 (RandomGenerator.ofSeed 1) 1 1).rooms.map
      (roomRect c8ip)).Pairwise rectDisjoint ∧
    (((generateBSPInterior c8ip 1 (RandomGenerator.ofSeed 1) 1 1).toSplit = [] ∨
        (generateBSPInterior c8ip 1 (RandomGenerator.ofSeed 1) 1 1).created = 1) →
      ((1 : ℚ) - 1) * ((45/4) * c8ip.roomSizeMin ^ 2) <
        (c8ip.roomSizeMax * 1) * (c8ip.roomSizeMax * 1) →
      (generateBSPInterior c8ip 1 (RandomGenerator.ofSeed 1) 1 1).rooms.length = 1)) :=
  ⟨⟨by with_unfolding_all decide, by with_unfolding_all decide,
    by with_unfolding_all decide⟩,
    generateBSPInterior_rooms c8ip 1 (RandomGenerator.ofSeed 1) 1 1
      (by with_unfolding_all decide) (by with_unfolding_all decide)
      (by with_unfolding_all decide)⟩


end CSMProcs
